import Mathlib

/-!
# Verification of the Dynamic-Pathfinding-Agent core

A shallow embedding of the pathfinding engine of the repository:

* `modules/constants.py` — cell state codes,
* `modules/heuristics.py` — `manhattan_distance`,
* `modules/algorithms.py` — `get_neighbors`, `reconstruct_path`,
  `greedy_bfs`, `astar`, `run_algorithm`,
* `modules/grid.py` — `GridManager` and its mutation operations.

Modelling conventions:

* Coordinates are pairs of mathematical integers (Python ints).
* The Python `heapq` min-heap is modelled as a list of entries together
  with `popMin`, which removes a minimal entry under the lexicographic
  tuple order that `heapq` uses.  In both search algorithms all entries
  simultaneously present in the heap are pairwise distinct tuples
  (duplicate pushes of a node carry strictly smaller `g`), so the popped
  entry is the unique minimum and the model agrees with CPython exactly.
* `while` loops are modelled with an explicit fuel parameter; the outer
  `Option` layer of a loop's result is `none` when the fuel runs out or
  a Python-level fault (`KeyError`/`IndexError`) would occur, and `some`
  when the source function returns normally.
* Python list indexing (`l[i]`, `l[i] = v`) is modelled by `pyIdx` /
  `pyGet` / `pySet`, including negative-index wrap-around; an index
  outside `-len ≤ i < len` is an `IndexError`, modelled as `none`.
* `random.random()` / `random.randint` draws are passed in explicitly as
  streams of rationals resp. pairs of naturals, with their range
  contracts (`0 ≤ d < 1`, `r < rows`) as hypotheses where needed.
-/

-- ──────────────────────────────────────────────────────────
-- constants.py: cell state codes
-- ──────────────────────────────────────────────────────────

def EMPTY : Nat := 0

def OBSTACLE : Nat := 1

def START : Nat := 2

def GOAL : Nat := 3

/-- A grid coordinate `(row, col)`, a pair of Python ints. -/
abbrev Coord := Int × Int

/-- The raw 2-D list of cell states (`GridManager.cells` /
the `grid` argument of the search functions). -/
abbrev Cells := List (List Nat)

-- ──────────────────────────────────────────────────────────
-- Python list indexing
-- ──────────────────────────────────────────────────────────

/-- Resolve a Python index `i` on a list of length `n` to an array
offset: non-negative indices are used as-is, negative ones wrap around
(`l[-1]` is the last element), anything else is an `IndexError`. -/
def pyIdx (n : Nat) (i : Int) : Option Nat :=
  if 0 ≤ i then
    if i < (n : Int) then some i.toNat else none
  else
    if 0 ≤ (n : Int) + i then some ((n : Int) + i).toNat else none

/-- Python `l[i]` (read). -/
def pyGet {α : Type} (l : List α) (i : Int) : Option α :=
  (pyIdx l.length i).bind (fun j => l[j]?)

/-- Python `l[i] = v` (write); `none` is an `IndexError`. -/
def pySet {α : Type} (l : List α) (i : Int) (v : α) : Option (List α) :=
  (pyIdx l.length i).map (fun j => l.set j v)

/-- Python `cells[r][c]` (read). -/
def pyGet2 (cells : Cells) (r c : Int) : Option Nat :=
  (pyGet cells r).bind (fun row => pyGet row c)

/-- Python `cells[r][c] = v` (write). -/
def pySet2 (cells : Cells) (r c : Int) (v : Nat) : Option Cells :=
  match pyIdx cells.length r with
  | none => none
  | some j =>
    match cells[j]? with
    | none => none
    | some row => (pySet row c v).map (fun row' => cells.set j row')

-- ──────────────────────────────────────────────────────────
-- heuristics.py
-- ──────────────────────────────────────────────────────────

/-- `manhattan_distance(a, b) = abs(a[0]-b[0]) + abs(a[1]-b[1])`.
The Python result is a non-negative int, embedded as a `Nat`. -/
def manhattan_distance (a b : Coord) : Nat :=
  (a.1 - b.1).natAbs + (a.2 - b.2).natAbs

-- ──────────────────────────────────────────────────────────
-- algorithms.py: get_neighbors
-- ──────────────────────────────────────────────────────────

/-- Read of `grid[nr][nc]` performed by `get_neighbors` after its bounds
check; with the bounds check passed and a well-formed grid this equals
the Python access (the default is never hit). -/
def cellAt (grid : Cells) (r c : Int) : Nat :=
  (grid.getD r.toNat []).getD c.toNat EMPTY

/-- `get_neighbors(grid, row, col, rows, cols)`: the 4-connected
neighbours, in direction order up, down, left, right, filtered to
in-bounds and non-`OBSTACLE` cells. -/
def get_neighbors (grid : Cells) (row col : Int) (rows cols : Nat) : List Coord :=
  ([(-1, 0), (1, 0), (0, -1), (0, 1)] : List (Int × Int)).filterMap
    (fun d =>
      let nr := row + d.1
      let nc := col + d.2
      if 0 ≤ nr ∧ nr < (rows : Int) ∧ 0 ≤ nc ∧ nc < (cols : Int) ∧
          cellAt grid nr nc ≠ OBSTACLE then
        some (nr, nc)
      else none)

-- ──────────────────────────────────────────────────────────
-- heapq model
-- ──────────────────────────────────────────────────────────

/-- Python tuple `≤` on coordinates (lexicographic on two ints). -/
def coordLe (a b : Coord) : Bool :=
  a.1 < b.1 || (a.1 == b.1 && a.2 ≤ b.2)

/-- A greedy-BFS heap entry `(priority, node)` with `priority = h(n)`. -/
abbrev GEntry := Nat × Coord

/-- Python tuple `≤` on greedy-BFS heap entries. -/
def gentryLe (x y : GEntry) : Bool :=
  x.1 < y.1 || (x.1 == y.1 && coordLe x.2 y.2)

/-- An A* heap entry `(f_score, g_score, node)`. -/
abbrev AEntry := Nat × Nat × Coord

/-- Python tuple `≤` on A* heap entries. -/
def aentryLe (x y : AEntry) : Bool :=
  x.1 < y.1 ||
    (x.1 == y.1 &&
      (x.2.1 < y.2.1 || (x.2.1 == y.2.1 && coordLe x.2.2 y.2.2)))

/-- `heapq.heappop`: remove a minimal element under `le` (the leftmost
one on ties; ties never occur in the uses below, where all entries are
pairwise distinct), returning it and the remaining entries. -/
def popMin {α : Type} (le : α → α → Bool) : List α → Option (α × List α)
  | [] => none
  | x :: xs =>
    match popMin le xs with
    | none => some (x, [])
    | some (m, rest) =>
      if le x m then some (x, xs) else some (m, x :: rest)

-- ──────────────────────────────────────────────────────────
-- algorithms.py: reconstruct_path
-- ──────────────────────────────────────────────────────────

/-- The came-from map `{node: parent}`; an association list, newest
binding first (a Python dict overwrite shadows the old binding). -/
abbrev CameFrom := List (Coord × Option Coord)

/-- The `while current is not None` loop of `reconstruct_path`.  The
accumulator holds the collected cells in reverse append order, so the
final `path.reverse()` of the source makes the accumulator itself the
result.  A missing key is a Python `KeyError` (`none`), and running out
of fuel is `none` as well (the source loop would not terminate only on
a cyclic map, which never arises). -/
def reconstructAux (cameFrom : CameFrom) :
    Nat → Option Coord → List Coord → Option (List Coord)
  | 0, _, _ => none
  | _ + 1, none, acc => some acc
  | fuel + 1, some cur, acc =>
    match cameFrom.lookup cur with
    | none => none
    | some parent => reconstructAux cameFrom fuel parent (cur :: acc)

/-- `reconstruct_path(came_from, goal)`: walk the map backward from
`goal`, then reverse.  `cameFrom.length + 1` steps always suffice for
the acyclic maps the searches build. -/
def reconstruct_path (cameFrom : CameFrom) (goal : Coord) : Option (List Coord) :=
  reconstructAux cameFrom (cameFrom.length + 1) (some goal) []

-- ──────────────────────────────────────────────────────────
-- algorithms.py: greedy_bfs
-- ──────────────────────────────────────────────────────────

/-- Result triple of one search: the optional path, the visitation
order, and the frontier snapshots (`frozenset`s of coordinates). -/
abbrev SearchResult := Option (List Coord) × List Coord × List (Finset Coord)

/-- The neighbour-expansion `for` loop body of `greedy_bfs`: an
undiscovered neighbour gets a came-from binding and is pushed keyed by
its own `h`-value. -/
def greedyExpand (goal : Coord) (h : Coord → Coord → Nat) (current : Coord)
    (st : List GEntry × CameFrom) (nb : Coord) : List GEntry × CameFrom :=
  if (st.2.lookup nb).isSome then st
  else ((h nb goal, nb) :: st.1, (nb, some current) :: st.2)

/-- The `while open_list` loop of `greedy_bfs`. -/
def greedyLoop (grid : Cells) (rows cols : Nat) (goal : Coord)
    (h : Coord → Coord → Nat) :
    Nat → List GEntry → CameFrom → List Coord → List (Finset Coord) →
    Option SearchResult
  | 0, _, _, _, _ => none
  | fuel + 1, openList, cameFrom, visited, snaps =>
    match popMin gentryLe openList with
    | none => some (none, visited, snaps)
    | some ((_, current), rest) =>
      let visited' := visited ++ [current]
      if current = goal then
        match reconstruct_path cameFrom goal with
        | none => none
        | some p => some (some p, visited', snaps)
      else
        let st := (get_neighbors grid current.1 current.2 rows cols).foldl
          (greedyExpand goal h current) (rest, cameFrom)
        let snaps' := snaps ++ [(st.1.map (·.2)).toFinset]
        greedyLoop grid rows cols goal h fuel st.1 st.2 visited' snaps'

/-- `greedy_bfs(grid, start, goal, rows, cols, heuristic_fn)`,
with an explicit fuel for the main loop. -/
def greedy_bfs (grid : Cells) (start goal : Coord) (rows cols : Nat)
    (h : Coord → Coord → Nat) (fuel : Nat) : Option SearchResult :=
  greedyLoop grid rows cols goal h fuel
    [(h start goal, start)] [(start, none)] [] []

-- ──────────────────────────────────────────────────────────
-- algorithms.py: astar
-- ──────────────────────────────────────────────────────────

/-- A* g-score map, an association list, newest binding first. -/
abbrev GScore := List (Coord × Nat)

/-- The neighbour-expansion `for` loop body of `astar`.  `gcur` is
`g_score[current]`, looked up once: the loop never rebinds `current`
(a cell is never its own neighbour), so the per-iteration lookup of the
source always yields this same value. -/
def astarExpand (goal : Coord) (h : Coord → Coord → Nat) (current : Coord)
    (gcur : Nat) (closed : List Coord)
    (st : List AEntry × CameFrom × GScore) (nb : Coord) :
    List AEntry × CameFrom × GScore :=
  if nb ∈ closed then st
  else
    let tentative := gcur + 1
    let better :=
      match st.2.2.lookup nb with
      | none => true
      | some gn => tentative < gn
    if better then
      ((tentative + h nb goal, tentative, nb) :: st.1,
       (nb, some current) :: st.2.1,
       (nb, tentative) :: st.2.2)
    else st

/-- The `while open_list` loop of `astar`. -/
def astarLoop (grid : Cells) (rows cols : Nat) (goal : Coord)
    (h : Coord → Coord → Nat) :
    Nat → List AEntry → CameFrom → GScore → List Coord → List Coord →
    List (Finset Coord) → Option SearchResult
  | 0, _, _, _, _, _, _ => none
  | fuel + 1, openList, cameFrom, gScore, closed, visited, snaps =>
    match popMin aentryLe openList with
    | none => some (none, visited, snaps)
    | some ((_, _, current), rest) =>
      if current ∈ closed then
        astarLoop grid rows cols goal h fuel rest cameFrom gScore closed
          visited snaps
      else
        let closed' := current :: closed
        let visited' := visited ++ [current]
        if current = goal then
          match reconstruct_path cameFrom goal with
          | none => none
          | some p => some (some p, visited', snaps)
        else
          match gScore.lookup current with
          | none => none
          | some gcur =>
            let st := (get_neighbors grid current.1 current.2 rows cols).foldl
              (astarExpand goal h current gcur closed') (rest, cameFrom, gScore)
            let snaps' := snaps ++ [(st.1.map (·.2.2)).toFinset]
            astarLoop grid rows cols goal h fuel st.1 st.2.1 st.2.2 closed'
              visited' snaps'

/-- `astar(grid, start, goal, rows, cols, heuristic_fn)`,
with an explicit fuel for the main loop. -/
def astar (grid : Cells) (start goal : Coord) (rows cols : Nat)
    (h : Coord → Coord → Nat) (fuel : Nat) : Option SearchResult :=
  astarLoop grid rows cols goal h fuel
    [(h start goal, 0, start)] [(start, none)] [(start, 0)] [] [] []

-- ──────────────────────────────────────────────────────────
-- algorithms.py: run_algorithm
-- ──────────────────────────────────────────────────────────

/-- `run_algorithm(algo_name, ...)`: dispatch to `astar` exactly for the
name `"A*"`, and to `greedy_bfs` for every other name. -/
def run_algorithm (algo_name : String) (grid : Cells) (start goal : Coord)
    (rows cols : Nat) (h : Coord → Coord → Nat) (fuel : Nat) :
    Option SearchResult :=
  if algo_name = "A*" then astar grid start goal rows cols h fuel
  else greedy_bfs grid start goal rows cols h fuel

-- ──────────────────────────────────────────────────────────
-- grid.py: GridManager
-- ──────────────────────────────────────────────────────────

/-- The state of a `GridManager` instance. -/
structure GridManager where
  rows : Nat
  cols : Nat
  start : Coord
  goal : Coord
  cells : Cells
  deriving Repr, DecidableEq

/-- `GridManager.__init__(rows, cols)`: an all-`EMPTY` grid with
`START` marked at `(0, 0)` and `GOAL` at `(rows-1, cols-1)` (the two
writes raise on an empty grid, hence the `Option`). -/
def createGrid (rows cols : Nat) : Option GridManager :=
  let cells0 : Cells := List.replicate rows (List.replicate cols EMPTY)
  (pySet2 cells0 0 0 START).bind (fun c1 =>
    (pySet2 c1 ((rows : Int) - 1) ((cols : Int) - 1) GOAL).map (fun c2 =>
      { rows := rows, cols := cols, start := (0, 0),
        goal := ((rows : Int) - 1, (cols : Int) - 1), cells := c2 }))

/-- `_is_safe_to_edit(row, col)`: editable iff not the start, not the
goal, and in bounds (checked in that order). -/
def isSafeToEdit (gm : GridManager) (row col : Int) : Bool :=
  if (row, col) = gm.start then false
  else if (row, col) = gm.goal then false
  else if ¬ (0 ≤ row ∧ row < (gm.rows : Int)) then false
  else if ¬ (0 ≤ col ∧ col < (gm.cols : Int)) then false
  else true

/-- `toggle_obstacle(row, col)`: flip `EMPTY` ↔ `OBSTACLE` unless the
cell is protected or out of bounds, in which case return the `None`
sentinel.  Result: `(new state, returned value)`; the outer `none` is a
Python fault (never reached from a well-formed state). -/
def toggle_obstacle (gm : GridManager) (row col : Int) :
    Option (GridManager × Option Nat) :=
  if ¬ isSafeToEdit gm row col then some (gm, none)
  else
    match pyGet2 gm.cells row col with
    | none => none
    | some v =>
      if v = OBSTACLE then
        (pySet2 gm.cells row col EMPTY).map
          (fun cs => ({ gm with cells := cs }, some EMPTY))
      else
        (pySet2 gm.cells row col OBSTACLE).map
          (fun cs => ({ gm with cells := cs }, some OBSTACLE))

/-- `place_obstacle(row, col)`: place an obstacle if allowed; returns
whether one was placed. -/
def place_obstacle (gm : GridManager) (row col : Int) :
    Option (GridManager × Bool) :=
  if ¬ isSafeToEdit gm row col then some (gm, false)
  else
    match pyGet2 gm.cells row col with
    | none => none
    | some v =>
      if v = OBSTACLE then some (gm, false)
      else
        (pySet2 gm.cells row col OBSTACLE).map
          (fun cs => ({ gm with cells := cs }, true))

/-- `clear_obstacles()`: every `OBSTACLE` cell becomes `EMPTY`; the
nested `for` loops only rewrite cells whose read succeeds, so the
operation is total on the stored lists. -/
def clear_obstacles (gm : GridManager) : GridManager :=
  { gm with cells :=
      gm.cells.map (fun row => row.map (fun v => if v = OBSTACLE then EMPTY else v)) }

/-- One cell update of `generate_random`: skip the start and goal
coordinates without consuming a draw; otherwise consume draw number
`st.2` and write `OBSTACLE` when it is `< density`, else `EMPTY`. -/
def genRandomCell (startc goalc : Coord) (density : ℚ) (draws : Nat → ℚ)
    (st : Option Cells × Nat) (rc : Nat × Nat) : Option Cells × Nat :=
  if ((rc.1 : Int), (rc.2 : Int)) = startc ∨ ((rc.1 : Int), (rc.2 : Int)) = goalc then st
  else
    let v := if draws st.2 < density then OBSTACLE else EMPTY
    (st.1.bind (fun cs => pySet2 cs rc.1 rc.2 v), st.2 + 1)

/-- `generate_random(density_percent)`: re-roll every non-start/goal
cell to `OBSTACLE` with probability `density_percent / 100`, else
`EMPTY`, iterating rows then columns.  `draws` is the stream of
`random.random()` results. -/
def generate_random (gm : GridManager) (density_percent : ℚ)
    (draws : Nat → ℚ) : Option GridManager :=
  let density := density_percent / 100
  let idxs := (List.range gm.rows).flatMap
    (fun r => (List.range gm.cols).map (fun c => (r, c)))
  let st := idxs.foldl (genRandomCell gm.start gm.goal density draws)
    (some gm.cells, 0)
  st.1.map (fun cs => { gm with cells := cs })

/-- `move_start(new_row, new_col)`: rejected (sentinel `none`) when
the target equals the goal; otherwise the old start cell becomes
`EMPTY` and the new cell becomes `START`.  No bounds check is made:
an out-of-range index is an `IndexError` (outer `none`). -/
def move_start (gm : GridManager) (new_row new_col : Int) :
    Option (GridManager × Option Coord) :=
  if (new_row, new_col) = gm.goal then some (gm, none)
  else
    let old := gm.start
    match pySet2 gm.cells old.1 old.2 EMPTY with
    | none => none
    | some cs1 =>
      match pySet2 cs1 new_row new_col START with
      | none => none
      | some cs2 =>
        some ({ gm with start := (new_row, new_col), cells := cs2 }, some old)

/-- `move_goal(new_row, new_col)`: mirror image of `move_start`. -/
def move_goal (gm : GridManager) (new_row new_col : Int) :
    Option (GridManager × Option Coord) :=
  if (new_row, new_col) = gm.start then some (gm, none)
  else
    let old := gm.goal
    match pySet2 gm.cells old.1 old.2 EMPTY with
    | none => none
    | some cs1 =>
      match pySet2 cs1 new_row new_col GOAL with
      | none => none
      | some cs2 =>
        some ({ gm with goal := (new_row, new_col), cells := cs2 }, some old)

/-- The `for _ in range(20)` loop of `try_spawn_dynamic_obstacle`,
iterating over the remaining attempt indices.  `picks` is the stream of
`(random.randint(0, rows-1), random.randint(0, cols-1))` pairs. -/
def spawnAttempts (gm : GridManager) (agent_pos : Coord)
    (current_path : List Coord) (picks : Nat → Nat × Nat) :
    List Nat → Option (GridManager × Option Coord × Bool)
  | [] => some (gm, none, false)
  | i :: rest =>
    let r := (picks i).1
    let c := (picks i).2
    if ((r : Int), (c : Int)) = gm.start then
      spawnAttempts gm agent_pos current_path picks rest
    else if ((r : Int), (c : Int)) = gm.goal then
      spawnAttempts gm agent_pos current_path picks rest
    else if ((r : Int), (c : Int)) = agent_pos then
      spawnAttempts gm agent_pos current_path picks rest
    else
      match pyGet2 gm.cells r c with
      | none => none
      | some v =>
        if v = OBSTACLE then
          spawnAttempts gm agent_pos current_path picks rest
        else
          (pySet2 gm.cells r c OBSTACLE).map
            (fun cs =>
              ({ gm with cells := cs }, some ((r : Int), (c : Int)),
                decide (((r : Int), (c : Int)) ∈ current_path)))

/-- `try_spawn_dynamic_obstacle(agent_pos, current_path, spawn_prob)`:
no-op when the first `random.random()` draw exceeds `spawn_prob`,
otherwise up to 20 random cell picks, placing an obstacle on the first
unprotected free cell and reporting whether it lies on the path. -/
def try_spawn_dynamic_obstacle (gm : GridManager) (agent_pos : Coord)
    (current_path : List Coord) (spawn_prob : ℚ) (draw : ℚ)
    (picks : Nat → Nat × Nat) : Option (GridManager × Option Coord × Bool) :=
  if draw > spawn_prob then some (gm, none, false)
  else spawnAttempts gm agent_pos current_path picks (List.range 20)

-- ──────────────────────────────────────────────────────────
-- Basic lemmas: popMin
-- ──────────────────────────────────────────────────────────

theorem popMin_eq_none {α : Type} (le : α → α → Bool) (l : List α) :
    popMin le l = none ↔ l = [] := by
  cases l with
  | nil => simp [popMin]
  | cons x xs =>
    simp only [popMin]
    cases h : popMin le xs with
    | none => simp
    | some p =>
      obtain ⟨m, rest⟩ := p
      by_cases hle : le x m <;> simp [hle]

theorem popMin_perm {α : Type} (le : α → α → Bool) :
    ∀ {l : List α} {m : α} {rest : List α},
      popMin le l = some (m, rest) → l.Perm (m :: rest)
  | [], _, _, h => by simp [popMin] at h
  | x :: xs, m, rest, h => by
    simp only [popMin] at h
    cases hx : popMin le xs with
    | none =>
      rw [hx] at h
      obtain rfl := (popMin_eq_none le xs).mp hx
      simp only [Option.some.injEq, Prod.mk.injEq] at h
      obtain ⟨rfl, rfl⟩ := h
      exact List.Perm.refl _
    | some p =>
      obtain ⟨m', rest'⟩ := p
      rw [hx] at h
      have hperm' : xs.Perm (m' :: rest') := popMin_perm le hx
      by_cases hle : le x m'
      · simp only [hle, if_pos, Option.some.injEq, Prod.mk.injEq] at h
        obtain ⟨rfl, rfl⟩ := h
        exact List.Perm.refl _
      · simp only [hle, if_neg, Bool.false_eq_true, not_false_iff,
          Option.some.injEq, Prod.mk.injEq] at h
        obtain ⟨rfl, rfl⟩ := h
        exact (hperm'.cons x).trans (List.Perm.swap m' x rest')

theorem popMin_min {α : Type} (le : α → α → Bool)
    (htr : ∀ a b c, le a b = true → le b c = true → le a c = true)
    (htot : ∀ a b, le a b = true ∨ le b a = true) :
    ∀ {l : List α} {m : α} {rest : List α},
      popMin le l = some (m, rest) → ∀ y ∈ l, le m y = true
  | [], _, _, h => by simp [popMin] at h
  | x :: xs, m, rest, h => by
    simp only [popMin] at h
    cases hx : popMin le xs with
    | none =>
      rw [hx] at h
      obtain rfl := (popMin_eq_none le xs).mp hx
      simp only [Option.some.injEq, Prod.mk.injEq] at h
      obtain ⟨rfl, rfl⟩ := h
      intro y hy
      simp only [List.mem_singleton] at hy
      subst hy
      rcases htot y y with h' | h' <;> exact h'
    | some p =>
      obtain ⟨m', rest'⟩ := p
      rw [hx] at h
      have hmin' : ∀ y ∈ xs, le m' y = true := popMin_min le htr htot hx
      by_cases hle : le x m'
      · simp only [hle, if_pos, Option.some.injEq, Prod.mk.injEq] at h
        obtain ⟨rfl, rfl⟩ := h
        intro y hy
        rcases List.mem_cons.mp hy with rfl | hy'
        · rcases htot y y with h' | h' <;> exact h'
        · exact htr _ _ _ hle (hmin' y hy')
      · simp only [hle, if_neg, Bool.false_eq_true, not_false_iff,
          Option.some.injEq, Prod.mk.injEq] at h
        obtain ⟨rfl, rfl⟩ := h
        intro y hy
        rcases List.mem_cons.mp hy with rfl | hy'
        · rcases htot y m' with h' | h'
          · exact absurd h' hle
          · exact h'
        · exact hmin' y hy'

theorem coordLe_trans (a b c : Coord) (hab : coordLe a b = true)
    (hbc : coordLe b c = true) : coordLe a c = true := by
  simp only [coordLe, Bool.or_eq_true, Bool.and_eq_true, decide_eq_true_eq,
    beq_iff_eq] at *
  omega

theorem coordLe_total (a b : Coord) :
    coordLe a b = true ∨ coordLe b a = true := by
  simp only [coordLe, Bool.or_eq_true, Bool.and_eq_true, decide_eq_true_eq,
    beq_iff_eq]
  omega

theorem aentryLe_trans (a b c : AEntry) (hab : aentryLe a b = true)
    (hbc : aentryLe b c = true) : aentryLe a c = true := by
  simp only [aentryLe, coordLe, Bool.or_eq_true, Bool.and_eq_true,
    decide_eq_true_eq, beq_iff_eq] at *
  omega

theorem aentryLe_total (a b : AEntry) :
    aentryLe a b = true ∨ aentryLe b a = true := by
  simp only [aentryLe, coordLe, Bool.or_eq_true, Bool.and_eq_true,
    decide_eq_true_eq, beq_iff_eq]
  omega

theorem gentryLe_trans (a b c : GEntry) (hab : gentryLe a b = true)
    (hbc : gentryLe b c = true) : gentryLe a c = true := by
  simp only [gentryLe, coordLe, Bool.or_eq_true, Bool.and_eq_true,
    decide_eq_true_eq, beq_iff_eq] at *
  omega

theorem gentryLe_total (a b : GEntry) :
    gentryLe a b = true ∨ gentryLe b a = true := by
  simp only [gentryLe, coordLe, Bool.or_eq_true, Bool.and_eq_true,
    decide_eq_true_eq, beq_iff_eq]
  omega

/-- First component of an `aentryLe`-comparison: the `f`-scores are
ordered. -/
theorem aentryLe_fst {x y : AEntry} (h : aentryLe x y = true) : x.1 ≤ y.1 := by
  simp only [aentryLe, Bool.or_eq_true, Bool.and_eq_true, decide_eq_true_eq,
    beq_iff_eq] at h
  omega

-- ──────────────────────────────────────────────────────────
-- Concrete fixtures used by witnesses and counterexamples
-- ──────────────────────────────────────────────────────────

/-- An obstacle-free `rows × cols` grid of `EMPTY` cells. -/
def emptyGrid (rows cols : Nat) : Cells :=
  List.replicate rows (List.replicate cols EMPTY)

-- ──────────────────────────────────────────────────────────
-- C9: run_algorithm dispatch
-- ──────────────────────────────────────────────────────────

/-- C9: `run_algorithm` invokes `astar` exactly when the name is `"A*"`
and falls back to `greedy_bfs` for every other name, returning that
call's result unchanged (no error path exists). -/
theorem run_algorithm_dispatch :
    (∀ grid start goal rows cols h fuel,
        run_algorithm "A*" grid start goal rows cols h fuel =
          astar grid start goal rows cols h fuel) ∧
    (∀ name, name ≠ "A*" → ∀ grid start goal rows cols h fuel,
        run_algorithm name grid start goal rows cols h fuel =
          greedy_bfs grid start goal rows cols h fuel) := by
  constructor
  · intro grid start goal rows cols h fuel
    simp [run_algorithm]
  · intro name hname grid start goal rows cols h fuel
    simp [run_algorithm, hname]

/-- Witness for C9 at the unrecognized name `"Dijkstra"` and at `"A*"`
on a concrete 2×2 grid. -/
theorem run_algorithm_dispatch_witness :
    run_algorithm "A*" (emptyGrid 2 2) (0, 0) (1, 1) 2 2
        manhattan_distance 20 =
      astar (emptyGrid 2 2) (0, 0) (1, 1) 2 2 manhattan_distance 20 ∧
    run_algorithm "Dijkstra" (emptyGrid 2 2) (0, 0) (1, 1) 2 2
        manhattan_distance 20 =
      greedy_bfs (emptyGrid 2 2) (0, 0) (1, 1) 2 2 manhattan_distance 20 :=
  ⟨run_algorithm_dispatch.1 _ _ _ _ _ _ _,
   run_algorithm_dispatch.2 "Dijkstra" (by decide) _ _ _ _ _ _ _⟩

-- ──────────────────────────────────────────────────────────
-- Well-formed cell grids and indexing lemmas
-- ──────────────────────────────────────────────────────────

/-- The stored 2-D list has exactly `rows` rows of `cols` cells each. -/
def CellsWF (cells : Cells) (rows cols : Nat) : Prop :=
  cells.length = rows ∧ ∀ row ∈ cells, row.length = cols

/-- Total read of cell `(r, c)` (used for reasoning; agrees with the
Python read on well-formed grids and in-bounds indices). -/
def getCell (cells : Cells) (r c : Nat) : Nat :=
  (cells.getD r []).getD c EMPTY

/-- Total write of cell `(r, c)`. -/
def setCell (cells : Cells) (r c : Nat) (v : Nat) : Cells :=
  cells.set r ((cells.getD r []).set c v)

theorem cellAt_coe (cells : Cells) (r c : Nat) :
    cellAt cells (r : Int) (c : Int) = getCell cells r c := by
  simp [cellAt, getCell]

theorem pyIdx_coe {n i : Nat} (h : i < n) : pyIdx n (i : Int) = some i := by
  simp [pyIdx, h]

theorem pyIdx_big {n : Nat} {i : Int} (h : (n : Int) ≤ i) : pyIdx n i = none := by
  have h0 : (0 : Int) ≤ i := le_trans (Int.ofNat_nonneg n) h
  simp [pyIdx, h0, not_lt.mpr h]

theorem getD_eq_getElem {α : Type} (l : List α) (d : α) {i : Nat}
    (h : i < l.length) : l.getD i d = l[i] := by
  simp [List.getD_eq_getElem?_getD, List.getElem?_eq_getElem h]

theorem pyGet_coe {α : Type} {l : List α} {i : Nat} (h : i < l.length) :
    pyGet l (i : Int) = some l[i] := by
  simp [pyGet, pyIdx_coe h, List.getElem?_eq_getElem h]

theorem pySet_coe {α : Type} {l : List α} {i : Nat} (h : i < l.length)
    (v : α) : pySet l (i : Int) v = some (l.set i v) := by
  simp [pySet, pyIdx_coe h]

theorem pyGet2_wf {cells : Cells} {rows cols : Nat}
    (hwf : CellsWF cells rows cols) {r c : Nat} (hr : r < rows)
    (hc : c < cols) :
    pyGet2 cells (r : Int) (c : Int) = some (getCell cells r c) := by
  obtain ⟨hlen, hrow⟩ := hwf
  have hr' : r < cells.length := hlen ▸ hr
  have hc' : c < (cells[r]).length := by
    rw [hrow _ (List.getElem_mem hr')]; exact hc
  rw [pyGet2, pyGet_coe hr', Option.some_bind, pyGet_coe hc', getCell,
    getD_eq_getElem _ _ hr', getD_eq_getElem _ _ hc']

theorem pySet2_wf {cells : Cells} {rows cols : Nat}
    (hwf : CellsWF cells rows cols) {r c : Nat} (hr : r < rows)
    (hc : c < cols) (v : Nat) :
    pySet2 cells (r : Int) (c : Int) v = some (setCell cells r c v) := by
  obtain ⟨hlen, hrow⟩ := hwf
  have hr' : r < cells.length := hlen ▸ hr
  have hc' : c < (cells[r]).length := by
    rw [hrow _ (List.getElem_mem hr')]; exact hc
  simp only [pySet2, pyIdx_coe hr', List.getElem?_eq_getElem hr',
    pySet_coe hc']
  rw [setCell, getD_eq_getElem _ _ hr']
  rfl

theorem setCell_wf {cells : Cells} {rows cols : Nat}
    (hwf : CellsWF cells rows cols) (r c v : Nat) :
    CellsWF (setCell cells r c v) rows cols := by
  obtain ⟨hlen, hrow⟩ := hwf
  refine ⟨by simp [setCell, hlen], ?_⟩
  intro row hmem
  by_cases hr : r < cells.length
  · rcases List.mem_or_eq_of_mem_set hmem with hmem' | rfl
    · exact hrow _ hmem'
    · rw [List.length_set, getD_eq_getElem _ _ hr]
      exact hrow _ (List.getElem_mem hr)
  · rw [setCell, List.set_eq_of_length_le (by omega)] at hmem
    exact hrow _ hmem

/-- `getCell` in `getElem?` normal form. -/
theorem getCell_eq_getElem? (cells : Cells) (r c : Nat) :
    getCell cells r c = ((cells[r]?).getD [])[c]?.getD EMPTY := by
  rw [getCell, List.getD_eq_getElem?_getD, List.getD_eq_getElem?_getD]

theorem getCell_setCell {cells : Cells} {r c : Nat}
    (hr : r < cells.length) (hc : c < (cells[r]).length) (v : Nat)
    (r' c' : Nat) :
    getCell (setCell cells r c v) r' c' =
      if r' = r ∧ c' = c then v else getCell cells r' c' := by
  rw [getCell_eq_getElem?, getCell_eq_getElem?, setCell, List.getElem?_set]
  by_cases heq : r' = r
  · subst heq
    simp only [if_pos rfl, if_pos hr, Option.getD_some,
      getD_eq_getElem _ _ hr, List.getElem?_set, List.getElem?_eq_getElem hr]
    by_cases heqc : c' = c
    · subst heqc
      simp [hc]
    · have hne : ¬ (c = c') := fun h => heqc h.symm
      simp [hne, heqc]
  · rw [if_neg (fun h => heq h.symm), if_neg (fun h => heq h.1)]

-- ──────────────────────────────────────────────────────────
-- C2: rejection of invalid edits
-- ──────────────────────────────────────────────────────────

theorem isSafeToEdit_true {gm : GridManager} {row col : Int}
    (h : isSafeToEdit gm row col = true) :
    (row, col) ≠ gm.start ∧ (row, col) ≠ gm.goal ∧
      0 ≤ row ∧ row < (gm.rows : Int) ∧ 0 ≤ col ∧ col < (gm.cols : Int) := by
  unfold isSafeToEdit at h
  split_ifs at h with h1 h2 h3 h4
  exact ⟨h1, h2, by omega, by omega⟩

/-- The fresh 2×2 grid (`GridManager(2, 2)`). -/
def gm22 : GridManager :=
  { rows := 2, cols := 2, start := (0, 0), goal := (1, 1),
    cells := [[START, EMPTY], [EMPTY, GOAL]] }

/-- C2 counterexample: on the fresh 2×2 grid, `move_start(2, 0)` with
the out-of-bounds row 2 raises an `IndexError` (modelled `none`) instead
of returning the `None` rejection sentinel `some (gm22, none)`; the
same out-of-bounds coordinate given to `toggle_obstacle` *is* rejected
via the sentinel.  This refutes the claim that `move_start`/`move_goal`
return a rejection for out-of-bounds coordinates. -/
theorem move_start_oob_raises :
    createGrid 2 2 = some gm22 ∧
      move_start gm22 2 0 = none ∧
      move_goal gm22 (-3) 0 = none ∧
      toggle_obstacle gm22 2 0 = some (gm22, none) := by decide

/-- C2 (amended): `toggle_obstacle` rejects any protected or
out-of-bounds cell via the `None` sentinel and never raises; `move_start`
and `move_goal` reject placement onto the other anchor via the `None`
sentinel — but they make no bounds check of their own, so out-of-bounds
coordinates are not rejected (they raise, see `move_start_oob_raises`). -/
theorem edit_rejections (gm : GridManager)
    (hwf : CellsWF gm.cells gm.rows gm.cols) :
    (∀ row col : Int, isSafeToEdit gm row col = false →
        toggle_obstacle gm row col = some (gm, none)) ∧
    (∀ row col : Int, toggle_obstacle gm row col ≠ none) ∧
    (∀ r c : Int, (r, c) = gm.goal → move_start gm r c = some (gm, none)) ∧
    (∀ r c : Int, (r, c) = gm.start → move_goal gm r c = some (gm, none)) := by
  refine ⟨?_, ?_, ?_, ?_⟩
  · intro row col hunsafe
    simp [toggle_obstacle, hunsafe]
  · intro row col
    by_cases hsafe : isSafeToEdit gm row col
    · obtain ⟨-, -, hr0, hr, hc0, hc⟩ := isSafeToEdit_true hsafe
      have hrow : row = ((row.toNat : Nat) : Int) := (Int.toNat_of_nonneg hr0).symm
      have hcol : col = ((col.toNat : Nat) : Int) := (Int.toNat_of_nonneg hc0).symm
      have hrn : row.toNat < gm.rows := by omega
      have hcn : col.toNat < gm.cols := by omega
      have hset1 := pySet2_wf hwf hrn hcn EMPTY
      have hset2 := pySet2_wf hwf hrn hcn OBSTACLE
      rw [toggle_obstacle, if_neg (by simp [hsafe]), hrow, hcol,
        pyGet2_wf hwf hrn hcn]
      dsimp only
      by_cases hobs : getCell gm.cells row.toNat col.toNat = OBSTACLE
      · rw [if_pos hobs, hset1]
        simp
      · rw [if_neg hobs, hset2]
        simp
    · simp [toggle_obstacle, hsafe]
  · intro r c hgoal
    simp [move_start, hgoal]
  · intro r c hstart
    simp [move_goal, hstart]

/-- Witness for the amended C2 on the fresh 2×2 grid: the protected
start cell and an out-of-bounds cell are rejected by `toggle_obstacle`,
and each mover rejects the other anchor. -/
theorem edit_rejections_witness :
    toggle_obstacle gm22 0 0 = some (gm22, none) ∧
    toggle_obstacle gm22 5 1 = some (gm22, none) ∧
    move_start gm22 1 1 = some (gm22, none) ∧
    move_goal gm22 0 0 = some (gm22, none) := by
  have h := edit_rejections gm22 (by constructor <;> decide)
  exact ⟨h.1 0 0 (by decide), h.1 5 1 (by decide),
    h.2.2.1 1 1 (by decide), h.2.2.2 0 0 (by decide)⟩

-- ──────────────────────────────────────────────────────────
-- C3: try_spawn_dynamic_obstacle
-- ──────────────────────────────────────────────────────────

/-- A pick `(r, c)` is rejected by the spawn loop: it is the start, the
goal, the agent position, or an already-`OBSTACLE` cell. -/
def pickRejected (gm : GridManager) (agent_pos : Coord) (rc : Nat × Nat) : Prop :=
  ((rc.1 : Int), (rc.2 : Int)) = gm.start ∨
  ((rc.1 : Int), (rc.2 : Int)) = gm.goal ∨
  ((rc.1 : Int), (rc.2 : Int)) = agent_pos ∨
  getCell gm.cells rc.1 rc.2 = OBSTACLE

theorem spawnAttempts_skip {gm : GridManager} {agent_pos : Coord}
    {path : List Coord} {picks : Nat → Nat × Nat} {i : Nat} {rest : List Nat}
    (hwf : CellsWF gm.cells gm.rows gm.cols)
    (hr : (picks i).1 < gm.rows) (hc : (picks i).2 < gm.cols)
    (hrej : pickRejected gm agent_pos (picks i)) :
    spawnAttempts gm agent_pos path picks (i :: rest) =
      spawnAttempts gm agent_pos path picks rest := by
  simp only [spawnAttempts]
  by_cases h1 : (((picks i).1 : Int), ((picks i).2 : Int)) = gm.start
  · rw [if_pos h1]
  · rw [if_neg h1]
    by_cases h2 : (((picks i).1 : Int), ((picks i).2 : Int)) = gm.goal
    · rw [if_pos h2]
    · rw [if_neg h2]
      by_cases h3 : (((picks i).1 : Int), ((picks i).2 : Int)) = agent_pos
      · rw [if_pos h3]
      · rw [if_neg h3]
        have hobs : getCell gm.cells (picks i).1 (picks i).2 = OBSTACLE := by
          rcases hrej with h | h | h | h <;> tauto
        rw [pyGet2_wf hwf hr hc]
        dsimp only
        rw [if_pos hobs]

theorem spawnAttempts_hit {gm : GridManager} {agent_pos : Coord}
    {path : List Coord} {picks : Nat → Nat × Nat} {i : Nat} {rest : List Nat}
    (hwf : CellsWF gm.cells gm.rows gm.cols)
    (hr : (picks i).1 < gm.rows) (hc : (picks i).2 < gm.cols)
    (hacc : ¬ pickRejected gm agent_pos (picks i)) :
    spawnAttempts gm agent_pos path picks (i :: rest) =
      some ({ gm with cells := setCell gm.cells (picks i).1 (picks i).2 OBSTACLE },
        some (((picks i).1 : Int), ((picks i).2 : Int)),
        decide ((((picks i).1 : Int), ((picks i).2 : Int)) ∈ path)) := by
  simp only [pickRejected, not_or] at hacc
  obtain ⟨h1, h2, h3, h4⟩ := hacc
  simp only [spawnAttempts]
  rw [if_neg h1, if_neg h2, if_neg h3, pyGet2_wf hwf hr hc]
  dsimp only
  rw [if_neg h4, pySet2_wf hwf hr hc]
  rfl

theorem spawnAttempts_all_rejected {gm : GridManager} {agent_pos : Coord}
    {path : List Coord} {picks : Nat → Nat × Nat}
    (hwf : CellsWF gm.cells gm.rows gm.cols) :
    ∀ idxs : List Nat,
      (∀ i ∈ idxs, (picks i).1 < gm.rows ∧ (picks i).2 < gm.cols ∧
        pickRejected gm agent_pos (picks i)) →
      spawnAttempts gm agent_pos path picks idxs = some (gm, none, false)
  | [], _ => rfl
  | i :: rest, hall => by
    obtain ⟨hr, hc, hrej⟩ := hall i (List.mem_cons_self i rest)
    rw [spawnAttempts_skip hwf hr hc hrej]
    exact spawnAttempts_all_rejected hwf rest
      (fun j hj => hall j (List.mem_cons_of_mem _ hj))

theorem spawnAttempts_range' {gm : GridManager} {agent_pos : Coord}
    {path : List Coord} {picks : Nat → Nat × Nat}
    (hwf : CellsWF gm.cells gm.rows gm.cols)
    (hpicks : ∀ i, (picks i).1 < gm.rows ∧ (picks i).2 < gm.cols) {j : Nat}
    (hacc : ¬ pickRejected gm agent_pos (picks j)) :
    ∀ b a, a ≤ j → j < a + b → (∀ i, a ≤ i → i < j → pickRejected gm agent_pos (picks i)) →
      spawnAttempts gm agent_pos path picks (List.range' a b) =
        some ({ gm with cells := setCell gm.cells (picks j).1 (picks j).2 OBSTACLE },
          some (((picks j).1 : Int), ((picks j).2 : Int)),
          decide ((((picks j).1 : Int), ((picks j).2 : Int)) ∈ path))
  | 0, a, haj, hjb, _ => by omega
  | b + 1, a, haj, hjb, hrej => by
    rw [List.range'_succ]
    by_cases heq : a = j
    · subst heq
      exact spawnAttempts_hit hwf (hpicks a).1 (hpicks a).2 hacc
    · rw [spawnAttempts_skip hwf (hpicks a).1 (hpicks a).2
        (hrej a le_rfl (by omega))]
      exact spawnAttempts_range' hwf hpicks hacc b (a + 1) (by omega) (by omega)
        (fun i hi hij => hrej i (by omega) hij)

/-- C3: `try_spawn_dynamic_obstacle` behaviour, for any random draws
within their contracts.  (1) If the first uniform draw exceeds
`spawn_prob` the call returns `(None, False)` with the grid unchanged.
(2) Otherwise, if all 20 cell picks are rejected (start, goal, agent
position, or already an obstacle), it returns `(None, False)` with the
grid unchanged, indistinguishable from the probability miss.  (3)
Otherwise the first acceptable pick is marked `OBSTACLE` and returned
together with the flag that is true iff that coordinate lies on
`current_path`. -/
theorem try_spawn_spec (gm : GridManager)
    (hwf : CellsWF gm.cells gm.rows gm.cols) (agent_pos : Coord)
    (current_path : List Coord) (spawn_prob draw : ℚ)
    (picks : Nat → Nat × Nat)
    (hpicks : ∀ i, (picks i).1 < gm.rows ∧ (picks i).2 < gm.cols) :
    (draw > spawn_prob →
      try_spawn_dynamic_obstacle gm agent_pos current_path spawn_prob draw picks =
        some (gm, none, false)) ∧
    (draw ≤ spawn_prob →
      (∀ i < 20, pickRejected gm agent_pos (picks i)) →
      try_spawn_dynamic_obstacle gm agent_pos current_path spawn_prob draw picks =
        some (gm, none, false)) ∧
    (draw ≤ spawn_prob → ∀ j < 20,
      ¬ pickRejected gm agent_pos (picks j) →
      (∀ i < j, pickRejected gm agent_pos (picks i)) →
      try_spawn_dynamic_obstacle gm agent_pos current_path spawn_prob draw picks =
        some ({ gm with cells := setCell gm.cells (picks j).1 (picks j).2 OBSTACLE },
          some (((picks j).1 : Int), ((picks j).2 : Int)),
          decide ((((picks j).1 : Int), ((picks j).2 : Int)) ∈ current_path))) := by
  refine ⟨?_, ?_, ?_⟩
  · intro hmiss
    rw [try_spawn_dynamic_obstacle, if_pos hmiss]
  · intro hhit hall
    rw [try_spawn_dynamic_obstacle, if_neg (not_lt.mpr hhit)]
    exact spawnAttempts_all_rejected hwf _
      (fun i hi => ⟨(hpicks i).1, (hpicks i).2,
        hall i (by simpa using hi)⟩)
  · intro hhit j hj hacc hbefore
    rw [try_spawn_dynamic_obstacle, if_neg (not_lt.mpr hhit),
      List.range_eq_range']
    exact spawnAttempts_range' hwf hpicks hacc 20 0 (Nat.zero_le j) (by omega)
      (fun i _ hij => hbefore i hij)

/-- Witness for C3 on the fresh 2×2 grid: a miss (draw 3/4 > prob 1/2),
an exhaustion run whose picks always name the start cell, and a hit
whose first pick is the free cell (0, 1), which lies on the remaining
path, so the blocking flag is true. -/
theorem try_spawn_spec_witness :
    try_spawn_dynamic_obstacle gm22 (1, 0) [(0, 1), (1, 1)] (1/2) (3/4)
        (fun _ => (0, 1)) = some (gm22, none, false) ∧
    try_spawn_dynamic_obstacle gm22 (1, 0) [(0, 1), (1, 1)] (1/2) (1/4)
        (fun _ => (0, 0)) = some (gm22, none, false) ∧
    try_spawn_dynamic_obstacle gm22 (1, 0) [(0, 1), (1, 1)] (1/2) (1/4)
        (fun _ => (0, 1)) =
      some ({ gm22 with cells := setCell gm22.cells 0 1 OBSTACLE },
        some (0, 1), true) := by
  have h1 := try_spawn_spec gm22 (by constructor <;> decide) (1, 0)
    [(0, 1), (1, 1)] (1/2) (3/4) (fun _ => (0, 1)) (fun _ => ⟨by simp [gm22], by simp [gm22]⟩)
  have h2 := try_spawn_spec gm22 (by constructor <;> decide) (1, 0)
    [(0, 1), (1, 1)] (1/2) (1/4) (fun _ => (0, 0)) (fun _ => ⟨by simp [gm22], by simp [gm22]⟩)
  have h3 := try_spawn_spec gm22 (by constructor <;> decide) (1, 0)
    [(0, 1), (1, 1)] (1/2) (1/4) (fun _ => (0, 1)) (fun _ => ⟨by simp [gm22], by simp [gm22]⟩)
  refine ⟨h1.1 (by norm_num), ?_, ?_⟩
  · refine h2.2.1 (by norm_num) (fun i _ => ?_)
    left
    simp [gm22]
  · have := h3.2.2 (by norm_num) 0 (by norm_num) ?_ (fun i hi => absurd hi (by omega))
    · simpa using this
    · intro hrej
      revert hrej
      unfold pickRejected getCell
      decide

-- ──────────────────────────────────────────────────────────
-- C8: generate_random at density 0 and 100
-- ──────────────────────────────────────────────────────────

theorem getCell_setCell_wf {cells : Cells} {rows cols : Nat}
    (hwf : CellsWF cells rows cols) {r c : Nat} (hr : r < rows)
    (hc : c < cols) (v : Nat) (r' c' : Nat) :
    getCell (setCell cells r c v) r' c' =
      if r' = r ∧ c' = c then v else getCell cells r' c' := by
  obtain ⟨hlen, hrow⟩ := hwf
  have hr' : r < cells.length := hlen ▸ hr
  exact getCell_setCell hr'
    (by rw [hrow _ (List.getElem_mem hr')]; exact hc) v r' c'

theorem genRandomCell_fold (startc goalc : Coord) (density : ℚ)
    (draws : Nat → ℚ) (v : Nat)
    (hv : ∀ i, (if draws i < density then OBSTACLE else EMPTY) = v)
    {rows cols : Nat} :
    ∀ (idxs : List (Nat × Nat)) (cells : Cells) (k : Nat),
      CellsWF cells rows cols →
      (∀ p ∈ idxs, p.1 < rows ∧ p.2 < cols) →
      ∃ cells' k',
        idxs.foldl (genRandomCell startc goalc density draws) (some cells, k) =
          (some cells', k') ∧
        CellsWF cells' rows cols ∧
        ∀ r c : Nat, getCell cells' r c =
          if ((r : Int), (c : Int)) ≠ startc ∧ ((r : Int), (c : Int)) ≠ goalc ∧
              (r, c) ∈ idxs then v
          else getCell cells r c
  | [], cells, k, hwf, _ => by
    refine ⟨cells, k, rfl, hwf, fun r c => ?_⟩
    simp
  | (a, b) :: rest, cells, k, hwf, hin => by
    have hab := hin (a, b) (List.mem_cons_self _ _)
    by_cases hanch : ((a : Int), (b : Int)) = startc ∨ ((a : Int), (b : Int)) = goalc
    · have hstep : (genRandomCell startc goalc density draws (some cells, k) (a, b)) =
          (some cells, k) := by
        rw [genRandomCell, if_pos hanch]
      obtain ⟨cells', k', hfold, hwf', hcells'⟩ :=
        genRandomCell_fold startc goalc density draws v hv rest cells k hwf
          (fun p hp => hin p (List.mem_cons_of_mem _ hp))
      refine ⟨cells', k', ?_, hwf', fun r c => ?_⟩
      · rw [List.foldl_cons, hstep, hfold]
      · rw [hcells' r c]
        by_cases hmem : ((r : Int), (c : Int)) ≠ startc ∧
            ((r : Int), (c : Int)) ≠ goalc ∧ (r, c) ∈ rest
        · rw [if_pos hmem, if_pos ⟨hmem.1, hmem.2.1, List.mem_cons_of_mem _ hmem.2.2⟩]
        · rw [if_neg hmem]
          by_cases hmem2 : ((r : Int), (c : Int)) ≠ startc ∧
              ((r : Int), (c : Int)) ≠ goalc ∧ (r, c) ∈ (a, b) :: rest
          · exfalso
            rcases List.mem_cons.mp hmem2.2.2 with heq | hm
            · rw [Prod.mk.injEq] at heq
              obtain ⟨rfl, rfl⟩ := heq
              rcases hanch with h | h
              · exact hmem2.1 h
              · exact hmem2.2.1 h
            · exact hmem ⟨hmem2.1, hmem2.2.1, hm⟩
          · rw [if_neg hmem2]
    · have hstep : (genRandomCell startc goalc density draws (some cells, k) (a, b)) =
          (some (setCell cells a b v), k + 1) := by
        rw [genRandomCell, if_neg hanch]
        simp only [Option.some_bind, pySet2_wf hwf hab.1 hab.2, hv k]
      obtain ⟨cells', k', hfold, hwf', hcells'⟩ :=
        genRandomCell_fold startc goalc density draws v hv rest
          (setCell cells a b v) (k + 1) (setCell_wf hwf a b v)
          (fun p hp => hin p (List.mem_cons_of_mem _ hp))
      refine ⟨cells', k', ?_, hwf', fun r c => ?_⟩
      · rw [List.foldl_cons, hstep, hfold]
      · rw [hcells' r c, getCell_setCell_wf hwf hab.1 hab.2 v r c]
        push_neg at hanch
        by_cases hmem : ((r : Int), (c : Int)) ≠ startc ∧
            ((r : Int), (c : Int)) ≠ goalc ∧ (r, c) ∈ rest
        · rw [if_pos hmem, if_pos ⟨hmem.1, hmem.2.1, List.mem_cons_of_mem _ hmem.2.2⟩]
        · rw [if_neg hmem]
          by_cases heqab : r = a ∧ c = b
          · obtain ⟨rfl, rfl⟩ := heqab
            rw [if_pos ⟨rfl, rfl⟩,
              if_pos ⟨hanch.1, hanch.2, List.mem_cons_self _ _⟩]
          · rw [if_neg heqab]
            by_cases hmem2 : ((r : Int), (c : Int)) ≠ startc ∧
                ((r : Int), (c : Int)) ≠ goalc ∧ (r, c) ∈ (a, b) :: rest
            · exfalso
              rcases List.mem_cons.mp hmem2.2.2 with heq | hm
              · simp only [Prod.mk.injEq] at heq
                exact heqab heq
              · exact hmem ⟨hmem2.1, hmem2.2.1, hm⟩
            · rw [if_neg hmem2]

/-- Number of `OBSTACLE` cells in a grid. -/
def obstacleCount (cells : Cells) : Nat :=
  (cells.map (fun row => row.countP (fun x => x = OBSTACLE))).sum

theorem mem_gridIdxs {rows cols r c : Nat} :
    ((r, c) ∈ (List.range rows).flatMap
      (fun r => (List.range cols).map (fun c => (r, c)))) ↔
      r < rows ∧ c < cols := by
  simp [List.mem_flatMap, List.mem_range]

theorem getCell_getElem {cells : Cells} {rows cols : Nat}
    (hwf : CellsWF cells rows cols) {i j : Nat} (hi : i < cells.length)
    (hj : j < (cells[i]).length) : getCell cells i j = cells[i][j] := by
  rw [getCell, getD_eq_getElem _ _ hi, getD_eq_getElem _ _ hj]

theorem obstacleCount_eq_zero {cells : Cells} {rows cols : Nat}
    (hwf : CellsWF cells rows cols)
    (h : ∀ r c : Nat, r < rows → c < cols → getCell cells r c ≠ OBSTACLE) :
    obstacleCount cells = 0 := by
  refine List.sum_eq_zero (fun x hx => ?_)
  obtain ⟨row, hrow, rfl⟩ := List.mem_map.mp hx
  refine List.countP_eq_zero.mpr (fun a ha => ?_)
  obtain ⟨i, hi, rfl⟩ := List.mem_iff_getElem.mp hrow
  obtain ⟨j, hj, rfl⟩ := List.mem_iff_getElem.mp ha
  have hirows : i < rows := hwf.1 ▸ hi
  have hjcols : j < cols := (hwf.2 _ (List.getElem_mem hi)) ▸ hj
  have := h i j hirows hjcols
  rw [getCell_getElem hwf hi hj] at this
  simpa using this

/-- C8: for every grid state and every admissible stream of uniform
draws, `generate_random(0)` makes every non-start/goal in-bounds cell
`EMPTY` (hence zero obstacles when the anchor cells hold no obstacle),
`generate_random(100)` makes every non-start/goal in-bounds cell
`OBSTACLE`, and in both cases the cells at the stored start and goal
coordinates are untouched. -/
theorem generate_random_extremes (gm : GridManager)
    (hwf : CellsWF gm.cells gm.rows gm.cols) (draws : Nat → ℚ)
    (hd : ∀ i, 0 ≤ draws i ∧ draws i < 1) :
    (∃ gm0, generate_random gm 0 draws = some gm0 ∧
      (∀ r c : Nat, r < gm.rows → c < gm.cols →
        ((r : Int), (c : Int)) ≠ gm.start → ((r : Int), (c : Int)) ≠ gm.goal →
        getCell gm0.cells r c = EMPTY) ∧
      (∀ r c : Nat,
        (((r : Int), (c : Int)) = gm.start ∨ ((r : Int), (c : Int)) = gm.goal) →
        getCell gm0.cells r c = getCell gm.cells r c) ∧
      ((∀ r c : Nat, r < gm.rows → c < gm.cols →
          (((r : Int), (c : Int)) = gm.start ∨ ((r : Int), (c : Int)) = gm.goal) →
          getCell gm.cells r c ≠ OBSTACLE) →
        obstacleCount gm0.cells = 0)) ∧
    (∃ gm1, generate_random gm 100 draws = some gm1 ∧
      (∀ r c : Nat, r < gm.rows → c < gm.cols →
        ((r : Int), (c : Int)) ≠ gm.start → ((r : Int), (c : Int)) ≠ gm.goal →
        getCell gm1.cells r c = OBSTACLE) ∧
      (∀ r c : Nat,
        (((r : Int), (c : Int)) = gm.start ∨ ((r : Int), (c : Int)) = gm.goal) →
        getCell gm1.cells r c = getCell gm.cells r c)) := by
  constructor
  · have hv : ∀ i, (if draws i < (0 : ℚ) / 100 then OBSTACLE else EMPTY) = EMPTY := by
      intro i
      rw [if_neg]
      intro hlt
      have := (hd i).1
      rw [show (0 : ℚ) / 100 = 0 by norm_num] at hlt
      linarith
    obtain ⟨cells', k', hfold, hwf', hcells'⟩ :=
      genRandomCell_fold gm.start gm.goal ((0 : ℚ) / 100) draws EMPTY hv
        ((List.range gm.rows).flatMap
          (fun r => (List.range gm.cols).map (fun c => (r, c))))
        gm.cells 0 hwf (fun p hp => by
          obtain ⟨a, b⟩ := p
          exact mem_gridIdxs.mp hp)
    refine ⟨{ gm with cells := cells' }, ?_, ?_, ?_, ?_⟩
    · simp only [generate_random, hfold]
      rfl
    · intro r c hr hc hs hg
      have := hcells' r c
      rw [if_pos ⟨hs, hg, mem_gridIdxs.mpr ⟨hr, hc⟩⟩] at this
      exact this
    · intro r c hsg
      have := hcells' r c
      rw [if_neg (by rcases hsg with h | h <;> simp [h])] at this
      exact this
    · intro hanch
      refine obstacleCount_eq_zero hwf' (fun r c hr hc => ?_)
      have := hcells' r c
      by_cases hsg : ((r : Int), (c : Int)) = gm.start ∨ ((r : Int), (c : Int)) = gm.goal
      · rw [if_neg (by rcases hsg with h | h <;> simp [h])] at this
        rw [this]
        exact hanch r c hr hc hsg
      · push_neg at hsg
        rw [if_pos ⟨hsg.1, hsg.2, mem_gridIdxs.mpr ⟨hr, hc⟩⟩] at this
        rw [this]
        decide
  · have hv : ∀ i, (if draws i < (100 : ℚ) / 100 then OBSTACLE else EMPTY) = OBSTACLE := by
      intro i
      rw [if_pos]
      have := (hd i).2
      rw [show (100 : ℚ) / 100 = 1 by norm_num]
      linarith
    obtain ⟨cells', k', hfold, hwf', hcells'⟩ :=
      genRandomCell_fold gm.start gm.goal ((100 : ℚ) / 100) draws OBSTACLE hv
        ((List.range gm.rows).flatMap
          (fun r => (List.range gm.cols).map (fun c => (r, c))))
        gm.cells 0 hwf (fun p hp => by
          obtain ⟨a, b⟩ := p
          exact mem_gridIdxs.mp hp)
    refine ⟨{ gm with cells := cells' }, ?_, ?_, ?_⟩
    · simp only [generate_random, hfold]
      rfl
    · intro r c hr hc hs hg
      have := hcells' r c
      rw [if_pos ⟨hs, hg, mem_gridIdxs.mpr ⟨hr, hc⟩⟩] at this
      exact this
    · intro r c hsg
      have := hcells' r c
      rw [if_neg (by rcases hsg with h | h <;> simp [h])] at this
      exact this

/-- Witness for C8 on the fresh 2×2 grid with the constant draw 1/2:
density 0 clears the free cells, density 100 fills them, and the start
and goal cells are unchanged in both runs. -/
theorem generate_random_extremes_witness :
    (∃ gm0, generate_random gm22 0 (fun _ => 1/2) = some gm0 ∧
      getCell gm0.cells 0 1 = EMPTY ∧ obstacleCount gm0.cells = 0 ∧
      getCell gm0.cells 0 0 = getCell gm22.cells 0 0) ∧
    (∃ gm1, generate_random gm22 100 (fun _ => 1/2) = some gm1 ∧
      getCell gm1.cells 0 1 = OBSTACLE ∧
      getCell gm1.cells 1 1 = getCell gm22.cells 1 1) := by
  obtain ⟨⟨gm0, hrun0, hfree0, hanch0, hcount0⟩, ⟨gm1, hrun1, hfree1, hanch1⟩⟩ :=
    generate_random_extremes gm22 (by constructor <;> decide) (fun _ => 1/2)
      (fun i => by norm_num)
  refine ⟨⟨gm0, hrun0, ?_, ?_, ?_⟩, ⟨gm1, hrun1, ?_, ?_⟩⟩
  · exact hfree0 0 1 (by decide) (by decide) (by decide) (by decide)
  · refine hcount0 (fun r c hr hc hsg => ?_)
    simp only [gm22] at hr hc
    revert hsg
    interval_cases r <;> interval_cases c <;> decide
  · exact hanch0 0 0 (Or.inl (by decide))
  · exact hfree1 0 1 (by decide) (by decide) (by decide) (by decide)
  · exact hanch1 1 1 (Or.inr (by decide))

-- ──────────────────────────────────────────────────────────
-- C4: the one-Start/one-Goal invariant
-- ──────────────────────────────────────────────────────────

/-- Number of cells holding the state `v`. -/
def countVal (cells : Cells) (v : Nat) : Nat :=
  (cells.map (fun row => row.countP (fun x => x = v))).sum

theorem countP_eq_one_of_unique {α : Type} {l : List α} {p : α → Bool} :
    ∀ {j : Nat} (hj : j < l.length), p l[j] = true →
      (∀ i, (hi : i < l.length) → i ≠ j → ¬ p l[i] = true) →
      l.countP p = 1 := by
  induction l with
  | nil => intro j hj; simp at hj
  | cons x xs ih =>
    intro j hj hpj hother
    cases j with
    | zero =>
      rw [List.countP_cons_of_pos _ _ (by simpa using hpj)]
      rw [List.countP_eq_zero.mpr, Nat.zero_add]
      intro a ha
      obtain ⟨i, hi, rfl⟩ := List.mem_iff_getElem.mp ha
      have := hother (i + 1) (by simpa using Nat.succ_lt_succ hi) (by omega)
      simpa using this
    | succ j' =>
      have hj' : j' < xs.length := by
        simp only [List.length_cons] at hj
        omega
      rw [List.countP_cons_of_neg _ _
        (by simpa using hother 0 (by simp) (by omega))]
      refine ih hj' (by simpa using hpj) ?_
      intro i hi hij
      have h2 := hother (i + 1) (by simp only [List.length_cons]; omega)
        (by omega)
      simpa using h2

theorem sum_eq_one_of_unique {l : List Nat} :
    ∀ {j : Nat} (hj : j < l.length), l[j] = 1 →
      (∀ i, (hi : i < l.length) → i ≠ j → l[i] = 0) →
      l.sum = 1 := by
  induction l with
  | nil => intro j hj; simp at hj
  | cons x xs ih =>
    intro j hj hpj hother
    cases j with
    | zero =>
      simp only [List.getElem_cons_zero] at hpj
      rw [List.sum_cons, hpj, List.sum_eq_zero, Nat.add_zero]
      intro a ha
      obtain ⟨i, hi, rfl⟩ := List.mem_iff_getElem.mp ha
      have := hother (i + 1) (by simpa using Nat.succ_lt_succ hi) (by omega)
      simpa using this
    | succ j' =>
      have hj' : j' < xs.length := by
        simp only [List.length_cons] at hj
        omega
      have hx : x = 0 := by simpa using hother 0 (by simp) (by omega)
      rw [List.sum_cons, hx, Nat.zero_add]
      refine ih hj' (by simpa using hpj) ?_
      intro i hi hij
      have h2 := hother (i + 1) (by simp only [List.length_cons]; omega)
        (by omega)
      simpa using h2

/-- If exactly the cell `(sr, sc)` holds `v`, then `v` occurs exactly
once in the grid. -/
theorem countVal_eq_one {cells : Cells} {rows cols : Nat}
    (hwf : CellsWF cells rows cols) {sr sc : Nat} (hsr : sr < rows)
    (hsc : sc < cols) {v : Nat} (hval : getCell cells sr sc = v)
    (hothers : ∀ r c : Nat, r < rows → c < cols → ¬ (r = sr ∧ c = sc) →
      getCell cells r c ≠ v) :
    countVal cells v = 1 := by
  obtain ⟨hlen, hrow⟩ := hwf
  have hsr' : sr < cells.length := hlen ▸ hsr
  have hlen2 : sr < (cells.map (fun row => row.countP (fun x => x = v))).length := by
    simpa using hsr'
  refine sum_eq_one_of_unique hlen2 ?_ ?_
  · rw [List.getElem_map]
    have hsc' : sc < (cells[sr]).length := by
      rw [hrow _ (List.getElem_mem hsr')]; exact hsc
    refine countP_eq_one_of_unique hsc' ?_ ?_
    · rw [← getCell_getElem ⟨hlen, hrow⟩ hsr' hsc', hval]
      simp
    · intro i hi hij
      have hic : i < cols := (hrow _ (List.getElem_mem hsr')) ▸ hi
      have := hothers sr i hsr hic (fun hcon => hij hcon.2)
      rw [getCell_getElem ⟨hlen, hrow⟩ hsr' hi] at this
      simpa using this
  · intro i hi hij
    rw [List.getElem_map]
    have hi' : i < cells.length := by simpa using hi
    refine List.countP_eq_zero.mpr (fun a ha => ?_)
    obtain ⟨j, hj, rfl⟩ := List.mem_iff_getElem.mp ha
    have hirows : i < rows := hlen ▸ hi'
    have hjcols : j < cols := (hrow _ (List.getElem_mem hi')) ▸ hj
    have := hothers i j hirows hjcols (fun hcon => hij hcon.1)
    rw [getCell_getElem ⟨hlen, hrow⟩ hi' hj] at this
    simpa using this

/-- State invariant preserved by every in-contract grid operation:
dimensions positive, storage well-formed, both anchors stored at
canonical in-bounds coordinates, distinct, their cells marked, and no
other cell holding `START` or `GOAL`. -/
structure GMInv (gm : GridManager) : Prop where
  rows_pos : 1 ≤ gm.rows
  cols_pos : 1 ≤ gm.cols
  wf : CellsWF gm.cells gm.rows gm.cols
  start_bounds : 0 ≤ gm.start.1 ∧ gm.start.1 < (gm.rows : Int) ∧
    0 ≤ gm.start.2 ∧ gm.start.2 < (gm.cols : Int)
  goal_bounds : 0 ≤ gm.goal.1 ∧ gm.goal.1 < (gm.rows : Int) ∧
    0 ≤ gm.goal.2 ∧ gm.goal.2 < (gm.cols : Int)
  anchors_ne : gm.start ≠ gm.goal
  start_cell : getCell gm.cells gm.start.1.toNat gm.start.2.toNat = START
  goal_cell : getCell gm.cells gm.goal.1.toNat gm.goal.2.toNat = GOAL
  others : ∀ r c : Nat, r < gm.rows → c < gm.cols →
    ((r : Int), (c : Int)) ≠ gm.start → ((r : Int), (c : Int)) ≠ gm.goal →
    getCell gm.cells r c ≠ START ∧ getCell gm.cells r c ≠ GOAL

/-- One grid mutation operation, with its random draws (if any) as
explicit data. -/
inductive GridOp where
  | toggle (row col : Int)
  | place (row col : Int)
  | genRandom (density_percent : ℚ) (draws : Nat → ℚ)
  | clearObs
  | moveStart (r c : Int)
  | moveGoal (r c : Int)
  | spawn (agent_pos : Coord) (current_path : List Coord)
      (spawn_prob draw : ℚ) (picks : Nat → Nat × Nat)

/-- Apply one operation, keeping only the mutated state. -/
def applyOp (gm : GridManager) : GridOp → Option GridManager
  | .toggle r c => (toggle_obstacle gm r c).map Prod.fst
  | .place r c => (place_obstacle gm r c).map Prod.fst
  | .genRandom dp draws => generate_random gm dp draws
  | .clearObs => some (clear_obstacles gm)
  | .moveStart r c => (move_start gm r c).map Prod.fst
  | .moveGoal r c => (move_goal gm r c).map Prod.fst
  | .spawn a p pr d pk => (try_spawn_dynamic_obstacle gm a p pr d pk).map Prod.fst

/-- Apply a sequence of operations left to right. -/
def applyOps (gm : GridManager) : List GridOp → Option GridManager
  | [] => some gm
  | op :: ops => (applyOp gm op).bind (fun gm' => applyOps gm' ops)

/-- Contract on an operation's arguments: the anchor movers receive
in-bounds coordinates, and spawn picks respect the `randint` ranges.
All other operations validate their own inputs. -/
def OpOK (rows cols : Nat) : GridOp → Prop
  | .moveStart r c => 0 ≤ r ∧ r < (rows : Int) ∧ 0 ≤ c ∧ c < (cols : Int)
  | .moveGoal r c => 0 ≤ r ∧ r < (rows : Int) ∧ 0 ≤ c ∧ c < (cols : Int)
  | .spawn _ _ _ _ picks => ∀ i, (picks i).1 < rows ∧ (picks i).2 < cols
  | _ => True

theorem genRandomCell_fold_any (startc goalc : Coord) (density : ℚ)
    (draws : Nat → ℚ) {rows cols : Nat} :
    ∀ (idxs : List (Nat × Nat)) (cells : Cells) (k : Nat),
      CellsWF cells rows cols →
      (∀ p ∈ idxs, p.1 < rows ∧ p.2 < cols) →
      ∃ cells' k',
        idxs.foldl (genRandomCell startc goalc density draws) (some cells, k) =
          (some cells', k') ∧
        CellsWF cells' rows cols ∧
        ∀ r c : Nat, getCell cells' r c = getCell cells r c ∨
          (((r : Int), (c : Int)) ≠ startc ∧ ((r : Int), (c : Int)) ≠ goalc ∧
            (getCell cells' r c = EMPTY ∨ getCell cells' r c = OBSTACLE))
  | [], cells, k, hwf, _ => ⟨cells, k, rfl, hwf, fun r c => Or.inl rfl⟩
  | (a, b) :: rest, cells, k, hwf, hin => by
    have hab := hin (a, b) (List.mem_cons_self _ _)
    by_cases hanch : ((a : Int), (b : Int)) = startc ∨ ((a : Int), (b : Int)) = goalc
    · have hstep : (genRandomCell startc goalc density draws (some cells, k) (a, b)) =
          (some cells, k) := by
        rw [genRandomCell, if_pos hanch]
      obtain ⟨cells', k', hfold, hwf', hcells'⟩ :=
        genRandomCell_fold_any startc goalc density draws rest cells k hwf
          (fun p hp => hin p (List.mem_cons_of_mem _ hp))
      exact ⟨cells', k', by rw [List.foldl_cons, hstep, hfold], hwf', hcells'⟩
    · set v := if draws k < density then OBSTACLE else EMPTY with hvdef
      have hstep : (genRandomCell startc goalc density draws (some cells, k) (a, b)) =
          (some (setCell cells a b v), k + 1) := by
        rw [genRandomCell, if_neg hanch]
        simp only [Option.some_bind, pySet2_wf hwf hab.1 hab.2]
      obtain ⟨cells', k', hfold, hwf', hcells'⟩ :=
        genRandomCell_fold_any startc goalc density draws rest
          (setCell cells a b v) (k + 1) (setCell_wf hwf a b v)
          (fun p hp => hin p (List.mem_cons_of_mem _ hp))
      refine ⟨cells', k', by rw [List.foldl_cons, hstep, hfold], hwf',
        fun r c => ?_⟩
      push_neg at hanch
      rcases hcells' r c with hsame | hnew
      · rw [hsame, getCell_setCell_wf hwf hab.1 hab.2 v r c]
        by_cases heq : r = a ∧ c = b
        · obtain ⟨rfl, rfl⟩ := heq
          refine Or.inr ⟨hanch.1, hanch.2, ?_⟩
          rw [if_pos ⟨rfl, rfl⟩, hvdef]
          by_cases hlt : draws k < density
          · right; rw [if_pos hlt]
          · left; rw [if_neg hlt]
        · rw [if_neg heq]
          exact Or.inl rfl
      · exact Or.inr hnew

theorem GMInv_setCell {gm : GridManager} (hinv : GMInv gm) {r c : Nat}
    (hr : r < gm.rows) (hc : c < gm.cols)
    (hne_s : ((r : Int), (c : Int)) ≠ gm.start)
    (hne_g : ((r : Int), (c : Int)) ≠ gm.goal) {v : Nat}
    (hv : v ≠ START ∧ v ≠ GOAL) :
    GMInv { gm with cells := setCell gm.cells r c v } := by
  obtain ⟨hrp, hcp, hwf, hsb, hgb, hne, hsc, hgc, hoth⟩ := hinv
  have hsnat : ¬ (gm.start.1.toNat = r ∧ gm.start.2.toNat = c) := by
    rintro ⟨h1, h2⟩
    apply hne_s
    have e1 : gm.start.1 = (r : Int) := by omega
    have e2 : gm.start.2 = (c : Int) := by omega
    rw [Prod.ext_iff]
    exact ⟨e1.symm, e2.symm⟩
  have hgnat : ¬ (gm.goal.1.toNat = r ∧ gm.goal.2.toNat = c) := by
    rintro ⟨h1, h2⟩
    apply hne_g
    have e1 : gm.goal.1 = (r : Int) := by omega
    have e2 : gm.goal.2 = (c : Int) := by omega
    rw [Prod.ext_iff]
    exact ⟨e1.symm, e2.symm⟩
  refine ⟨hrp, hcp, setCell_wf hwf r c v, hsb, hgb, hne, ?_, ?_, ?_⟩
  · rw [getCell_setCell_wf hwf hr hc v _ _, if_neg hsnat]
    exact hsc
  · rw [getCell_setCell_wf hwf hr hc v _ _, if_neg hgnat]
    exact hgc
  · intro r' c' hr' hc' hne_s' hne_g'
    rw [getCell_setCell_wf hwf hr hc v r' c']
    by_cases heq : r' = r ∧ c' = c
    · rw [if_pos heq]
      exact hv
    · rw [if_neg heq]
      exact hoth r' c' hr' hc' hne_s' hne_g'

theorem CellsWF_map {cells : Cells} {rows cols : Nat}
    (hwf : CellsWF cells rows cols) (f : Nat → Nat) :
    CellsWF (cells.map (List.map f)) rows cols := by
  obtain ⟨hlen, hrow⟩ := hwf
  refine ⟨by simpa using hlen, ?_⟩
  intro row hmem
  obtain ⟨row0, hrow0, rfl⟩ := List.mem_map.mp hmem
  simpa using hrow _ hrow0

theorem getCell_map {cells : Cells} {rows cols : Nat}
    (hwf : CellsWF cells rows cols) (f : Nat → Nat) {r c : Nat}
    (hr : r < rows) (hc : c < cols) :
    getCell (cells.map (List.map f)) r c = f (getCell cells r c) := by
  obtain ⟨hlen, hrow⟩ := hwf
  have hr' : r < cells.length := hlen ▸ hr
  have hc' : c < (cells[r]).length := by
    rw [hrow _ (List.getElem_mem hr')]; exact hc
  have hr2 : r < (cells.map (List.map f)).length := by simpa using hr'
  have hc2 : c < ((cells.map (List.map f))[r]).length := by
    simpa using hc'
  rw [getCell, getD_eq_getElem _ _ hr2, getD_eq_getElem _ _ hc2, getCell,
    getD_eq_getElem _ _ hr', getD_eq_getElem _ _ hc']
  simp

theorem CellsWF_replicate (rows cols : Nat) :
    CellsWF (List.replicate rows (List.replicate cols EMPTY)) rows cols := by
  refine ⟨by simp, ?_⟩
  intro row hmem
  rw [List.eq_of_mem_replicate hmem]
  simp

theorem getCell_replicate {rows cols r c : Nat} :
    getCell (List.replicate rows (List.replicate cols EMPTY)) r c = EMPTY := by
  rw [getCell_eq_getElem?]
  rcases Nat.lt_or_ge r rows with hr | hr
  · rcases Nat.lt_or_ge c cols with hc | hc
    · simp [List.getElem?_replicate, hr, hc]
    · simp [List.getElem?_replicate, hr, List.getElem?_eq_none
        (by simpa using hc : (List.replicate cols EMPTY).length ≤ c)]
  · simp [List.getElem?_eq_none
      (by simpa using hr : (List.replicate rows (List.replicate cols EMPTY)).length ≤ r)]

theorem createGrid_inv {rows cols : Nat} (hr : 1 ≤ rows) (hc : 1 ≤ cols)
    (hsize : ¬ (rows = 1 ∧ cols = 1)) :
    ∃ gm0, createGrid rows cols = some gm0 ∧ GMInv gm0 ∧
      gm0.rows = rows ∧ gm0.cols = cols := by
  have hwf0 := CellsWF_replicate rows cols
  have h00 : (0 : Int) = ((0 : Nat) : Int) := rfl
  have hset1 := pySet2_wf hwf0 (r := 0) (by omega) (c := 0) (by omega) START
  set cells1 := setCell (List.replicate rows (List.replicate cols EMPTY)) 0 0 START
    with hc1def
  have hwf1 : CellsWF cells1 rows cols := setCell_wf hwf0 0 0 START
  have hcast_r : ((rows : Int) - 1) = ((rows - 1 : Nat) : Int) := by omega
  have hcast_c : ((cols : Int) - 1) = ((cols - 1 : Nat) : Int) := by omega
  have hset2 := pySet2_wf hwf1 (r := rows - 1) (by omega) (c := cols - 1)
    (by omega) GOAL
  set cells2 := setCell cells1 (rows - 1) (cols - 1) GOAL with hc2def
  have hwf2 : CellsWF cells2 rows cols := setCell_wf hwf1 (rows - 1) (cols - 1) GOAL
  have hanchne : ¬ ((0 : Nat) = rows - 1 ∧ (0 : Nat) = cols - 1) := by omega
  refine ⟨{ rows := rows, cols := cols, start := (0, 0),
            goal := ((rows : Int) - 1, (cols : Int) - 1), cells := cells2 },
    ?_, ?_, rfl, rfl⟩
  · have hset1' : pySet2 (List.replicate rows (List.replicate cols EMPTY))
        0 0 START = some cells1 := hset1
    rw [createGrid, hset1', Option.some_bind, hcast_r, hcast_c, hset2]
    rfl
  · refine ⟨hr, hc, hwf2, by dsimp only; omega, by dsimp only; omega,
      ?_, ?_, ?_, ?_⟩
    · intro heq
      rw [Prod.ext_iff] at heq
      obtain ⟨h1, h2⟩ := heq
      simp only at h1 h2
      omega
    · have : getCell cells2 0 0 = START := by
        rw [hc2def, getCell_setCell_wf hwf1 (by omega) (by omega) GOAL 0 0,
          if_neg hanchne, hc1def,
          getCell_setCell_wf hwf0 (by omega) (by omega) START 0 0,
          if_pos ⟨rfl, rfl⟩]
      simpa using this
    · have h1 : ((rows : Int) - 1).toNat = rows - 1 := by omega
      have h2 : ((cols : Int) - 1).toNat = cols - 1 := by omega
      rw [h1, h2, hc2def,
        getCell_setCell_wf hwf1 (by omega) (by omega) GOAL _ _,
        if_pos ⟨rfl, rfl⟩]
    · intro r' c' hr' hc' hne_s hne_g
      have hrne : ¬ (r' = rows - 1 ∧ c' = cols - 1) := by
        rintro ⟨rfl, rfl⟩
        exact hne_g (by rw [Prod.ext_iff]; constructor <;> simp <;> omega)
      have hsne : ¬ (r' = 0 ∧ c' = 0) := by
        rintro ⟨rfl, rfl⟩
        exact hne_s (by rw [Prod.ext_iff]; constructor <;> simp)
      rw [hc2def, getCell_setCell_wf hwf1 (by omega) (by omega) GOAL r' c',
        if_neg hrne, hc1def,
        getCell_setCell_wf hwf0 (by omega) (by omega) START r' c',
        if_neg hsne, getCell_replicate]
      refine ⟨by decide, by decide⟩

theorem spawnAttempts_preserves {gm : GridManager} (hinv : GMInv gm)
    {agent_pos : Coord} {path : List Coord} {picks : Nat → Nat × Nat}
    (hpicks : ∀ i, (picks i).1 < gm.rows ∧ (picks i).2 < gm.cols) :
    ∀ idxs : List Nat, ∃ res,
      spawnAttempts gm agent_pos path picks idxs = some res ∧ GMInv res.1 ∧
        res.1.rows = gm.rows ∧ res.1.cols = gm.cols
  | [] => ⟨(gm, none, false), rfl, hinv, rfl, rfl⟩
  | i :: rest => by
    by_cases hrej : pickRejected gm agent_pos (picks i)
    · obtain ⟨res, hres, hresinv, hdims⟩ :=
        spawnAttempts_preserves hinv hpicks rest
      exact ⟨res, by
        rw [spawnAttempts_skip hinv.wf (hpicks i).1 (hpicks i).2 hrej, hres],
        hresinv, hdims⟩
    · refine ⟨_, spawnAttempts_hit hinv.wf (hpicks i).1 (hpicks i).2 hrej,
        ?_, rfl, rfl⟩
      simp only [pickRejected, not_or] at hrej
      exact GMInv_setCell hinv (hpicks i).1 (hpicks i).2 hrej.1 hrej.2.1
        ⟨by decide, by decide⟩

theorem applyOp_preserves {gm : GridManager} (hinv : GMInv gm) :
    ∀ {op : GridOp}, OpOK gm.rows gm.cols op →
      ∃ gm', applyOp gm op = some gm' ∧ GMInv gm' ∧
        gm'.rows = gm.rows ∧ gm'.cols = gm.cols
  | GridOp.toggle r c, _ => by
    by_cases hsafe : isSafeToEdit gm r c
    · obtain ⟨hs, hg, hr0, hrlt, hc0, hclt⟩ := isSafeToEdit_true hsafe
      obtain ⟨rn, rfl⟩ : ∃ rn : Nat, r = (rn : Int) :=
        ⟨r.toNat, (Int.toNat_of_nonneg hr0).symm⟩
      obtain ⟨cn, rfl⟩ : ∃ cn : Nat, c = (cn : Int) :=
        ⟨c.toNat, (Int.toNat_of_nonneg hc0).symm⟩
      have hrn : rn < gm.rows := by omega
      have hcn : cn < gm.cols := by omega
      by_cases hobs : getCell gm.cells rn cn = OBSTACLE
      · have htog : toggle_obstacle gm rn cn =
            some ({ gm with cells := setCell gm.cells rn cn EMPTY }, some EMPTY) := by
          rw [toggle_obstacle, if_neg (by simp [hsafe]),
            pyGet2_wf hinv.wf hrn hcn]
          dsimp only
          rw [if_pos hobs, pySet2_wf hinv.wf hrn hcn]
          rfl
        exact ⟨_, by rw [applyOp, htog]; rfl,
          GMInv_setCell hinv hrn hcn hs hg ⟨by decide, by decide⟩, rfl, rfl⟩
      · have htog : toggle_obstacle gm rn cn =
            some ({ gm with cells := setCell gm.cells rn cn OBSTACLE },
              some OBSTACLE) := by
          rw [toggle_obstacle, if_neg (by simp [hsafe]),
            pyGet2_wf hinv.wf hrn hcn]
          dsimp only
          rw [if_neg hobs, pySet2_wf hinv.wf hrn hcn]
          rfl
        exact ⟨_, by rw [applyOp, htog]; rfl,
          GMInv_setCell hinv hrn hcn hs hg ⟨by decide, by decide⟩, rfl, rfl⟩
    · exact ⟨gm, by simp [applyOp, toggle_obstacle, hsafe], hinv, rfl, rfl⟩
  | GridOp.place r c, _ => by
    by_cases hsafe : isSafeToEdit gm r c
    · obtain ⟨hs, hg, hr0, hrlt, hc0, hclt⟩ := isSafeToEdit_true hsafe
      obtain ⟨rn, rfl⟩ : ∃ rn : Nat, r = (rn : Int) :=
        ⟨r.toNat, (Int.toNat_of_nonneg hr0).symm⟩
      obtain ⟨cn, rfl⟩ : ∃ cn : Nat, c = (cn : Int) :=
        ⟨c.toNat, (Int.toNat_of_nonneg hc0).symm⟩
      have hrn : rn < gm.rows := by omega
      have hcn : cn < gm.cols := by omega
      by_cases hobs : getCell gm.cells rn cn = OBSTACLE
      · have hpl : place_obstacle gm rn cn = some (gm, false) := by
          rw [place_obstacle, if_neg (by simp [hsafe]),
            pyGet2_wf hinv.wf hrn hcn]
          dsimp only
          rw [if_pos hobs]
        exact ⟨gm, by rw [applyOp, hpl]; rfl, hinv, rfl, rfl⟩
      · have hpl : place_obstacle gm rn cn =
            some ({ gm with cells := setCell gm.cells rn cn OBSTACLE }, true) := by
          rw [place_obstacle, if_neg (by simp [hsafe]),
            pyGet2_wf hinv.wf hrn hcn]
          dsimp only
          rw [if_neg hobs, pySet2_wf hinv.wf hrn hcn]
          rfl
        exact ⟨_, by rw [applyOp, hpl]; rfl,
          GMInv_setCell hinv hrn hcn hs hg ⟨by decide, by decide⟩, rfl, rfl⟩
    · exact ⟨gm, by simp [applyOp, place_obstacle, hsafe], hinv, rfl, rfl⟩
  | GridOp.genRandom dp draws, _ => by
    obtain ⟨cells', k', hfold, hwf', hcells'⟩ :=
      genRandomCell_fold_any gm.start gm.goal (dp / 100) draws
        ((List.range gm.rows).flatMap
          (fun r => (List.range gm.cols).map (fun c => (r, c))))
        gm.cells 0 hinv.wf (fun p hp => by
          obtain ⟨a, b⟩ := p
          exact mem_gridIdxs.mp hp)
    refine ⟨{ gm with cells := cells' }, ?_, ?_, rfl, rfl⟩
    · simp only [applyOp, generate_random, hfold]
      rfl
    · obtain ⟨hrp, hcp, hwf, hsb, hgb, hne, hsc, hgc, hoth⟩ := hinv
      refine ⟨hrp, hcp, hwf', hsb, hgb, hne, ?_, ?_, ?_⟩
      · dsimp only
        rcases hcells' gm.start.1.toNat gm.start.2.toNat with hsame | hnew
        · rw [hsame]; exact hsc
        · exfalso
          apply hnew.1
          rw [Prod.ext_iff]
          exact ⟨by dsimp only; omega, by dsimp only; omega⟩
      · dsimp only
        rcases hcells' gm.goal.1.toNat gm.goal.2.toNat with hsame | hnew
        · rw [hsame]; exact hgc
        · exfalso
          apply hnew.2.1
          rw [Prod.ext_iff]
          exact ⟨by dsimp only; omega, by dsimp only; omega⟩
      · intro r' c' hr' hc' hns hng
        dsimp only at hr' hc' hns hng ⊢
        rcases hcells' r' c' with hsame | hnew
        · rw [hsame]; exact hoth r' c' hr' hc' hns hng
        · rcases hnew.2.2 with he | he <;> rw [he] <;>
            exact ⟨by decide, by decide⟩
  | GridOp.clearObs, _ => by
    refine ⟨clear_obstacles gm, rfl, ?_, rfl, rfl⟩
    obtain ⟨hrp, hcp, hwf, hsb, hgb, hne, hsc, hgc, hoth⟩ := hinv
    have hfwf := CellsWF_map hwf (fun v => if v = OBSTACLE then EMPTY else v)
    refine ⟨hrp, hcp, hfwf, hsb, hgb, hne, ?_, ?_, ?_⟩
    · dsimp only [clear_obstacles]
      rw [getCell_map hwf _ (by omega) (by omega), hsc]
      decide
    · dsimp only [clear_obstacles]
      rw [getCell_map hwf _ (by omega) (by omega), hgc]
      decide
    · intro r' c' hr' hc' hns hng
      dsimp only [clear_obstacles] at hr' hc' hns hng ⊢
      rw [getCell_map hwf _ hr' hc']
      obtain ⟨h1, h2⟩ := hoth r' c' hr' hc' hns hng
      by_cases hval : getCell gm.cells r' c' = OBSTACLE
      · rw [hval]
        exact ⟨by decide, by decide⟩
      · rw [if_neg hval]
        exact ⟨h1, h2⟩
  | GridOp.moveStart r c, hok => by
    obtain ⟨hr0, hrlt, hc0, hclt⟩ := hok
    by_cases hg : (r, c) = gm.goal
    · exact ⟨gm, by simp [applyOp, move_start, hg], hinv, rfl, rfl⟩
    · obtain ⟨rn, rfl⟩ : ∃ rn : Nat, r = (rn : Int) :=
        ⟨r.toNat, (Int.toNat_of_nonneg hr0).symm⟩
      obtain ⟨cn, rfl⟩ : ∃ cn : Nat, c = (cn : Int) :=
        ⟨c.toNat, (Int.toNat_of_nonneg hc0).symm⟩
      have hrn : rn < gm.rows := by omega
      have hcn : cn < gm.cols := by omega
      obtain ⟨hrp, hcp, hwf, hsb, hgb, hne, hsc, hgc, hoth⟩ := hinv
      have hsnat1 : gm.start.1 = ((gm.start.1.toNat : Nat) : Int) := by omega
      have hsnat2 : gm.start.2 = ((gm.start.2.toNat : Nat) : Int) := by omega
      have hsrn : gm.start.1.toNat < gm.rows := by omega
      have hscn : gm.start.2.toNat < gm.cols := by omega
      have hset1 : pySet2 gm.cells gm.start.1 gm.start.2 EMPTY =
          some (setCell gm.cells gm.start.1.toNat gm.start.2.toNat EMPTY) := by
        rw [hsnat1, hsnat2]
        exact pySet2_wf hwf hsrn hscn EMPTY
      set cells1 := setCell gm.cells gm.start.1.toNat gm.start.2.toNat EMPTY
        with hc1def
      have hwf1 : CellsWF cells1 gm.rows gm.cols := setCell_wf hwf _ _ _
      have hset2 := pySet2_wf hwf1 hrn hcn START
      set cells2 := setCell cells1 rn cn START with hc2def
      have hwf2 : CellsWF cells2 gm.rows gm.cols := setCell_wf hwf1 _ _ _
      refine ⟨{ gm with start := ((rn : Int), (cn : Int)), cells := cells2 },
        ?_, ?_, rfl, rfl⟩
      · simp only [applyOp, move_start, if_neg hg, hset1, hset2]
        rfl
      · have hgnatne : ¬ (gm.goal.1.toNat = rn ∧ gm.goal.2.toNat = cn) := by
          rintro ⟨h1, h2⟩
          apply hg
          rw [Prod.ext_iff]
          exact ⟨by omega, by omega⟩
        have hgsne : ¬ (gm.goal.1.toNat = gm.start.1.toNat ∧
            gm.goal.2.toNat = gm.start.2.toNat) := by
          rintro ⟨h1, h2⟩
          apply hne
          rw [Prod.ext_iff]
          exact ⟨by omega, by omega⟩
        refine ⟨hrp, hcp, hwf2,
          ⟨by dsimp only; omega, by dsimp only; omega,
           by dsimp only; omega, by dsimp only; omega⟩, hgb,
          fun heq => hg heq, ?_, ?_, ?_⟩
        · dsimp only
          rw [show ((rn : Int)).toNat = rn from by omega,
            show ((cn : Int)).toNat = cn from by omega, hc2def,
            getCell_setCell_wf hwf1 hrn hcn START _ _, if_pos ⟨rfl, rfl⟩]
        · dsimp only
          rw [hc2def, getCell_setCell_wf hwf1 hrn hcn START _ _, if_neg hgnatne,
            hc1def, getCell_setCell_wf hwf hsrn hscn EMPTY _ _, if_neg hgsne]
          exact hgc
        · intro r' c' hr' hc' hns hng
          dsimp only at hr' hc' hns hng ⊢
          rw [hc2def, getCell_setCell_wf hwf1 hrn hcn START r' c',
            if_neg (by
              rintro ⟨rfl, rfl⟩
              exact hns rfl),
            hc1def, getCell_setCell_wf hwf hsrn hscn EMPTY r' c']
          by_cases holds : r' = gm.start.1.toNat ∧ c' = gm.start.2.toNat
          · rw [if_pos holds]
            exact ⟨by decide, by decide⟩
          · rw [if_neg holds]
            refine hoth r' c' hr' hc' ?_ hng
            intro heq
            apply holds
            rw [Prod.ext_iff] at heq
            exact ⟨by omega, by omega⟩
  | GridOp.moveGoal r c, hok => by
    obtain ⟨hr0, hrlt, hc0, hclt⟩ := hok
    by_cases hs : (r, c) = gm.start
    · exact ⟨gm, by simp [applyOp, move_goal, hs], hinv, rfl, rfl⟩
    · obtain ⟨rn, rfl⟩ : ∃ rn : Nat, r = (rn : Int) :=
        ⟨r.toNat, (Int.toNat_of_nonneg hr0).symm⟩
      obtain ⟨cn, rfl⟩ : ∃ cn : Nat, c = (cn : Int) :=
        ⟨c.toNat, (Int.toNat_of_nonneg hc0).symm⟩
      have hrn : rn < gm.rows := by omega
      have hcn : cn < gm.cols := by omega
      obtain ⟨hrp, hcp, hwf, hsb, hgb, hne, hsc, hgc, hoth⟩ := hinv
      have hgnat1 : gm.goal.1 = ((gm.goal.1.toNat : Nat) : Int) := by omega
      have hgnat2 : gm.goal.2 = ((gm.goal.2.toNat : Nat) : Int) := by omega
      have hgrn : gm.goal.1.toNat < gm.rows := by omega
      have hgcn : gm.goal.2.toNat < gm.cols := by omega
      have hset1 : pySet2 gm.cells gm.goal.1 gm.goal.2 EMPTY =
          some (setCell gm.cells gm.goal.1.toNat gm.goal.2.toNat EMPTY) := by
        rw [hgnat1, hgnat2]
        exact pySet2_wf hwf hgrn hgcn EMPTY
      set cells1 := setCell gm.cells gm.goal.1.toNat gm.goal.2.toNat EMPTY
        with hc1def
      have hwf1 : CellsWF cells1 gm.rows gm.cols := setCell_wf hwf _ _ _
      have hset2 := pySet2_wf hwf1 hrn hcn GOAL
      set cells2 := setCell cells1 rn cn GOAL with hc2def
      have hwf2 : CellsWF cells2 gm.rows gm.cols := setCell_wf hwf1 _ _ _
      refine ⟨{ gm with goal := ((rn : Int), (cn : Int)), cells := cells2 },
        ?_, ?_, rfl, rfl⟩
      · simp only [applyOp, move_goal, if_neg hs, hset1, hset2]
        rfl
      · have hsnatne : ¬ (gm.start.1.toNat = rn ∧ gm.start.2.toNat = cn) := by
          rintro ⟨h1, h2⟩
          apply hs
          rw [Prod.ext_iff]
          exact ⟨by omega, by omega⟩
        have hsgne : ¬ (gm.start.1.toNat = gm.goal.1.toNat ∧
            gm.start.2.toNat = gm.goal.2.toNat) := by
          rintro ⟨h1, h2⟩
          apply hne
          rw [Prod.ext_iff]
          exact ⟨by omega, by omega⟩
        refine ⟨hrp, hcp, hwf2, hsb,
          ⟨by dsimp only; omega, by dsimp only; omega,
           by dsimp only; omega, by dsimp only; omega⟩,
          fun heq => hs heq.symm, ?_, ?_, ?_⟩
        · dsimp only
          rw [hc2def, getCell_setCell_wf hwf1 hrn hcn GOAL _ _, if_neg hsnatne,
            hc1def, getCell_setCell_wf hwf hgrn hgcn EMPTY _ _, if_neg hsgne]
          exact hsc
        · dsimp only
          rw [show ((rn : Int)).toNat = rn from by omega,
            show ((cn : Int)).toNat = cn from by omega, hc2def,
            getCell_setCell_wf hwf1 hrn hcn GOAL _ _, if_pos ⟨rfl, rfl⟩]
        · intro r' c' hr' hc' hns hng
          dsimp only at hr' hc' hns hng ⊢
          rw [hc2def, getCell_setCell_wf hwf1 hrn hcn GOAL r' c',
            if_neg (by
              rintro ⟨rfl, rfl⟩
              exact hng rfl),
            hc1def, getCell_setCell_wf hwf hgrn hgcn EMPTY r' c']
          by_cases holds : r' = gm.goal.1.toNat ∧ c' = gm.goal.2.toNat
          · rw [if_pos holds]
            exact ⟨by decide, by decide⟩
          · rw [if_neg holds]
            refine hoth r' c' hr' hc' hns ?_
            intro heq
            apply holds
            rw [Prod.ext_iff] at heq
            exact ⟨by omega, by omega⟩
  | GridOp.spawn a p pr d pk, hok => by
    rw [applyOp, try_spawn_dynamic_obstacle]
    by_cases hmiss : d > pr
    · rw [if_pos hmiss]
      exact ⟨gm, rfl, hinv, rfl, rfl⟩
    · rw [if_neg hmiss]
      obtain ⟨res, hres, hresinv, hdims⟩ :=
        spawnAttempts_preserves hinv hok (List.range 20)
      rw [hres]
      exact ⟨res.1, rfl, hresinv, hdims⟩

theorem applyOps_preserves {gm : GridManager} (hinv : GMInv gm) :
    ∀ {ops : List GridOp}, (∀ op ∈ ops, OpOK gm.rows gm.cols op) →
      ∃ gm', applyOps gm ops = some gm' ∧ GMInv gm' ∧
        gm'.rows = gm.rows ∧ gm'.cols = gm.cols
  | [], _ => ⟨gm, rfl, hinv, rfl, rfl⟩
  | op :: ops, hops => by
    obtain ⟨gm1, h1, hinv1, hr1, hc1⟩ :=
      applyOp_preserves hinv (hops op (List.mem_cons_self _ _))
    obtain ⟨gm2, h2, hinv2, hr2, hc2⟩ :=
      @applyOps_preserves gm1 hinv1 ops (fun o ho => by
        rw [hr1, hc1]
        exact hops o (List.mem_cons_of_mem _ ho))
    exact ⟨gm2, by rw [applyOps, h1, Option.some_bind, h2], hinv2,
      by omega, by omega⟩

/-- The one-Start/one-Goal conclusion extracted from `GMInv`. -/
theorem GMInv_counts {gm : GridManager} (hinv : GMInv gm) :
    countVal gm.cells START = 1 ∧ countVal gm.cells GOAL = 1 ∧
      pyGet2 gm.cells gm.start.1 gm.start.2 = some START ∧
      pyGet2 gm.cells gm.goal.1 gm.goal.2 = some GOAL := by
  obtain ⟨hrp, hcp, hwf, hsb, hgb, hne, hsc, hgc, hoth⟩ := hinv
  have hsrn : gm.start.1.toNat < gm.rows := by omega
  have hscn : gm.start.2.toNat < gm.cols := by omega
  have hgrn : gm.goal.1.toNat < gm.rows := by omega
  have hgcn : gm.goal.2.toNat < gm.cols := by omega
  have hsgne : ¬ (gm.goal.1.toNat = gm.start.1.toNat ∧
      gm.goal.2.toNat = gm.start.2.toNat) := by
    rintro ⟨h1, h2⟩
    apply hne
    rw [Prod.ext_iff]
    exact ⟨by omega, by omega⟩
  refine ⟨?_, ?_, ?_, ?_⟩
  · refine countVal_eq_one hwf hsrn hscn hsc ?_
    intro r c hr hc hneq
    by_cases hgl : r = gm.goal.1.toNat ∧ c = gm.goal.2.toNat
    · obtain ⟨rfl, rfl⟩ := hgl
      rw [hgc]
      decide
    · refine (hoth r c hr hc ?_ ?_).1
      · intro heq
        apply hneq
        rw [Prod.ext_iff] at heq
        exact ⟨by omega, by omega⟩
      · intro heq
        apply hgl
        rw [Prod.ext_iff] at heq
        exact ⟨by omega, by omega⟩
  · refine countVal_eq_one hwf hgrn hgcn hgc ?_
    intro r c hr hc hneq
    by_cases hst : r = gm.start.1.toNat ∧ c = gm.start.2.toNat
    · obtain ⟨rfl, rfl⟩ := hst
      rw [hsc]
      decide
    · refine (hoth r c hr hc ?_ ?_).2
      · intro heq
        apply hst
        rw [Prod.ext_iff] at heq
        exact ⟨by omega, by omega⟩
      · intro heq
        apply hneq
        rw [Prod.ext_iff] at heq
        exact ⟨by omega, by omega⟩
  · rw [show gm.start.1 = ((gm.start.1.toNat : Nat) : Int) from by omega,
      show gm.start.2 = ((gm.start.2.toNat : Nat) : Int) from by omega,
      pyGet2_wf hwf hsrn hscn, hsc]
  · rw [show gm.goal.1 = ((gm.goal.1.toNat : Nat) : Int) from by omega,
      show gm.goal.2 = ((gm.goal.2.toNat : Nat) : Int) from by omega,
      pyGet2_wf hwf hgrn hgcn, hgc]

/-- C4 counterexample: the claim fails as stated, because `move_start`
accepts Python negative indices.  On a fresh 3×3 grid,
`move_start(-1, -1)` passes the `(new_row, new_col) == goal` tuple test
(`(-1, -1) ≠ (2, 2)`), completes normally, and writes `START` through
the wrap-around indices onto the goal cell `(2, 2)`: afterwards the
grid holds one `START` (not at the stored start `(-1, -1)`) and zero
`GOAL` cells. -/
theorem grid_ops_invariant_cex :
    ((createGrid 3 3).bind
        (fun gm0 => applyOps gm0 [GridOp.moveStart (-1) (-1)])).map
      (fun g => (countVal g.cells START, countVal g.cells GOAL,
        g.start, getCell g.cells 2 2)) =
      some (1, 0, ((-1 : Int), (-1 : Int)), START) := by
  decide

/-- C4 (amended): starting from any freshly created grid with at least
two cells, every sequence of grid mutation operations whose `move_start`
/`move_goal` coordinates are in bounds (and whose spawn picks respect
the `randint` ranges) keeps exactly one `START` cell and exactly one
`GOAL` cell, located at the stored start and goal coordinates. -/
theorem grid_ops_invariant (rows cols : Nat) (hr : 1 ≤ rows)
    (hc : 1 ≤ cols) (hsize : ¬ (rows = 1 ∧ cols = 1)) (ops : List GridOp)
    (hops : ∀ op ∈ ops, OpOK rows cols op) :
    ∃ gm0 gmf, createGrid rows cols = some gm0 ∧
      applyOps gm0 ops = some gmf ∧
      countVal gmf.cells START = 1 ∧ countVal gmf.cells GOAL = 1 ∧
      pyGet2 gmf.cells gmf.start.1 gmf.start.2 = some START ∧
      pyGet2 gmf.cells gmf.goal.1 gmf.goal.2 = some GOAL := by
  obtain ⟨gm0, hcreate, hinv0, hr0, hc0⟩ := createGrid_inv hr hc hsize
  obtain ⟨gmf, hops', hinvf, -, -⟩ :=
    applyOps_preserves hinv0 (fun op ho => by rw [hr0, hc0]; exact hops op ho)
  obtain ⟨h1, h2, h3, h4⟩ := GMInv_counts hinvf
  exact ⟨gm0, gmf, hcreate, hops', h1, h2, h3, h4⟩

/-- Witness for the amended C4: a 2×3 grid with a toggle, an in-bounds
start move, a goal move rejected for targeting the start, and a clear. -/
theorem grid_ops_invariant_witness :
    ∃ gm0 gmf, createGrid 2 3 = some gm0 ∧
      applyOps gm0 [GridOp.toggle 0 1, GridOp.moveStart 1 0,
        GridOp.moveGoal 1 0, GridOp.clearObs] = some gmf ∧
      countVal gmf.cells START = 1 ∧ countVal gmf.cells GOAL = 1 ∧
      pyGet2 gmf.cells gmf.start.1 gmf.start.2 = some START ∧
      pyGet2 gmf.cells gmf.goal.1 gmf.goal.2 = some GOAL := by
  refine grid_ops_invariant 2 3 (by norm_num) (by norm_num) (by simp) _ ?_
  intro op hop
  simp only [List.mem_cons, List.not_mem_nil, or_false] at hop
  rcases hop with rfl | rfl | rfl | rfl
  · exact trivial
  · exact ⟨by norm_num, by norm_num, by norm_num, by norm_num⟩
  · exact ⟨by norm_num, by norm_num, by norm_num, by norm_num⟩
  · exact trivial

-- ──────────────────────────────────────────────────────────
-- Path theory for the search algorithms
-- ──────────────────────────────────────────────────────────

/-- A coordinate that a path may use: in bounds and not an obstacle. -/
def ValidCell (grid : Cells) (rows cols : Nat) (n : Coord) : Prop :=
  0 ≤ n.1 ∧ n.1 < (rows : Int) ∧ 0 ≤ n.2 ∧ n.2 < (cols : Int) ∧
    cellAt grid n.1 n.2 ≠ OBSTACLE

/-- One unit move of the search: `b` is among `a`'s valid neighbours. -/
def EdgeStep (grid : Cells) (rows cols : Nat) (a b : Coord) : Prop :=
  b ∈ get_neighbors grid a.1 a.2 rows cols

/-- A valid 4-connected path from `s` with the given number of steps,
growing at its endpoint. -/
inductive PathTo (grid : Cells) (rows cols : Nat) (s : Coord) :
    Coord → Nat → Prop
  | nil : ValidCell grid rows cols s → PathTo grid rows cols s s 0
  | cons {m m' : Coord} {k : Nat} : PathTo grid rows cols s m k →
      EdgeStep grid rows cols m m' → PathTo grid rows cols s m' (k + 1)

theorem mem_get_neighbors {grid : Cells} {rows cols : Nat} {a b : Coord} :
    b ∈ get_neighbors grid a.1 a.2 rows cols ↔
      ((b = (a.1 - 1, a.2) ∨ b = (a.1 + 1, a.2) ∨
        b = (a.1, a.2 - 1) ∨ b = (a.1, a.2 + 1)) ∧
       ValidCell grid rows cols b) := by
  simp only [get_neighbors, List.mem_filterMap, List.mem_cons,
    List.not_mem_nil, or_false]
  constructor
  · rintro ⟨d, hd, hsome⟩
    rcases hd with rfl | rfl | rfl | rfl
    · dsimp only at hsome
      split_ifs at hsome with hcond
      · simp only [Option.some.injEq] at hsome
        obtain ⟨h1, h2, h3, h4, h5⟩ := hcond
        subst hsome
        refine ⟨Or.inl ?_, by omega, by omega, by omega, by omega, h5⟩
        rw [Prod.ext_iff]
        exact ⟨by omega, by omega⟩
    · dsimp only at hsome
      split_ifs at hsome with hcond
      · simp only [Option.some.injEq] at hsome
        obtain ⟨h1, h2, h3, h4, h5⟩ := hcond
        subst hsome
        refine ⟨Or.inr (Or.inl ?_), by omega, by omega, by omega, by omega, h5⟩
        rw [Prod.ext_iff]
        exact ⟨by omega, by omega⟩
    · dsimp only at hsome
      split_ifs at hsome with hcond
      · simp only [Option.some.injEq] at hsome
        obtain ⟨h1, h2, h3, h4, h5⟩ := hcond
        subst hsome
        refine ⟨Or.inr (Or.inr (Or.inl ?_)), by omega, by omega, by omega,
          by omega, h5⟩
        rw [Prod.ext_iff]
        exact ⟨by omega, by omega⟩
    · dsimp only at hsome
      split_ifs at hsome with hcond
      · simp only [Option.some.injEq] at hsome
        obtain ⟨h1, h2, h3, h4, h5⟩ := hcond
        subst hsome
        refine ⟨Or.inr (Or.inr (Or.inr ?_)), by omega, by omega, by omega,
          by omega, h5⟩
        rw [Prod.ext_iff]
        exact ⟨by omega, by omega⟩
  · rintro ⟨hd, hb⟩
    obtain ⟨h1, h2, h3, h4, h5⟩ := hb
    rcases hd with rfl | rfl | rfl | rfl
    · refine ⟨(-1, 0), Or.inl rfl, ?_⟩
      dsimp only
      rw [show a.1 + (-1 : Int) = a.1 - 1 from by ring,
        show a.2 + (0 : Int) = a.2 from by ring,
        if_pos ⟨h1, h2, h3, h4, h5⟩]
    · refine ⟨(1, 0), Or.inr (Or.inl rfl), ?_⟩
      dsimp only
      rw [show a.2 + (0 : Int) = a.2 from by ring,
        if_pos ⟨h1, h2, h3, h4, h5⟩]
    · refine ⟨(0, -1), Or.inr (Or.inr (Or.inl rfl)), ?_⟩
      dsimp only
      rw [show a.1 + (0 : Int) = a.1 from by ring,
        show a.2 + (-1 : Int) = a.2 - 1 from by ring,
        if_pos ⟨h1, h2, h3, h4, h5⟩]
    · refine ⟨(0, 1), Or.inr (Or.inr (Or.inr rfl)), ?_⟩
      dsimp only
      rw [show a.1 + (0 : Int) = a.1 from by ring,
        if_pos ⟨h1, h2, h3, h4, h5⟩]

theorem EdgeStep.valid {grid : Cells} {rows cols : Nat} {a b : Coord}
    (h : EdgeStep grid rows cols a b) : ValidCell grid rows cols b :=
  (mem_get_neighbors.mp h).2

theorem EdgeStep.manhattan_one {grid : Cells} {rows cols : Nat} {a b : Coord}
    (h : EdgeStep grid rows cols a b) : manhattan_distance a b = 1 := by
  rcases (mem_get_neighbors.mp h).1 with rfl | rfl | rfl | rfl <;>
    simp [manhattan_distance]

theorem EdgeStep.ne {grid : Cells} {rows cols : Nat} {a b : Coord}
    (h : EdgeStep grid rows cols a b) : b ≠ a := by
  intro heq
  have := h.manhattan_one
  rw [heq] at this
  simp [manhattan_distance] at this

theorem edgeStep_of_adjacent {grid : Cells} {rows cols : Nat} {a b : Coord}
    (hd : b = (a.1 - 1, a.2) ∨ b = (a.1 + 1, a.2) ∨
      b = (a.1, a.2 - 1) ∨ b = (a.1, a.2 + 1))
    (hb : ValidCell grid rows cols b) : EdgeStep grid rows cols a b :=
  mem_get_neighbors.mpr ⟨hd, hb⟩

theorem PathTo.valid_end {grid : Cells} {rows cols : Nat} {s t : Coord}
    {k : Nat} (h : PathTo grid rows cols s t k) :
    ValidCell grid rows cols t := by
  cases h with
  | nil hv => exact hv
  | cons _ he => exact he.valid

theorem PathTo.valid_start {grid : Cells} {rows cols : Nat} {s t : Coord}
    {k : Nat} (h : PathTo grid rows cols s t k) :
    ValidCell grid rows cols s := by
  induction h with
  | nil hv => exact hv
  | cons _ _ ih => exact ih

/-- Any valid path needs at least the Manhattan distance many steps. -/
theorem PathTo.manhattan_le {grid : Cells} {rows cols : Nat} {s t : Coord}
    {k : Nat} (h : PathTo grid rows cols s t k) :
    manhattan_distance s t ≤ k := by
  induction h with
  | nil hv => simp [manhattan_distance]
  | @cons m m' k hp he ih =>
    have h1 := he.manhattan_one
    simp only [manhattan_distance] at *
    omega

/-- On an obstacle-free grid, every pair of in-bounds cells is joined by
a path of exactly the Manhattan distance many steps. -/
theorem pathTo_manhattan_of_free {grid : Cells} {rows cols : Nat}
    (hfree : ∀ r c : Nat, r < rows → c < cols → getCell grid r c ≠ OBSTACLE) :
    ∀ (k : Nat) (s t : Coord), ValidCell grid rows cols s →
      ValidCell grid rows cols t → manhattan_distance s t = k →
      PathTo grid rows cols s t k := by
  intro k
  induction k with
  | zero =>
    intro s t hs ht hman
    have : s = t := by
      simp only [manhattan_distance] at hman
      rw [Prod.ext_iff]
      exact ⟨by omega, by omega⟩
    subst this
    exact PathTo.nil hs
  | succ k ih =>
    intro s t hs ht hman
    obtain ⟨ht1, ht2, ht3, ht4, ht5⟩ := ht
    by_cases hrow : s.1 ≠ t.1
    · set m : Coord := (if s.1 < t.1 then t.1 - 1 else t.1 + 1, t.2) with hmdef
      have hmb : 0 ≤ m.1 ∧ m.1 < (rows : Int) ∧ 0 ≤ m.2 ∧ m.2 < (cols : Int) := by
        obtain ⟨hs1, hs2, hs3, hs4, hs5⟩ := hs
        rw [hmdef]
        split_ifs <;> exact ⟨by omega, by omega, by omega, by omega⟩
      have hmv : ValidCell grid rows cols m := by
        refine ⟨hmb.1, hmb.2.1, hmb.2.2.1, hmb.2.2.2, ?_⟩
        have h1 : m.1 = ((m.1.toNat : Nat) : Int) := by omega
        have h2 : m.2 = ((m.2.toNat : Nat) : Int) := by omega
        rw [h1, h2, cellAt_coe]
        exact hfree _ _ (by omega) (by omega)
      have hman' : manhattan_distance s m = k := by
        simp only [manhattan_distance, hmdef] at hman ⊢
        split_ifs <;> omega
      have hedge : EdgeStep grid rows cols m t := by
        refine edgeStep_of_adjacent ?_ ⟨ht1, ht2, ht3, ht4, ht5⟩
        rw [hmdef]
        split_ifs with hlt
        · right; left
          rw [Prod.ext_iff]
          exact ⟨by omega, by omega⟩
        · left
          rw [Prod.ext_iff]
          exact ⟨by omega, by omega⟩
      exact PathTo.cons (ih s m hs hmv hman') hedge
    · push_neg at hrow
      have hcol : s.2 ≠ t.2 := by
        intro heq
        simp only [manhattan_distance, hrow, heq] at hman
        omega
      set m : Coord := (t.1, if s.2 < t.2 then t.2 - 1 else t.2 + 1) with hmdef
      have hmb : 0 ≤ m.1 ∧ m.1 < (rows : Int) ∧ 0 ≤ m.2 ∧ m.2 < (cols : Int) := by
        obtain ⟨hs1, hs2, hs3, hs4, hs5⟩ := hs
        rw [hmdef]
        split_ifs <;> exact ⟨by omega, by omega, by omega, by omega⟩
      have hmv : ValidCell grid rows cols m := by
        refine ⟨hmb.1, hmb.2.1, hmb.2.2.1, hmb.2.2.2, ?_⟩
        have h1 : m.1 = ((m.1.toNat : Nat) : Int) := by omega
        have h2 : m.2 = ((m.2.toNat : Nat) : Int) := by omega
        rw [h1, h2, cellAt_coe]
        exact hfree _ _ (by omega) (by omega)
      have hman' : manhattan_distance s m = k := by
        simp only [manhattan_distance, hmdef] at hman ⊢
        split_ifs <;> omega
      have hedge : EdgeStep grid rows cols m t := by
        refine edgeStep_of_adjacent ?_ ⟨ht1, ht2, ht3, ht4, ht5⟩
        rw [hmdef]
        split_ifs with hlt
        · right; right; right
          rw [Prod.ext_iff]
          exact ⟨by omega, by omega⟩
        · right; right; left
          rw [Prod.ext_iff]
          exact ⟨by omega, by omega⟩
      exact PathTo.cons (ih s m hs hmv hman') hedge

-- ──────────────────────────────────────────────────────────
-- Correctness of reconstruct_path over acyclic came-from maps
-- ──────────────────────────────────────────────────────────

theorem lookup_isSome_mem_keys {α β : Type} [BEq α] [LawfulBEq α]
    {l : List (α × β)} {a : α} (h : (List.lookup a l).isSome) :
    a ∈ l.map Prod.fst := by
  induction l with
  | nil => simp [List.lookup] at h
  | cons x xs ih =>
    rw [List.lookup] at h
    by_cases heq : a == x.1
    · simp only [List.map_cons, List.mem_cons]
      exact Or.inl (eq_of_beq heq)
    · rw [Bool.not_eq_true] at heq
      rw [heq] at h
      exact List.mem_cons_of_mem _ (ih h)

theorem nodup_subset_length {α : Type} [DecidableEq α] {l keys : List α}
    (hn : l.Nodup) (hsub : ∀ x ∈ l, x ∈ keys) : l.length ≤ keys.length := by
  calc l.length = l.toFinset.card := (List.toFinset_card_of_nodup hn).symm
    _ ≤ keys.toFinset.card := Finset.card_le_card (fun x hx => by
        rw [List.mem_toFinset] at *
        exact hsub x hx)
    _ ≤ keys.length := keys.toFinset_card_le

/-- The backward chain recorded in a came-from map: `l` lists the
coordinates from `start` to `n` following recorded predecessors. -/
inductive CFChain (cameFrom : CameFrom) (start : Coord) :
    List Coord → Coord → Prop
  | base : cameFrom.lookup start = some none →
      CFChain cameFrom start [start] start
  | step {p n : Coord} {l : List Coord} : CFChain cameFrom start l p →
      cameFrom.lookup n = some (some p) → CFChain cameFrom start (l ++ [n]) n

theorem CFChain.getLast?_eq {cameFrom : CameFrom} {start : Coord}
    {l : List Coord} {n : Coord} (h : CFChain cameFrom start l n) :
    l.getLast? = some n := by
  induction h with
  | base _ => rfl
  | step _ _ _ => simp [List.getLast?_append]

theorem CFChain.head?_eq {cameFrom : CameFrom} {start : Coord}
    {l : List Coord} {n : Coord} (h : CFChain cameFrom start l n) :
    l.head? = some start := by
  induction h with
  | base _ => rfl
  | step hc _ ih =>
    rw [List.head?_append, ih]
    rfl

theorem CFChain.ne_nil {cameFrom : CameFrom} {start : Coord}
    {l : List Coord} {n : Coord} (h : CFChain cameFrom start l n) :
    l ≠ [] := by
  intro heq
  have := h.head?_eq
  rw [heq] at this
  simp at this

theorem CFChain.chain' {grid : Cells} {rows cols : Nat}
    {cameFrom : CameFrom} {start : Coord} {l : List Coord} {n : Coord}
    (hedge : ∀ a b : Coord, cameFrom.lookup b = some (some a) →
      EdgeStep grid rows cols a b)
    (h : CFChain cameFrom start l n) :
    List.Chain' (EdgeStep grid rows cols) l := by
  induction h with
  | base _ => simp
  | @step p m l hc hlink ih =>
    rw [List.chain'_append]
    refine ⟨ih, by simp, ?_⟩
    intro x hx y hy
    rw [hc.getLast?_eq] at hx
    simp only [Option.mem_def, Option.some.injEq] at hx
    simp only [List.head?_cons, Option.mem_def, Option.some.injEq] at hy
    subst hx
    subst hy
    exact hedge _ _ hlink

theorem CFChain.mem_keys {cameFrom : CameFrom} {start : Coord}
    {l : List Coord} {n : Coord} (h : CFChain cameFrom start l n) :
    ∀ x ∈ l, (cameFrom.lookup x).isSome := by
  induction h with
  | base hs =>
    intro x hx
    simp only [List.mem_singleton] at hx
    subst hx
    simp [hs]
  | @step p m l hc hlink ih =>
    intro x hx
    rcases List.mem_append.mp hx with hx' | hx'
    · exact ih x hx'
    · simp only [List.mem_singleton] at hx'
      subst hx'
      simp [hlink]

/-- Successor count along a came-from chain whose links increment an
associated g-score by exactly one. -/
theorem CFChain.gscore_len {cameFrom : CameFrom} {start : Coord}
    (gS : GScore) (hstart0 : gS.lookup start = some 0)
    (hlink : ∀ n p : Coord, cameFrom.lookup n = some (some p) →
      ∃ gp gn, gS.lookup p = some gp ∧ gS.lookup n = some gn ∧ gn = gp + 1) :
    ∀ {l : List Coord} {n : Coord}, CFChain cameFrom start l n →
      ∃ gn, gS.lookup n = some gn ∧ l.length = gn + 1 := by
  intro l n h
  induction h with
  | base _ => exact ⟨0, hstart0, rfl⟩
  | @step p m l hc hlink' ih =>
    obtain ⟨gp, hgp, hlen⟩ := ih
    obtain ⟨gp', gn, hgp', hgn, heq⟩ := hlink m p hlink'
    rw [hgp] at hgp'
    obtain rfl := Option.some.injEq .. ▸ hgp'
    exact ⟨gn, hgn, by simp [hlen, heq]⟩

theorem reconstructAux_ok (cameFrom : CameFrom) (start : Coord)
    (rank : Coord → Nat) (hstart : cameFrom.lookup start = some none)
    (hnone : ∀ n, cameFrom.lookup n = some none → n = start)
    (hrank : ∀ n p : Coord, cameFrom.lookup n = some (some p) →
      (cameFrom.lookup p).isSome ∧ rank p < rank n) :
    ∀ (k : Nat) (n : Coord), rank n ≤ k → (cameFrom.lookup n).isSome →
      ∃ l, CFChain cameFrom start l n ∧
        (∀ x ∈ l, rank x ≤ rank n) ∧ l.Nodup ∧
        ∀ fuel acc, l.length < fuel →
          reconstructAux cameFrom fuel (some n) acc = some (l ++ acc) := by
  intro k
  induction k with
  | zero =>
    intro n hle hsome
    match hv : cameFrom.lookup n with
    | some none =>
      have hns : start = n := (hnone n hv).symm
      subst hns
      refine ⟨[start], CFChain.base hv, by simp, by simp, ?_⟩
      intro fuel acc hfuel
      have h1 : 1 < fuel := by simpa using hfuel
      obtain ⟨f, rfl⟩ : ∃ f, fuel = f + 2 := ⟨fuel - 2, by omega⟩
      simp only [reconstructAux, hv]
      rfl
    | some (some p) =>
      have := (hrank n p hv).2
      omega
    | none => simp [hv] at hsome
  | succ k ih =>
    intro n hle hsome
    match hv : cameFrom.lookup n with
    | some none =>
      have hns : start = n := (hnone n hv).symm
      subst hns
      refine ⟨[start], CFChain.base hv, by simp, by simp, ?_⟩
      intro fuel acc hfuel
      have h1 : 1 < fuel := by simpa using hfuel
      obtain ⟨f, rfl⟩ : ∃ f, fuel = f + 2 := ⟨fuel - 2, by omega⟩
      simp only [reconstructAux, hv]
      rfl
    | some (some p) =>
      obtain ⟨hpsome, hplt⟩ := hrank n p hv
      obtain ⟨l, hchain, hmem, hnodup, hexec⟩ :=
        ih p (by omega) hpsome
      refine ⟨l ++ [n], CFChain.step hchain hv, ?_, ?_, ?_⟩
      · intro x hx
        rcases List.mem_append.mp hx with hx' | hx'
        · exact le_trans (hmem x hx') (by omega)
        · simp only [List.mem_singleton] at hx'
          subst hx'
          exact le_refl _
      · rw [List.nodup_append]
        refine ⟨hnodup, by simp, ?_⟩
        intro x hx
        simp only [List.mem_singleton]
        intro heq
        subst heq
        have := hmem x hx
        omega
      · intro fuel acc hfuel
        have h1 : 0 < fuel := by omega
        obtain ⟨f, rfl⟩ : ∃ f, fuel = f + 1 := ⟨fuel - 1, by omega⟩
        simp only [reconstructAux, hv]
        rw [hexec f (n :: acc) (by simp at hfuel; omega)]
        simp
    | none => simp [hv] at hsome

/-- Top-level correctness of `reconstruct_path`: over a came-from map
whose parent links strictly decrease some rank and whose only `None`
parent belongs to `start`, reconstruction from any bound key succeeds
and yields the recorded chain from `start` to that key, with no
repeated coordinates. -/
theorem reconstruct_path_ok (cameFrom : CameFrom) (start : Coord)
    (rank : Coord → Nat) (hstart : cameFrom.lookup start = some none)
    (hnone : ∀ n, cameFrom.lookup n = some none → n = start)
    (hrank : ∀ n p : Coord, cameFrom.lookup n = some (some p) →
      (cameFrom.lookup p).isSome ∧ rank p < rank n)
    (goal : Coord) (hgoal : (cameFrom.lookup goal).isSome) :
    ∃ l, reconstruct_path cameFrom goal = some l ∧
      CFChain cameFrom start l goal ∧ l.Nodup := by
  obtain ⟨l, hchain, hmem, hnodup, hexec⟩ :=
    reconstructAux_ok cameFrom start rank hstart hnone hrank (rank goal)
      goal le_rfl hgoal
  have hlen0 : l.length ≤ (cameFrom.map Prod.fst).length :=
    nodup_subset_length hnodup
      (fun x hx => lookup_isSome_mem_keys (hchain.mem_keys x hx))
  have hlen : l.length ≤ cameFrom.length := by simpa using hlen0
  refine ⟨l, ?_, hchain, hnodup⟩
  rw [reconstruct_path, hexec (cameFrom.length + 1) [] (by omega)]
  simp

-- ──────────────────────────────────────────────────────────
-- Greedy best-first search: loop invariant
-- ──────────────────────────────────────────────────────────

/-- Position of the first occurrence of `a` in `l` (the length of `l`
when absent); the rank function used for the greedy acyclicity
argument. -/
def idxIn : List Coord → Coord → Nat
  | [], _ => 0
  | x :: xs, a => if a = x then 0 else idxIn xs a + 1

theorem idxIn_lt_length {a : Coord} : ∀ {l : List Coord}, a ∈ l →
    idxIn l a < l.length
  | [], hmem => by simp at hmem
  | x :: xs, hmem => by
    rw [idxIn]
    by_cases heq : a = x
    · simp [heq]
    · rw [if_neg heq]
      rcases List.mem_cons.mp hmem with heq' | hmem'
      · exact absurd heq' heq
      · simpa using idxIn_lt_length hmem'

theorem idxIn_eq_length {a : Coord} : ∀ {l : List Coord}, a ∉ l →
    idxIn l a = l.length
  | [], _ => rfl
  | x :: xs, hmem => by
    simp only [List.mem_cons, not_or] at hmem
    rw [idxIn, if_neg hmem.1, idxIn_eq_length hmem.2]
    rfl

theorem idxIn_append_left {a : Coord} : ∀ {l₁ : List Coord}
    (l₂ : List Coord), a ∈ l₁ → idxIn (l₁ ++ l₂) a = idxIn l₁ a
  | [], _, hmem => by simp at hmem
  | x :: xs, l₂, hmem => by
    rw [List.cons_append, idxIn, idxIn]
    by_cases heq : a = x
    · simp [heq]
    · rw [if_neg heq, if_neg heq]
      rcases List.mem_cons.mp hmem with heq' | hmem'
      · exact absurd heq' heq
      · rw [idxIn_append_left l₂ hmem']

theorem idxIn_append_self {a : Coord} {l : List Coord} (h : a ∉ l) :
    idxIn (l ++ [a]) a = l.length := by
  induction l with
  | nil => simp [idxIn]
  | cons x xs ih =>
    simp only [List.mem_cons, not_or] at h
    rw [List.cons_append, idxIn, if_neg h.1, ih h.2]
    rfl

theorem lookup_cons_ne {α β : Type} [BEq α] [LawfulBEq α] {k n : α} {v : β}
    {l : List (α × β)} (hne : n ≠ k) :
    List.lookup n ((k, v) :: l) = List.lookup n l := by
  rw [List.lookup_cons]
  have h : (n == k) = false := beq_eq_false_iff_ne.mpr hne
  rw [h]

theorem lookup_cons_self {α β : Type} [BEq α] [LawfulBEq α] {k : α} {v : β}
    {l : List (α × β)} : List.lookup k ((k, v) :: l) = some v := by
  rw [List.lookup_cons]
  have h : (k == k) = true := beq_self_eq_true k
  rw [h]

/-- Loop invariant of `greedy_bfs`: the came-from map is an acyclic
forest rooted at `start` growing along valid edges, visited nodes are
pairwise distinct discovered keys, and the open list holds exactly the
discovered-but-unexpanded nodes, each once, keyed by its own heuristic
value. -/
structure GInv (grid : Cells) (rows cols : Nat) (start goal : Coord)
    (h : Coord → Coord → Nat) (openList : List GEntry)
    (cameFrom : CameFrom) (visited : List Coord) : Prop where
  start_bind : cameFrom.lookup start = some none
  none_only_start : ∀ n, cameFrom.lookup n = some none → n = start
  parent_edge : ∀ n p, cameFrom.lookup n = some (some p) →
    EdgeStep grid rows cols p n ∧ p ∈ visited ∧ (cameFrom.lookup p).isSome
  parent_before : ∀ n p, cameFrom.lookup n = some (some p) → n ∈ visited →
    idxIn visited p < idxIn visited n
  visited_keys : ∀ n ∈ visited, (cameFrom.lookup n).isSome
  visited_nodup : visited.Nodup
  open_keys : ∀ e ∈ openList, (cameFrom.lookup e.2).isSome ∧ e.1 = h e.2 goal
  open_not_visited : ∀ e ∈ openList, e.2 ∉ visited
  open_nodes_nodup : (openList.map Prod.snd).Nodup
  keys_cover : ∀ n, (cameFrom.lookup n).isSome →
    n ∈ visited ∨ n ∈ openList.map Prod.snd
  key_valid : ∀ n, (cameFrom.lookup n).isSome → ValidCell grid rows cols n

theorem GInv.initial {grid : Cells} {rows cols : Nat} {start goal : Coord}
    {h : Coord → Coord → Nat} (hstart : ValidCell grid rows cols start) :
    GInv grid rows cols start goal h [(h start goal, start)]
      [(start, none)] [] := by
  refine ⟨lookup_cons_self, ?_, ?_, ?_, ?_, ?_, ?_, ?_, ?_, ?_, ?_⟩
  · intro n hn
    by_cases heq : n = start
    · exact heq
    · rw [lookup_cons_ne heq] at hn
      simp [List.lookup] at hn
  · intro n p hn
    by_cases heq : n = start
    · subst heq
      rw [lookup_cons_self] at hn
      simp at hn
    · rw [lookup_cons_ne heq] at hn
      simp [List.lookup] at hn
  · intro n p _ hmem
    simp at hmem
  · intro n hmem
    simp at hmem
  · exact List.nodup_nil
  · intro e he
    simp only [List.mem_singleton] at he
    subst he
    exact ⟨by simp [lookup_cons_self], rfl⟩
  · intro e he
    simp
  · simp
  · intro n hn
    by_cases heq : n = start
    · subst heq
      simp
    · rw [lookup_cons_ne heq] at hn
      simp [List.lookup] at hn
  · intro n hn
    by_cases heq : n = start
    · subst heq
      exact hstart
    · rw [lookup_cons_ne heq] at hn
      simp [List.lookup] at hn

theorem GInv.after_pop {grid : Cells} {rows cols : Nat} {start goal : Coord}
    {h : Coord → Coord → Nat} {openList : List GEntry} {cameFrom : CameFrom}
    {visited : List Coord}
    (hinv : GInv grid rows cols start goal h openList cameFrom visited)
    {pri : Nat} {current : Coord} {rest : List GEntry}
    (hpop : popMin gentryLe openList = some ((pri, current), rest)) :
    current ∉ visited ∧ (cameFrom.lookup current).isSome ∧
      GInv grid rows cols start goal h rest cameFrom (visited ++ [current]) := by
  have hperm := popMin_perm gentryLe hpop
  have hmem : (pri, current) ∈ openList :=
    hperm.mem_iff.mpr (List.mem_cons_self _ _)
  have hmapperm : (openList.map Prod.snd).Perm (current :: rest.map Prod.snd) := by
    simpa using hperm.map Prod.snd
  have hrestnodup : (rest.map Prod.snd).Nodup ∧ current ∉ rest.map Prod.snd := by
    have := hmapperm.nodup_iff.mp hinv.open_nodes_nodup
    rw [List.nodup_cons] at this
    exact ⟨this.2, this.1⟩
  have hnotvis : current ∉ visited := hinv.open_not_visited _ hmem
  have hkey : (cameFrom.lookup current).isSome := (hinv.open_keys _ hmem).1
  have hrest_sub : ∀ e ∈ rest, e ∈ openList := fun e he =>
    hperm.mem_iff.mpr (List.mem_cons_of_mem _ he)
  refine ⟨hnotvis, hkey, ?_⟩
  refine ⟨hinv.start_bind, hinv.none_only_start, ?_, ?_, ?_, ?_, ?_, ?_, ?_,
    ?_, hinv.key_valid⟩
  · intro n p hl
    obtain ⟨he, hp, hk⟩ := hinv.parent_edge n p hl
    exact ⟨he, List.mem_append_left _ hp, hk⟩
  · intro n p hl hmemn
    have hp : p ∈ visited := (hinv.parent_edge n p hl).2.1
    rcases List.mem_append.mp hmemn with hn | hn
    · rw [idxIn_append_left _ hp, idxIn_append_left _ hn]
      exact hinv.parent_before n p hl hn
    · simp only [List.mem_singleton] at hn
      subst hn
      rw [idxIn_append_left _ hp, idxIn_append_self hnotvis]
      exact idxIn_lt_length hp
  · intro n hn
    rcases List.mem_append.mp hn with hn' | hn'
    · exact hinv.visited_keys n hn'
    · simp only [List.mem_singleton] at hn'
      subst hn'
      exact hkey
  · rw [List.nodup_append]
    exact ⟨hinv.visited_nodup, by simp, by simpa using hnotvis⟩
  · exact fun e he => hinv.open_keys e (hrest_sub e he)
  · intro e he
    rw [List.mem_append]
    rintro (hv | hv)
    · exact hinv.open_not_visited e (hrest_sub e he) hv
    · simp only [List.mem_singleton] at hv
      exact hrestnodup.2 (hv ▸ List.mem_map_of_mem Prod.snd he)
  · exact hrestnodup.1
  · intro n hn
    rcases hinv.keys_cover n hn with hv | hv
    · exact Or.inl (List.mem_append_left _ hv)
    · rcases List.mem_cons.mp (hmapperm.mem_iff.mp hv) with heq | hv'
      · subst heq
        exact Or.inl (List.mem_append_right _ (by simp))
      · exact Or.inr hv'

theorem GInv.push {grid : Cells} {rows cols : Nat} {start goal : Coord}
    {h : Coord → Coord → Nat} {openL : List GEntry} {cf : CameFrom}
    {visited' : List Coord}
    (hinv : GInv grid rows cols start goal h openL cf visited')
    {current : Coord} (hcur : current ∈ visited') {nb : Coord}
    (hedge : EdgeStep grid rows cols current nb)
    (hnew : ¬ (cf.lookup nb).isSome) :
    GInv grid rows cols start goal h ((h nb goal, nb) :: openL)
      ((nb, some current) :: cf) visited' := by
  have hnb_start : nb ≠ start := by
    intro heq
    rw [heq, hinv.start_bind] at hnew
    simp at hnew
  have hnb_vis : nb ∉ visited' := fun hv => hnew (hinv.visited_keys nb hv)
  have hnb_open : ∀ e ∈ openL, e.2 ≠ nb := fun e he heq =>
    hnew (heq ▸ (hinv.open_keys e he).1)
  have hold_key_ne : ∀ m : Coord, (cf.lookup m).isSome → m ≠ nb :=
    fun m hm heq => hnew (heq ▸ hm)
  have hcur_ne : current ≠ nb := Ne.symm hedge.ne
  refine ⟨?_, ?_, ?_, ?_, ?_, hinv.visited_nodup, ?_, ?_, ?_, ?_, ?_⟩
  · rw [lookup_cons_ne hnb_start.symm]
    exact hinv.start_bind
  · intro n hn
    by_cases heq : n = nb
    · subst heq
      rw [lookup_cons_self] at hn
      simp at hn
    · rw [lookup_cons_ne heq] at hn
      exact hinv.none_only_start n hn
  · intro n p hl
    by_cases heq : n = nb
    · subst heq
      rw [lookup_cons_self] at hl
      simp only [Option.some.injEq] at hl
      obtain rfl := hl
      refine ⟨hedge, hcur, ?_⟩
      rw [lookup_cons_ne hcur_ne]
      exact hinv.visited_keys _ hcur
    · rw [lookup_cons_ne heq] at hl
      obtain ⟨he, hp, hk⟩ := hinv.parent_edge n p hl
      refine ⟨he, hp, ?_⟩
      rw [lookup_cons_ne (hold_key_ne p hk)]
      exact hk
  · intro n p hl hmemn
    by_cases heq : n = nb
    · subst heq
      exact absurd hmemn hnb_vis
    · rw [lookup_cons_ne heq] at hl
      exact hinv.parent_before n p hl hmemn
  · intro n hn
    have hne : n ≠ nb := fun heq => hnb_vis (heq ▸ hn)
    rw [lookup_cons_ne hne]
    exact hinv.visited_keys n hn
  · intro e he
    rcases List.mem_cons.mp he with heq | he'
    · subst heq
      exact ⟨by rw [lookup_cons_self]; rfl, rfl⟩
    · obtain ⟨hk, hpri⟩ := hinv.open_keys e he'
      refine ⟨?_, hpri⟩
      rw [lookup_cons_ne (hold_key_ne e.2 hk)]
      exact hk
  · intro e he
    rcases List.mem_cons.mp he with heq | he'
    · subst heq
      exact hnb_vis
    · exact hinv.open_not_visited e he'
  · rw [List.map_cons, List.nodup_cons]
    refine ⟨?_, hinv.open_nodes_nodup⟩
    intro hmem
    obtain ⟨e, he, heq⟩ := List.mem_map.mp hmem
    exact hnb_open e he heq
  · intro n hn
    by_cases heq : n = nb
    · subst heq
      exact Or.inr (by simp)
    · rw [lookup_cons_ne heq] at hn
      rcases hinv.keys_cover n hn with hv | hv
      · exact Or.inl hv
      · exact Or.inr (by
          rw [List.map_cons]
          exact List.mem_cons_of_mem _ hv)
  · intro n hn
    by_cases heq : n = nb
    · subst heq
      exact hedge.valid
    · rw [lookup_cons_ne heq] at hn
      exact hinv.key_valid n hn

theorem greedy_fold_inv {grid : Cells} {rows cols : Nat} {start goal : Coord}
    {h : Coord → Coord → Nat} {visited' : List Coord} {current : Coord}
    (hcur : current ∈ visited') :
    ∀ (nbs : List Coord) (openL : List GEntry) (cf : CameFrom),
      (∀ nb ∈ nbs, EdgeStep grid rows cols current nb) →
      GInv grid rows cols start goal h openL cf visited' →
      GInv grid rows cols start goal h
        (nbs.foldl (greedyExpand goal h current) (openL, cf)).1
        (nbs.foldl (greedyExpand goal h current) (openL, cf)).2 visited'
  | [], openL, cf, _, hinv => hinv
  | nb :: nbs, openL, cf, hedges, hinv => by
    rw [List.foldl_cons]
    have hedge := hedges nb (List.mem_cons_self _ _)
    have hrest := fun x hx => hedges x (List.mem_cons_of_mem _ hx)
    by_cases hk : ((cf.lookup nb).isSome : Prop)
    · have hstep : greedyExpand goal h current (openL, cf) nb = (openL, cf) := by
        rw [greedyExpand, if_pos hk]
      rw [hstep]
      exact greedy_fold_inv hcur nbs openL cf hrest hinv
    · have hstep : greedyExpand goal h current (openL, cf) nb =
          ((h nb goal, nb) :: openL, (nb, some current) :: cf) := by
        rw [greedyExpand, if_neg hk]
      rw [hstep]
      exact greedy_fold_inv hcur nbs _ _ hrest (hinv.push hcur hedge hk)

/-- Soundness of the `greedy_bfs` main loop: visited nodes stay
pairwise distinct, there is one frontier snapshot per expansion except
for the final goal pop, and a returned path is a duplicate-free valid
4-connected path from `start` to `goal`. -/
theorem greedyLoop_spec {grid : Cells} {rows cols : Nat} {start goal : Coord}
    {h : Coord → Coord → Nat} :
    ∀ (fuel : Nat) (openList : List GEntry) (cameFrom : CameFrom)
      (visited : List Coord) (snaps : List (Finset Coord)),
      GInv grid rows cols start goal h openList cameFrom visited →
      visited.length = snaps.length →
      ∀ res, greedyLoop grid rows cols goal h fuel openList cameFrom
          visited snaps = some res →
        res.2.1.Nodup ∧
        (res.1 = none → res.2.1.length = res.2.2.length) ∧
        (∀ p, res.1 = some p → res.2.1.length = res.2.2.length + 1 ∧
          p.head? = some start ∧ p.getLast? = some goal ∧ p.Nodup ∧
          List.Chain' (EdgeStep grid rows cols) p ∧
          ∀ x ∈ p, ValidCell grid rows cols x)
  | 0, _, _, _, _, _, _, res, hres => by simp [greedyLoop] at hres
  | fuel + 1, openList, cameFrom, visited, snaps, hinv, hcount, res, hres => by
    rw [greedyLoop] at hres
    cases hpop : popMin gentryLe openList with
    | none =>
      rw [hpop] at hres
      simp only [Option.some.injEq] at hres
      subst hres
      refine ⟨hinv.visited_nodup, fun _ => hcount, fun p hp => ?_⟩
      simp at hp
    | some pc =>
      obtain ⟨⟨pri, current⟩, rest⟩ := pc
      rw [hpop] at hres
      obtain ⟨hnotvis, hkey, hmid⟩ := hinv.after_pop hpop
      dsimp only at hres
      by_cases hgoal : current = goal
      · rw [if_pos hgoal] at hres
        subst hgoal
        have hrank : ∀ n p : Coord,
            cameFrom.lookup n = some (some p) →
            (cameFrom.lookup p).isSome ∧
              idxIn (visited ++ [current]) p < idxIn (visited ++ [current]) n := by
          intro n p hl
          obtain ⟨-, hp, hk⟩ := hmid.parent_edge n p hl
          refine ⟨hk, ?_⟩
          by_cases hn : n ∈ visited ++ [current]
          · exact hmid.parent_before n p hl hn
          · rw [idxIn_eq_length hn]
            exact idxIn_lt_length hp
        obtain ⟨l, hrec, hchain, hnodup⟩ :=
          reconstruct_path_ok cameFrom start (idxIn (visited ++ [current]))
            hmid.start_bind hmid.none_only_start hrank current hkey
        rw [hrec] at hres
        simp only [Option.some.injEq] at hres
        subst hres
        refine ⟨hmid.visited_nodup, by simp, fun p hp => ?_⟩
        simp only [Option.some.injEq] at hp
        subst hp
        refine ⟨by simp [hcount], hchain.head?_eq, hchain.getLast?_eq, hnodup,
          hchain.chain' (fun a b hl => (hmid.parent_edge b a hl).1), ?_⟩
        intro x hx
        exact hmid.key_valid x (hchain.mem_keys x hx)
      · rw [if_neg hgoal] at hres
        have hcur_mem : current ∈ visited ++ [current] :=
          List.mem_append_right _ (by simp)
        have hfold := greedy_fold_inv hcur_mem
          (get_neighbors grid current.1 current.2 rows cols) rest cameFrom
          (fun nb hnb => hnb) hmid
        exact greedyLoop_spec fuel _ _ _ _ hfold
          (by simp [hcount]) res hres

-- ──────────────────────────────────────────────────────────
-- A*: consistency, loop invariant, optimality
-- ──────────────────────────────────────────────────────────

/-- Edge-consistency of a heuristic on the grid: along every valid
neighbour step the estimate drops by at most the unit step cost.
(Bounded quantifiers keep the property decidable on concrete grids.) -/
def ConsistentOn (grid : Cells) (rows cols : Nat) (goal : Coord)
    (h : Coord → Coord → Nat) : Prop :=
  ∀ r < rows, ∀ c < cols,
    ∀ nb ∈ get_neighbors grid (r : Int) (c : Int) rows cols,
      h ((r : Int), (c : Int)) goal ≤ h nb goal + 1

theorem consistentOn_edge {grid : Cells} {rows cols : Nat} {goal : Coord}
    {h : Coord → Coord → Nat} (hcons : ConsistentOn grid rows cols goal h)
    {a b : Coord} (ha : ValidCell grid rows cols a)
    (hedge : EdgeStep grid rows cols a b) : h a goal ≤ h b goal + 1 := by
  obtain ⟨h1, h2, h3, h4, h5⟩ := ha
  have e1 : a.1 = ((a.1.toNat : Nat) : Int) := by omega
  have e2 : a.2 = ((a.2.toNat : Nat) : Int) := by omega
  have hmem : b ∈ get_neighbors grid ((a.1.toNat : Nat) : Int)
      ((a.2.toNat : Nat) : Int) rows cols := by
    rw [← e1, ← e2]
    exact hedge
  have := hcons a.1.toNat (by omega) a.2.toNat (by omega) b hmem
  calc h a goal = h ((a.1.toNat : Nat), (a.2.toNat : Nat)) goal := by
        rw [show (((a.1.toNat : Nat) : Int), ((a.2.toNat : Nat) : Int)) = a from by
          rw [Prod.ext_iff]; exact ⟨e1.symm, e2.symm⟩]
    _ ≤ h b goal + 1 := this

/-- The Manhattan heuristic is edge-consistent on every grid. -/
theorem manhattan_consistent (grid : Cells) (rows cols : Nat) (goal : Coord) :
    ConsistentOn grid rows cols goal manhattan_distance := by
  intro r hr c hc nb hnb
  have hnb' : nb ∈ get_neighbors grid (((r : Int), (c : Int)) : Coord).1
      (((r : Int), (c : Int)) : Coord).2 rows cols := hnb
  rcases (mem_get_neighbors.mp hnb').1 with rfl | rfl | rfl | rfl <;>
    simp only [manhattan_distance] <;> omega

/-- Loop invariant of `astar`. -/
structure AInv (grid : Cells) (rows cols : Nat) (start goal : Coord)
    (h : Coord → Coord → Nat) (openList : List AEntry) (cameFrom : CameFrom)
    (gScore : GScore) (closed : List Coord) (visited : List Coord) : Prop where
  start_bind : cameFrom.lookup start = some none
  start_g : gScore.lookup start = some 0
  none_only_start : ∀ n, cameFrom.lookup n = some none → n = start
  keys_eq : ∀ n : Coord, (cameFrom.lookup n).isSome ↔ (gScore.lookup n).isSome
  g_path : ∀ n g, gScore.lookup n = some g → PathTo grid rows cols start n g
  cf_g : ∀ n p, cameFrom.lookup n = some (some p) →
    ∃ gp gn, gScore.lookup p = some gp ∧ gScore.lookup n = some gn ∧
      gn = gp + 1 ∧ EdgeStep grid rows cols p n ∧ p ∈ closed
  closed_keys : ∀ n ∈ closed, (gScore.lookup n).isSome
  closed_opt : ConsistentOn grid rows cols goal h →
    ∀ n ∈ closed, ∃ g, gScore.lookup n = some g ∧
      ∀ k, PathTo grid rows cols start n k → g ≤ k
  relaxed : ∀ m ∈ closed, ∀ nb ∈ get_neighbors grid m.1 m.2 rows cols,
    nb ∈ closed ∨ ∃ gn gm, gScore.lookup nb = some gn ∧
      gScore.lookup m = some gm ∧ gn ≤ gm + 1
  entry_inv : ∀ e ∈ openList, e.1 = e.2.1 + h e.2.2 goal ∧
    PathTo grid rows cols start e.2.2 e.2.1 ∧
    ∃ gn, gScore.lookup e.2.2 = some gn ∧ gn ≤ e.2.1
  open_cover : ∀ n gn, gScore.lookup n = some gn → n ∉ closed →
    (gn + h n goal, gn, n) ∈ openList
  closed_nodup : closed.Nodup
  goal_not_closed : goal ∉ closed
  visited_eq : ∀ x, x ∈ visited ↔ x ∈ closed
  visited_nodup : visited.Nodup

theorem AInv.initial_astar {grid : Cells} {rows cols : Nat} {start goal : Coord}
    {h : Coord → Coord → Nat} (hstart : ValidCell grid rows cols start) :
    AInv grid rows cols start goal h [(h start goal, 0, start)]
      [(start, none)] [(start, 0)] [] [] := by
  have hg : ∀ n g, List.lookup n [(start, (0 : Nat))] = some g →
      n = start ∧ g = 0 := by
    intro n g hl
    by_cases heq : n = start
    · subst heq
      rw [lookup_cons_self] at hl
      simp only [Option.some.injEq] at hl
      exact ⟨rfl, hl.symm⟩
    · rw [lookup_cons_ne heq] at hl
      simp [List.lookup] at hl
  have hc : ∀ (n : Coord) (v : Option Coord),
      List.lookup n [(start, (none : Option Coord))] = some v →
      n = start ∧ v = none := by
    intro n v hl
    by_cases heq : n = start
    · subst heq
      rw [lookup_cons_self] at hl
      simp only [Option.some.injEq] at hl
      exact ⟨rfl, hl.symm⟩
    · rw [lookup_cons_ne heq] at hl
      simp [List.lookup] at hl
  refine ⟨lookup_cons_self, lookup_cons_self, ?_, ?_, ?_, ?_,
    by intro n hn; simp at hn, ?_, ?_, ?_, ?_,
    List.nodup_nil, by simp, by simp, List.nodup_nil⟩
  · intro n hn
    exact (hc n none hn).1
  · intro n
    constructor
    · intro hn
      obtain ⟨v, hv⟩ := Option.isSome_iff_exists.mp hn
      obtain ⟨rfl, -⟩ := hc n v hv
      simp [lookup_cons_self]
    · intro hn
      obtain ⟨v, hv⟩ := Option.isSome_iff_exists.mp hn
      obtain ⟨rfl, -⟩ := hg n v hv
      simp [lookup_cons_self]
  · intro n g hl
    obtain ⟨rfl, rfl⟩ := hg n g hl
    exact PathTo.nil hstart
  · intro n p hl
    by_cases heq : n = start
    · subst heq
      rw [lookup_cons_self] at hl
      simp at hl
    · rw [lookup_cons_ne heq] at hl
      simp [List.lookup] at hl
  · intro _ n hn
    simp at hn
  · intro m hm
    simp at hm
  · intro e he
    simp only [List.mem_singleton] at he
    subst he
    exact ⟨by simp, PathTo.nil hstart, 0, lookup_cons_self, le_refl 0⟩
  · intro n gn hl hncl
    obtain ⟨rfl, rfl⟩ := hg n gn hl
    simp

/-- The relay lemma: as long as a node reachable by a `k`-step path is
not closed, the open list holds an entry whose `f`-score is at most
`k` plus that node's heuristic value. -/
theorem AInv.relay {grid : Cells} {rows cols : Nat} {start goal : Coord}
    {h : Coord → Coord → Nat} {openList : List AEntry} {cameFrom : CameFrom}
    {gScore : GScore} {closed visited : List Coord}
    (hinv : AInv grid rows cols start goal h openList cameFrom gScore
      closed visited)
    (hcons : ConsistentOn grid rows cols goal h) :
    ∀ {k : Nat} {m : Coord}, PathTo grid rows cols start m k → m ∉ closed →
      ∃ e ∈ openList, e.1 ≤ k + h m goal := by
  intro k m hpath
  induction hpath with
  | nil hv =>
    intro hncl
    exact ⟨(0 + h start goal, 0, start),
      hinv.open_cover start 0 hinv.start_g hncl, le_refl _⟩
  | @cons m m' k hp he ih =>
    intro hncl
    by_cases hmcl : m ∈ closed
    · obtain ⟨gm, hgm, hmin⟩ := hinv.closed_opt hcons m hmcl
      have hgmk : gm ≤ k := hmin k hp
      rcases hinv.relaxed m hmcl m' he with hcl | ⟨gn, gm', hgn, hgm', hle⟩
      · exact absurd hcl hncl
      · rw [hgm] at hgm'
        simp only [Option.some.injEq] at hgm'
        subst hgm'
        refine ⟨(gn + h m' goal, gn, m'), hinv.open_cover m' gn hgn hncl, ?_⟩
        simp only
        omega
    · obtain ⟨e, hemem, hef⟩ := ih hmcl
      refine ⟨e, hemem, ?_⟩
      have hcons' := consistentOn_edge hcons hp.valid_end he
      omega

/-- A popped unclosed node carries its current g-score, which is
optimal among all valid paths from `start` to it. -/
theorem AInv.step_optimal {grid : Cells} {rows cols : Nat}
    {start goal : Coord} {h : Coord → Coord → Nat} {openList : List AEntry}
    {cameFrom : CameFrom} {gScore : GScore} {closed visited : List Coord}
    (hinv : AInv grid rows cols start goal h openList cameFrom gScore
      closed visited)
    (hcons : ConsistentOn grid rows cols goal h) {f g : Nat} {current : Coord}
    {rest : List AEntry}
    (hpop : popMin aentryLe openList = some ((f, g, current), rest))
    (hcur : current ∉ closed) :
    gScore.lookup current = some g ∧
      (∀ k, PathTo grid rows cols start current k → g ≤ k) ∧
      PathTo grid rows cols start current g := by
  have hperm := popMin_perm aentryLe hpop
  have hmem : (f, g, current) ∈ openList :=
    hperm.mem_iff.mpr (List.mem_cons_self _ _)
  have hmin := popMin_min aentryLe aentryLe_trans aentryLe_total hpop
  obtain ⟨hf, hpath, gc, hgc, hgcle⟩ := hinv.entry_inv _ hmem
  have hf' : f = g + h current goal := hf
  have hpath' : PathTo grid rows cols start current g := hpath
  have hgcle' : gc ≤ g := hgcle
  have hcover := hinv.open_cover current gc hgc hcur
  have hle := hmin _ hcover
  have hfle : f ≤ gc + h current goal := aentryLe_fst hle
  have hgeq : g = gc := by omega
  subst hgeq
  refine ⟨hgc, ?_, hpath'⟩
  intro k hk
  obtain ⟨e, hemem, hef⟩ := hinv.relay hcons hk hcur
  have := aentryLe_fst (hmin e hemem)
  omega

/-- Popping an already-closed (stale) entry preserves the invariant with
the remaining open list. -/
theorem AInv.after_stale_pop {grid : Cells} {rows cols : Nat}
    {start goal : Coord} {h : Coord → Coord → Nat} {openList : List AEntry}
    {cameFrom : CameFrom} {gScore : GScore} {closed visited : List Coord}
    (hinv : AInv grid rows cols start goal h openList cameFrom gScore
      closed visited)
    {f g : Nat} {current : Coord} {rest : List AEntry}
    (hpop : popMin aentryLe openList = some ((f, g, current), rest))
    (hcur : current ∈ closed) :
    AInv grid rows cols start goal h rest cameFrom gScore closed visited := by
  have hperm := popMin_perm aentryLe hpop
  have hrest_sub : ∀ e ∈ rest, e ∈ openList := fun e he =>
    hperm.mem_iff.mpr (List.mem_cons_of_mem _ he)
  refine ⟨hinv.start_bind, hinv.start_g, hinv.none_only_start, hinv.keys_eq,
    hinv.g_path, hinv.cf_g, hinv.closed_keys, hinv.closed_opt, hinv.relaxed,
    fun e he => hinv.entry_inv e (hrest_sub e he), ?_, hinv.closed_nodup,
    hinv.goal_not_closed, hinv.visited_eq, hinv.visited_nodup⟩
  intro n gn hgn hncl
  have hcov := hinv.open_cover n gn hgn hncl
  rcases List.mem_cons.mp (hperm.mem_iff.mp hcov) with heq | hmem
  · rw [Prod.mk.injEq, Prod.mk.injEq] at heq
    exact absurd (by rw [heq.2.2]; exact hcur) hncl
  · exact hmem

/-- The invariant holding midway through the neighbour-expansion fold
of `astar`, after `current` has just been added to the closed set: the
fields of `AInv` minus the relaxation guarantee at `current` itself,
which the fold is in the course of establishing. -/
structure AMid (grid : Cells) (rows cols : Nat) (start goal : Coord)
    (h : Coord → Coord → Nat) (current : Coord) (openList : List AEntry)
    (cameFrom : CameFrom) (gScore : GScore) (closed : List Coord) : Prop where
  start_bind : cameFrom.lookup start = some none
  start_g : gScore.lookup start = some 0
  none_only_start : ∀ n, cameFrom.lookup n = some none → n = start
  keys_eq : ∀ n : Coord, (cameFrom.lookup n).isSome ↔ (gScore.lookup n).isSome
  g_path : ∀ n g, gScore.lookup n = some g → PathTo grid rows cols start n g
  cf_g : ∀ n p, cameFrom.lookup n = some (some p) →
    ∃ gp gn, gScore.lookup p = some gp ∧ gScore.lookup n = some gn ∧
      gn = gp + 1 ∧ EdgeStep grid rows cols p n ∧ p ∈ closed
  closed_keys : ∀ n ∈ closed, (gScore.lookup n).isSome
  closed_opt : ConsistentOn grid rows cols goal h →
    ∀ n ∈ closed, ∃ g, gScore.lookup n = some g ∧
      ∀ k, PathTo grid rows cols start n k → g ≤ k
  relaxed_except : ∀ m ∈ closed, m ≠ current →
    ∀ nb ∈ get_neighbors grid m.1 m.2 rows cols,
      nb ∈ closed ∨ ∃ gn gm, gScore.lookup nb = some gn ∧
        gScore.lookup m = some gm ∧ gn ≤ gm + 1
  entry_inv : ∀ e ∈ openList, e.1 = e.2.1 + h e.2.2 goal ∧
    PathTo grid rows cols start e.2.2 e.2.1 ∧
    ∃ gn, gScore.lookup e.2.2 = some gn ∧ gn ≤ e.2.1
  open_cover : ∀ n gn, gScore.lookup n = some gn → n ∉ closed →
    (gn + h n goal, gn, n) ∈ openList
  closed_nodup : closed.Nodup
  goal_not_closed : goal ∉ closed
  cur_closed : current ∈ closed

/-- Popping a new (unclosed, non-goal) node and adding it to the closed
set yields the mid-fold invariant, with the popped node's g-score bound
in the score map. -/
theorem AInv.after_new_pop {grid : Cells} {rows cols : Nat}
    {start goal : Coord} {h : Coord → Coord → Nat} {openList : List AEntry}
    {cameFrom : CameFrom} {gScore : GScore} {closed visited : List Coord}
    (hinv : AInv grid rows cols start goal h openList cameFrom gScore
      closed visited)
    {f g : Nat} {current : Coord} {rest : List AEntry}
    (hpop : popMin aentryLe openList = some ((f, g, current), rest))
    (hncl : current ∉ closed) (hgoal : current ≠ goal) :
    (gScore.lookup current).isSome ∧
      AMid grid rows cols start goal h current rest cameFrom gScore
        (current :: closed) := by
  have hperm := popMin_perm aentryLe hpop
  have hmem : (f, g, current) ∈ openList :=
    hperm.mem_iff.mpr (List.mem_cons_self _ _)
  have hrest_sub : ∀ e ∈ rest, e ∈ openList := fun e he =>
    hperm.mem_iff.mpr (List.mem_cons_of_mem _ he)
  obtain ⟨-, -, gc, hgc, -⟩ := hinv.entry_inv _ hmem
  refine ⟨by simp [hgc], ?_⟩
  refine ⟨hinv.start_bind, hinv.start_g, hinv.none_only_start, hinv.keys_eq,
    hinv.g_path, ?_, ?_, ?_, ?_,
    fun e he => hinv.entry_inv e (hrest_sub e he), ?_,
    List.nodup_cons.mpr ⟨hncl, hinv.closed_nodup⟩, ?_,
    List.mem_cons_self _ _⟩
  · intro n p hl
    obtain ⟨gp, gn, h1, h2, h3, h4, h5⟩ := hinv.cf_g n p hl
    exact ⟨gp, gn, h1, h2, h3, h4, List.mem_cons_of_mem _ h5⟩
  · intro n hn
    rcases List.mem_cons.mp hn with rfl | hn'
    · simp [hgc]
    · exact hinv.closed_keys n hn'
  · intro hcons n hn
    rcases List.mem_cons.mp hn with rfl | hn'
    · obtain ⟨hg, hopt, -⟩ := hinv.step_optimal hcons hpop hncl
      exact ⟨g, hg, hopt⟩
    · exact hinv.closed_opt hcons n hn'
  · intro m hm hmne nb hnb
    have hm' : m ∈ closed := by
      rcases List.mem_cons.mp hm with rfl | hm'
      · exact absurd rfl hmne
      · exact hm'
    rcases hinv.relaxed m hm' nb hnb with hcl | hrel
    · exact Or.inl (List.mem_cons_of_mem _ hcl)
    · exact Or.inr hrel
  · intro n gn hgn hncl'
    have hnc : n ≠ current := fun heq => hncl' (heq ▸ List.mem_cons_self _ _)
    have hncl'' : n ∉ closed := fun hn => hncl' (List.mem_cons_of_mem _ hn)
    have hcov := hinv.open_cover n gn hgn hncl''
    rcases List.mem_cons.mp (hperm.mem_iff.mp hcov) with heq | hmem'
    · rw [Prod.mk.injEq, Prod.mk.injEq] at heq
      exact absurd heq.2.2 hnc
    · exact hmem'
  · intro hg
    rcases List.mem_cons.mp hg with heq | hg'
    · exact hgoal heq.symm
    · exact hinv.goal_not_closed hg'

/-- Pushing a relaxed neighbour entry preserves the mid-fold invariant,
provided the neighbour's previous score (if any) was no better than the
tentative one. -/
theorem AMid.push_entry {grid : Cells} {rows cols : Nat} {start goal : Coord}
    {h : Coord → Coord → Nat} {current : Coord} {gcur : Nat}
    {closed : List Coord} {openL : List AEntry} {cf : CameFrom} {gs : GScore}
    (hmid : AMid grid rows cols start goal h current openL cf gs closed)
    (hcurg : gs.lookup current = some gcur)
    {nb : Coord} (hedge : EdgeStep grid rows cols current nb)
    (hclnb : nb ∉ closed)
    (hfact : ∀ v, gs.lookup nb = some v → gcur + 1 ≤ v) :
    AMid grid rows cols start goal h current
      ((gcur + 1 + h nb goal, gcur + 1, nb) :: openL)
      ((nb, some current) :: cf) ((nb, gcur + 1) :: gs) closed := by
  have hnbc : nb ≠ current := fun heq => hclnb (heq ▸ hmid.cur_closed)
  have hnbs : nb ≠ start := by
    intro heq
    have := hfact 0 (heq ▸ hmid.start_g)
    omega
  have hpnb : PathTo grid rows cols start nb (gcur + 1) :=
    PathTo.cons (hmid.g_path current gcur hcurg) hedge
  refine ⟨?_, ?_, ?_, ?_, ?_, ?_, ?_, ?_, ?_, ?_, ?_,
    hmid.closed_nodup, hmid.goal_not_closed, hmid.cur_closed⟩
  · rw [lookup_cons_ne hnbs.symm]
    exact hmid.start_bind
  · rw [lookup_cons_ne hnbs.symm]
    exact hmid.start_g
  · intro n hn
    by_cases heq : n = nb
    · subst heq
      rw [lookup_cons_self] at hn
      simp at hn
    · rw [lookup_cons_ne heq] at hn
      exact hmid.none_only_start n hn
  · intro n
    by_cases heq : n = nb
    · subst heq
      simp [lookup_cons_self]
    · rw [lookup_cons_ne heq, lookup_cons_ne heq]
      exact hmid.keys_eq n
  · intro n g hg
    by_cases heq : n = nb
    · subst heq
      rw [lookup_cons_self] at hg
      simp only [Option.some.injEq] at hg
      subst hg
      exact hpnb
    · rw [lookup_cons_ne heq] at hg
      exact hmid.g_path n g hg
  · intro n p hl
    by_cases heq : n = nb
    · subst heq
      rw [lookup_cons_self] at hl
      simp only [Option.some.injEq] at hl
      subst hl
      exact ⟨gcur, gcur + 1, by rw [lookup_cons_ne hnbc.symm]; exact hcurg,
        lookup_cons_self, rfl, hedge, hmid.cur_closed⟩
    · rw [lookup_cons_ne heq] at hl
      obtain ⟨gp, gn, h1, h2, h3, h4, h5⟩ := hmid.cf_g n p hl
      have hpne : p ≠ nb := fun hp => hclnb (hp ▸ h5)
      exact ⟨gp, gn, by rw [lookup_cons_ne hpne]; exact h1,
        by rw [lookup_cons_ne heq]; exact h2, h3, h4,
        h5⟩
  · intro n hn
    have hne : n ≠ nb := fun heq => hclnb (heq ▸ hn)
    rw [lookup_cons_ne hne]
    exact hmid.closed_keys n hn
  · intro hcons n hn
    have hne : n ≠ nb := fun heq => hclnb (heq ▸ hn)
    obtain ⟨g, hg, hopt⟩ := hmid.closed_opt hcons n hn
    exact ⟨g, by rw [lookup_cons_ne hne]; exact hg, hopt⟩
  · intro m hm hmne nb' hnb'
    have hmnb : m ≠ nb := fun heq => hclnb (heq ▸ hm)
    rcases hmid.relaxed_except m hm hmne nb' hnb' with hcl | ⟨gn', gm, hgn', hgm, hle⟩
    · exact Or.inl hcl
    · by_cases heq : nb' = nb
      · subst heq
        have := hfact gn' hgn'
        exact Or.inr ⟨gcur + 1, gm, lookup_cons_self,
          by rw [lookup_cons_ne hmnb]; exact hgm, by omega⟩
      · exact Or.inr ⟨gn', gm, by rw [lookup_cons_ne heq]; exact hgn',
          by rw [lookup_cons_ne hmnb]; exact hgm, hle⟩
  · intro e he
    rcases List.mem_cons.mp he with rfl | he'
    · exact ⟨rfl, hpnb, gcur + 1, lookup_cons_self, le_refl _⟩
    · obtain ⟨h1, h2, gn', hgn', hle⟩ := hmid.entry_inv e he'
      refine ⟨h1, h2, ?_⟩
      by_cases heq : e.2.2 = nb
      · have := hfact gn' (heq ▸ hgn')
        exact ⟨gcur + 1, by rw [heq]; exact lookup_cons_self, by omega⟩
      · exact ⟨gn', by rw [lookup_cons_ne heq]; exact hgn', hle⟩
  · intro n gn hgn hncl
    by_cases heq : n = nb
    · subst heq
      rw [lookup_cons_self] at hgn
      simp only [Option.some.injEq] at hgn
      subst hgn
      exact List.mem_cons_self _ _
    · rw [lookup_cons_ne heq] at hgn
      exact List.mem_cons_of_mem _ (hmid.open_cover n gn hgn hncl)

/-- One iteration of the neighbour fold of `astar` preserves the
mid-fold invariant, keeps the expanded node's score, changes scores
only to the tentative value, and relaxes the processed neighbour. -/
theorem astarExpand_mid {grid : Cells} {rows cols : Nat} {start goal : Coord}
    {h : Coord → Coord → Nat} {current : Coord} {gcur : Nat}
    {closed : List Coord} {openL : List AEntry} {cf : CameFrom} {gs : GScore}
    (hmid : AMid grid rows cols start goal h current openL cf gs closed)
    (hcurg : gs.lookup current = some gcur)
    {nb : Coord} (hedge : EdgeStep grid rows cols current nb)
    {st : List AEntry × CameFrom × GScore}
    (hst : astarExpand goal h current gcur closed (openL, cf, gs) nb = st) :
    AMid grid rows cols start goal h current st.1 st.2.1 st.2.2 closed ∧
      st.2.2.lookup current = some gcur ∧
      (∀ n v, st.2.2.lookup n = some v → gs.lookup n = some v ∨ v = gcur + 1) ∧
      (∀ n, (gs.lookup n).isSome → (st.2.2.lookup n).isSome) ∧
      (nb ∈ closed ∨ ∃ gn, st.2.2.lookup nb = some gn ∧ gn ≤ gcur + 1) := by
  have hnbc : nb ∉ closed → nb ≠ current :=
    fun hcl heq => hcl (heq ▸ hmid.cur_closed)
  by_cases hclnb : nb ∈ closed
  · rw [astarExpand, if_pos hclnb] at hst
    subst hst
    exact ⟨hmid, hcurg, fun n v hv => Or.inl hv, fun n hn => hn, Or.inl hclnb⟩
  · have hpush : ∀ (hfact : ∀ v, gs.lookup nb = some v → gcur + 1 ≤ v),
        st = ((gcur + 1 + h nb goal, gcur + 1, nb) :: openL,
          (nb, some current) :: cf, (nb, gcur + 1) :: gs) →
        AMid grid rows cols start goal h current st.1 st.2.1 st.2.2 closed ∧
          st.2.2.lookup current = some gcur ∧
          (∀ n v, st.2.2.lookup n = some v →
            gs.lookup n = some v ∨ v = gcur + 1) ∧
          (∀ n, (gs.lookup n).isSome → (st.2.2.lookup n).isSome) ∧
          (nb ∈ closed ∨ ∃ gn, st.2.2.lookup nb = some gn ∧
            gn ≤ gcur + 1) := by
      intro hfact hst'
      subst hst'
      refine ⟨hmid.push_entry hcurg hedge hclnb hfact, ?_, ?_, ?_, ?_⟩
      · show List.lookup current ((nb, gcur + 1) :: gs) = some gcur
        rw [lookup_cons_ne ((hnbc hclnb).symm)]
        exact hcurg
      · intro n v hv
        by_cases heq : n = nb
        · subst heq
          rw [lookup_cons_self] at hv
          simp only [Option.some.injEq] at hv
          exact Or.inr hv.symm
        · rw [lookup_cons_ne heq] at hv
          exact Or.inl hv
      · intro n hn
        by_cases heq : n = nb
        · subst heq
          simp [lookup_cons_self]
        · rw [lookup_cons_ne heq]
          exact hn
      · exact Or.inr ⟨gcur + 1, lookup_cons_self, le_refl _⟩
    rw [astarExpand, if_neg hclnb] at hst
    dsimp only at hst
    cases hgnb : gs.lookup nb with
    | none =>
      rw [hgnb] at hst
      simp only [if_true] at hst
      exact hpush (fun v hv => by rw [hgnb] at hv; exact absurd hv (by simp))
        hst.symm
    | some gn =>
      rw [hgnb] at hst
      by_cases hbet : gcur + 1 < gn
      · rw [if_pos (by simpa using hbet)] at hst
        exact hpush (fun v hv => by
          rw [hgnb] at hv
          simp only [Option.some.injEq] at hv
          omega) hst.symm
      · rw [if_neg (by simpa using hbet)] at hst
        subst hst
        refine ⟨hmid, hcurg, fun n v hv => Or.inl hv, fun n hn => hn,
          Or.inr ⟨gn, hgnb, by omega⟩⟩

/-- The neighbour-expansion fold of `astar` preserves the mid-fold
invariant and relaxes every processed neighbour. -/
theorem astar_fold_mid {grid : Cells} {rows cols : Nat} {start goal : Coord}
    {h : Coord → Coord → Nat} {current : Coord} {gcur : Nat}
    {closed : List Coord} :
    ∀ (nbs : List Coord) (openL : List AEntry) (cf : CameFrom) (gs : GScore),
      (∀ nb ∈ nbs, EdgeStep grid rows cols current nb) →
      AMid grid rows cols start goal h current openL cf gs closed →
      gs.lookup current = some gcur →
      ∀ (st : List AEntry × CameFrom × GScore),
        nbs.foldl (astarExpand goal h current gcur closed)
          (openL, cf, gs) = st →
        AMid grid rows cols start goal h current st.1 st.2.1 st.2.2 closed ∧
          st.2.2.lookup current = some gcur ∧
          (∀ n, (gs.lookup n).isSome → (st.2.2.lookup n).isSome) ∧
          (∀ n v, st.2.2.lookup n = some v →
            gs.lookup n = some v ∨ v = gcur + 1) ∧
          (∀ nb ∈ nbs, nb ∈ closed ∨
            ∃ gn, st.2.2.lookup nb = some gn ∧ gn ≤ gcur + 1)
  | [], openL, cf, gs, _, hmid, hcurg, st, hst => by
    rw [List.foldl_nil] at hst
    subst hst
    exact ⟨hmid, hcurg, fun n hn => hn, fun n v hv => Or.inl hv,
      fun nb hnb => absurd hnb (List.not_mem_nil _)⟩
  | nb :: nbs, openL, cf, gs, hedges, hmid, hcurg, st, hst => by
    rw [List.foldl_cons] at hst
    have hedge := hedges nb (List.mem_cons_self _ _)
    have hrest := fun x hx => hedges x (List.mem_cons_of_mem _ hx)
    obtain ⟨hmid1, hcurg1, hchg1, hsome1, hrelax1⟩ :=
      astarExpand_mid hmid hcurg hedge
        (rfl (a := astarExpand goal h current gcur closed (openL, cf, gs) nb))
    obtain ⟨hmidf, hcurgf, hsomef, hchgf, hrelaxf⟩ :=
      astar_fold_mid nbs _ _ _ hrest hmid1 hcurg1 st hst
    refine ⟨hmidf, hcurgf, fun n hn => hsomef n (hsome1 n hn), ?_, ?_⟩
    · intro n v hv
      rcases hchgf n v hv with hv1 | hv1
      · exact hchg1 n v hv1
      · exact Or.inr hv1
    · intro nb' hnb'
      rcases List.mem_cons.mp hnb' with rfl | hnb''
      · rcases hrelax1 with hcl | ⟨gn, hgn, hle⟩
        · exact Or.inl hcl
        · have hs : (st.2.2.lookup nb').isSome := hsomef nb' (by simp [hgn])
          obtain ⟨v, hv⟩ := Option.isSome_iff_exists.mp hs
          rcases hchgf nb' v hv with hv1 | hv1
          · rw [hgn] at hv1
            simp only [Option.some.injEq] at hv1
            exact Or.inr ⟨v, hv, by omega⟩
          · exact Or.inr ⟨v, hv, by omega⟩
      · exact hrelaxf nb' hnb''

/-- Once every neighbour of the freshly closed node has been relaxed,
the mid-fold invariant upgrades back to the full loop invariant. -/
theorem AMid.to_inv {grid : Cells} {rows cols : Nat} {start goal : Coord}
    {h : Coord → Coord → Nat} {current : Coord} {gcur : Nat}
    {closed : List Coord} {openL : List AEntry} {cf : CameFrom} {gs : GScore}
    (hmid : AMid grid rows cols start goal h current openL cf gs closed)
    (hcurg : gs.lookup current = some gcur)
    (hrelax : ∀ nb ∈ get_neighbors grid current.1 current.2 rows cols,
      nb ∈ closed ∨ ∃ gn, gs.lookup nb = some gn ∧ gn ≤ gcur + 1)
    {visited : List Coord} (hveq : ∀ x, x ∈ visited ↔ x ∈ closed)
    (hvnodup : visited.Nodup) :
    AInv grid rows cols start goal h openL cf gs closed visited := by
  refine ⟨hmid.start_bind, hmid.start_g, hmid.none_only_start, hmid.keys_eq,
    hmid.g_path, hmid.cf_g, hmid.closed_keys, hmid.closed_opt, ?_,
    hmid.entry_inv, hmid.open_cover, hmid.closed_nodup, hmid.goal_not_closed,
    hveq, hvnodup⟩
  intro m hm nb hnb
  by_cases hmc : m = current
  · subst hmc
    rcases hrelax nb hnb with hcl | ⟨gn, hgn, hle⟩
    · exact Or.inl hcl
    · exact Or.inr ⟨gn, gcur, hgn, hcurg, by omega⟩
  · exact hmid.relaxed_except m hm hmc nb hnb

/-- Soundness of the `astar` main loop: visited nodes stay pairwise
distinct, there is one frontier snapshot per expansion except for the
final goal pop, a returned path is a duplicate-free valid 4-connected
path from `start` to `goal`, and under an edge-consistent heuristic it
is at most as long as any valid path. -/
theorem astarLoop_spec {grid : Cells} {rows cols : Nat} {start goal : Coord}
    {h : Coord → Coord → Nat} :
    ∀ (fuel : Nat) (openList : List AEntry) (cameFrom : CameFrom)
      (gScore : GScore) (closed visited : List Coord)
      (snaps : List (Finset Coord)),
      AInv grid rows cols start goal h openList cameFrom gScore closed
        visited →
      visited.length = snaps.length →
      ∀ res, astarLoop grid rows cols goal h fuel openList cameFrom gScore
          closed visited snaps = some res →
        res.2.1.Nodup ∧
        (res.1 = none → res.2.1.length = res.2.2.length) ∧
        (∀ p, res.1 = some p → res.2.1.length = res.2.2.length + 1 ∧
          p.head? = some start ∧ p.getLast? = some goal ∧ p.Nodup ∧
          List.Chain' (EdgeStep grid rows cols) p ∧
          (∀ x ∈ p, ValidCell grid rows cols x) ∧
          (ConsistentOn grid rows cols goal h →
            ∀ k, PathTo grid rows cols start goal k → p.length ≤ k + 1))
  | 0, _, _, _, _, _, _, _, _, res, hres => by simp [astarLoop] at hres
  | fuel + 1, openList, cameFrom, gScore, closed, visited, snaps, hinv,
      hcount, res, hres => by
    rw [astarLoop] at hres
    cases hpop : popMin aentryLe openList with
    | none =>
      rw [hpop] at hres
      simp only [Option.some.injEq] at hres
      subst hres
      refine ⟨hinv.visited_nodup, fun _ => hcount, fun p hp => ?_⟩
      simp at hp
    | some pc =>
      obtain ⟨⟨f, g, current⟩, rest⟩ := pc
      rw [hpop] at hres
      dsimp only at hres
      by_cases hcl : current ∈ closed
      · rw [if_pos hcl] at hres
        exact astarLoop_spec fuel _ _ _ _ _ _
          (hinv.after_stale_pop hpop hcl) hcount res hres
      · rw [if_neg hcl] at hres
        have hnv : current ∉ visited :=
          fun hv => hcl ((hinv.visited_eq current).mp hv)
        have hvnodup' : (visited ++ [current]).Nodup := by
          rw [List.nodup_append]
          exact ⟨hinv.visited_nodup, by simp, by simpa using hnv⟩
        have hperm := popMin_perm aentryLe hpop
        have hmem : (f, g, current) ∈ openList :=
          hperm.mem_iff.mpr (List.mem_cons_self _ _)
        obtain ⟨-, -, gc0, hgc0, -⟩ := hinv.entry_inv _ hmem
        by_cases hgoal : current = goal
        · rw [if_pos hgoal] at hres
          subst hgoal
          have hkey : (cameFrom.lookup current).isSome :=
            (hinv.keys_eq current).mpr (by simp [hgc0])
          have hrank : ∀ n p : Coord,
              cameFrom.lookup n = some (some p) →
              (cameFrom.lookup p).isSome ∧
                (gScore.lookup p).getD 0 < (gScore.lookup n).getD 0 := by
            intro n p hl
            obtain ⟨gp, gn, h1, h2, h3, -, -⟩ := hinv.cf_g n p hl
            refine ⟨(hinv.keys_eq p).mpr (by simp [h1]), ?_⟩
            rw [h1, h2]
            simp [h3]
          obtain ⟨l, hrec, hchain, hnodup⟩ :=
            reconstruct_path_ok cameFrom start
              (fun n => (gScore.lookup n).getD 0)
              hinv.start_bind hinv.none_only_start hrank current hkey
          rw [hrec] at hres
          simp only [Option.some.injEq] at hres
          subst hres
          refine ⟨hvnodup', by simp, fun p hp => ?_⟩
          simp only [Option.some.injEq] at hp
          subst hp
          refine ⟨by simp [hcount], hchain.head?_eq, hchain.getLast?_eq,
            hnodup,
            hchain.chain' (fun a b hl => by
              obtain ⟨-, -, -, -, -, he, -⟩ := hinv.cf_g b a hl
              exact he), ?_, ?_⟩
          · intro x hx
            have hxk : (cameFrom.lookup x).isSome := hchain.mem_keys x hx
            have hxg : (gScore.lookup x).isSome := (hinv.keys_eq x).mp hxk
            obtain ⟨gx, hgx⟩ := Option.isSome_iff_exists.mp hxg
            exact (hinv.g_path x gx hgx).valid_end
          · intro hcons k hk
            obtain ⟨hgcur, hopt, -⟩ := hinv.step_optimal hcons hpop hcl
            obtain ⟨gl, hgl, hlen⟩ := CFChain.gscore_len gScore hinv.start_g
              (fun n p hl => by
                obtain ⟨gp, gn, h1, h2, h3, -, -⟩ := hinv.cf_g n p hl
                exact ⟨gp, gn, h1, h2, h3⟩) hchain
            rw [hgcur] at hgl
            simp only [Option.some.injEq] at hgl
            subst hgl
            have := hopt k hk
            omega
        · rw [if_neg hgoal] at hres
          obtain ⟨hkeyg, hmid⟩ := hinv.after_new_pop hpop hcl hgoal
          obtain ⟨gcur, hgcur⟩ := Option.isSome_iff_exists.mp hkeyg
          rw [hgcur] at hres
          dsimp only at hres
          obtain ⟨hmidf, hcurgf, hsomef, hchgf, hrelaxf⟩ :=
            astar_fold_mid (get_neighbors grid current.1 current.2 rows cols)
              rest cameFrom gScore (fun nb hnb => hnb) hmid hgcur _ rfl
          have hinv' : AInv grid rows cols start goal h _ _ _
              (current :: closed) (visited ++ [current]) :=
            hmidf.to_inv hcurgf
            (fun nb hnb => hrelaxf nb hnb)
            (fun x => by
              rw [List.mem_append, List.mem_singleton, List.mem_cons,
                hinv.visited_eq x]
              tauto)
            hvnodup'
          exact astarLoop_spec fuel _ _ _ _ _ _ hinv'
            (by simp [hcount]) res hres

/-- A duplicate-free list of valid cells has at most `rows * cols`
entries. -/
theorem valid_nodup_card {grid : Cells} {rows cols : Nat} {l : List Coord}
    (hn : l.Nodup) (hv : ∀ x ∈ l, ValidCell grid rows cols x) :
    l.length ≤ rows * cols := by
  rw [← List.toFinset_card_of_nodup hn]
  have hsub : l.toFinset ⊆
      Finset.image (fun p : Nat × Nat => ((p.1 : Int), (p.2 : Int)))
        (Finset.range rows ×ˢ Finset.range cols) := by
    intro x hx
    rw [List.mem_toFinset] at hx
    obtain ⟨h1, h2, h3, h4, h5⟩ := hv x hx
    rw [Finset.mem_image]
    refine ⟨(x.1.toNat, x.2.toNat), ?_, ?_⟩
    · rw [Finset.mem_product]
      constructor <;> rw [Finset.mem_range] <;> omega
    · rw [Prod.ext_iff]
      constructor <;> simp <;> omega
  calc l.toFinset.card ≤ _ := Finset.card_le_card hsub
    _ ≤ (Finset.range rows ×ˢ Finset.range cols).card := Finset.card_image_le
    _ = rows * cols := by
        rw [Finset.card_product, Finset.card_range, Finset.card_range]

/-- A cell has at most four neighbours. -/
theorem get_neighbors_length_le (grid : Cells) (row col : Int)
    (rows cols : Nat) :
    (get_neighbors grid row col rows cols).length ≤ 4 := by
  have := List.length_filterMap_le
    (fun d : Int × Int =>
      let nr := row + d.1
      let nc := col + d.2
      if 0 ≤ nr ∧ nr < (rows : Int) ∧ 0 ≤ nc ∧ nc < (cols : Int) ∧
          cellAt grid nr nc ≠ OBSTACLE then
        some (nr, nc)
      else none)
    ([(-1, 0), (1, 0), (0, -1), (0, 1)] : List (Int × Int))
  simpa [get_neighbors] using this

/-- Each fold step extends the open list by at most one entry. -/
theorem astar_fold_open_length {goal : Coord} {h : Coord → Coord → Nat}
    {current : Coord} {gcur : Nat} {closed : List Coord} :
    ∀ (nbs : List Coord) (st : List AEntry × CameFrom × GScore),
      ((nbs.foldl (astarExpand goal h current gcur closed) st).1).length ≤
        st.1.length + nbs.length
  | [], st => by simp
  | nb :: nbs, st => by
    rw [List.foldl_cons]
    have hstep :
        (astarExpand goal h current gcur closed st nb).1.length ≤
          st.1.length + 1 := by
      rw [astarExpand]
      dsimp only
      split
      · omega
      · split
        · simp
        · omega
    calc ((nbs.foldl (astarExpand goal h current gcur closed)
            (astarExpand goal h current gcur closed st nb)).1).length
        ≤ (astarExpand goal h current gcur closed st nb).1.length +
            nbs.length := astar_fold_open_length nbs _
      _ ≤ st.1.length + (nb :: nbs).length := by
          simp only [List.length_cons]
          omega

/-- Completeness of the `astar` main loop: with an edge-consistent
heuristic, a reachable goal, and enough fuel for the potential
`|open| + 4 * (rows * cols - |closed|)`, the loop returns a path. -/
theorem astarLoop_complete {grid : Cells} {rows cols : Nat}
    {start goal : Coord} {h : Coord → Coord → Nat}
    (hcons : ConsistentOn grid rows cols goal h)
    {kk : Nat} (hreach : PathTo grid rows cols start goal kk) :
    ∀ (fuel : Nat) (openList : List AEntry) (cameFrom : CameFrom)
      (gScore : GScore) (closed visited : List Coord)
      (snaps : List (Finset Coord)),
      AInv grid rows cols start goal h openList cameFrom gScore closed
        visited →
      openList.length + 4 * (rows * cols - closed.length) < fuel →
      ∃ p vis snaps2,
        astarLoop grid rows cols goal h fuel openList cameFrom gScore
          closed visited snaps = some (some p, vis, snaps2)
  | 0, openList, _, _, closed, _, _, _, hfuel => by omega
  | fuel + 1, openList, cameFrom, gScore, closed, visited, snaps, hinv,
      hfuel => by
    cases hpop : popMin aentryLe openList with
    | none =>
      exfalso
      obtain rfl := (popMin_eq_none aentryLe openList).mp hpop
      obtain ⟨e, he, -⟩ := hinv.relay hcons hreach hinv.goal_not_closed
      simp at he
    | some pc =>
      obtain ⟨⟨f, g, current⟩, rest⟩ := pc
      have hperm := popMin_perm aentryLe hpop
      have hlen : openList.length = rest.length + 1 := by
        rw [hperm.length_eq]
        rfl
      by_cases hcl : current ∈ closed
      · obtain ⟨p, vis, snaps2, heq⟩ :=
          astarLoop_complete hcons hreach fuel rest cameFrom gScore closed
            visited snaps (hinv.after_stale_pop hpop hcl) (by omega)
        refine ⟨p, vis, snaps2, ?_⟩
        rw [astarLoop, hpop]
        dsimp only
        rw [if_pos hcl]
        exact heq
      · have hmem : (f, g, current) ∈ openList :=
          hperm.mem_iff.mpr (List.mem_cons_self _ _)
        obtain ⟨-, -, gc0, hgc0, -⟩ := hinv.entry_inv _ hmem
        have hnv : current ∉ visited :=
          fun hv => hcl ((hinv.visited_eq current).mp hv)
        have hvnodup' : (visited ++ [current]).Nodup := by
          rw [List.nodup_append]
          exact ⟨hinv.visited_nodup, by simp, by simpa using hnv⟩
        by_cases hgoal : current = goal
        · subst hgoal
          have hkey : (cameFrom.lookup current).isSome :=
            (hinv.keys_eq current).mpr (by simp [hgc0])
          have hrank : ∀ n p : Coord,
              cameFrom.lookup n = some (some p) →
              (cameFrom.lookup p).isSome ∧
                (gScore.lookup p).getD 0 < (gScore.lookup n).getD 0 := by
            intro n p hl
            obtain ⟨gp, gn, h1, h2, h3, -, -⟩ := hinv.cf_g n p hl
            refine ⟨(hinv.keys_eq p).mpr (by simp [h1]), ?_⟩
            rw [h1, h2]
            simp [h3]
          obtain ⟨l, hrec, -, -⟩ :=
            reconstruct_path_ok cameFrom start
              (fun n => (gScore.lookup n).getD 0)
              hinv.start_bind hinv.none_only_start hrank current hkey
          refine ⟨l, visited ++ [current], snaps, ?_⟩
          rw [astarLoop, hpop]
          dsimp only
          rw [if_neg hcl, if_pos rfl, hrec]
        · obtain ⟨hkeyg, hmid⟩ := hinv.after_new_pop hpop hcl hgoal
          obtain ⟨gcur, hgcur⟩ := Option.isSome_iff_exists.mp hkeyg
          obtain ⟨hmidf, hcurgf, hsomef, hchgf, hrelaxf⟩ :=
            astar_fold_mid (get_neighbors grid current.1 current.2 rows cols)
              rest cameFrom gScore (fun nb hnb => hnb) hmid hgcur _ rfl
          have hinv' : AInv grid rows cols start goal h _ _ _
              (current :: closed) (visited ++ [current]) :=
            hmidf.to_inv hcurgf
            (fun nb hnb => hrelaxf nb hnb)
            (fun x => by
              rw [List.mem_append, List.mem_singleton, List.mem_cons,
                hinv.visited_eq x]
              tauto)
            hvnodup'
          have hclosedcard : closed.length + 1 ≤ rows * cols := by
            have hnodup' : (current :: closed).Nodup :=
              List.nodup_cons.mpr ⟨hcl, hinv.closed_nodup⟩
            have hvalid' : ∀ x ∈ current :: closed,
                ValidCell grid rows cols x := by
              intro x hx
              obtain ⟨gx, hgx⟩ :=
                Option.isSome_iff_exists.mp (hmid.closed_keys x hx)
              exact (hinv.g_path x gx hgx).valid_end
            have := valid_nodup_card hnodup' hvalid'
            simpa using this
          have hfoldlen :
              ((get_neighbors grid current.1 current.2 rows cols).foldl
                (astarExpand goal h current gcur (current :: closed))
                (rest, cameFrom, gScore)).1.length ≤ rest.length + 4 := by
            have h1 := @astar_fold_open_length goal h current gcur
              (current :: closed)
              (get_neighbors grid current.1 current.2 rows cols)
              (rest, cameFrom, gScore)
            have h2 := get_neighbors_length_le grid current.1 current.2
              rows cols
            dsimp only at h1
            omega
          obtain ⟨p, vis, snaps2, heq⟩ :=
            astarLoop_complete hcons hreach fuel _ _ _ _ _
              (snaps ++ [(((get_neighbors grid current.1 current.2 rows
                cols).foldl (astarExpand goal h current gcur
                (current :: closed)) (rest, cameFrom, gScore)).1.map
                (·.2.2)).toFinset])
              hinv' (by
                simp only [List.length_cons]
                omega)
          refine ⟨p, vis, snaps2, ?_⟩
          rw [astarLoop, hpop]
          dsimp only
          rw [if_neg hcl, if_neg hgoal, hgcur]
          exact heq

/-- A nonempty chain of valid neighbour steps is a path from its head
to its last element. -/
theorem chain'_to_pathTo {grid : Cells} {rows cols : Nat} :
    ∀ {p : List Coord} {s t : Coord},
      List.Chain' (EdgeStep grid rows cols) p →
      p.head? = some s → p.getLast? = some t →
      (∀ x ∈ p, ValidCell grid rows cols x) →
      PathTo grid rows cols s t (p.length - 1) := by
  intro p
  induction p using List.reverseRecOn with
  | nil =>
    intro s t _ hhead _ _
    simp at hhead
  | append_singleton l x ih =>
    intro s t hchain hhead hlast hvalid
    have hx : x = t := by
      rw [List.getLast?_concat] at hlast
      simpa using hlast
    subst hx
    cases l with
    | nil =>
      simp only [List.nil_append, List.head?_cons, Option.some.injEq] at hhead
      subst hhead
      simpa using PathTo.nil (hvalid _ (by simp))
    | cons y ys =>
      simp only [List.cons_append, List.head?_cons, Option.some.injEq] at hhead
      subst hhead
      rw [List.chain'_append] at hchain
      obtain ⟨hc1, -, hlink⟩ := hchain
      have hne : (y :: ys) ≠ ([] : List Coord) := by simp
      have hlastys : (y :: ys).getLast? = some ((y :: ys).getLast hne) :=
        List.getLast?_eq_getLast _ hne
      have hedge : EdgeStep grid rows cols ((y :: ys).getLast hne) x :=
        hlink _ (by rw [hlastys]; rfl) x rfl
      have hpath := ih hc1 rfl hlastys
        (fun z hz => hvalid z (List.mem_append_left _ hz))
      have := PathTo.cons hpath hedge
      simpa using this

/-- Admissibility of a heuristic: it never overestimates the length of
any valid path to the goal. -/
def AdmissibleOn (grid : Cells) (rows cols : Nat) (goal : Coord)
    (h : Coord → Coord → Nat) : Prop :=
  ∀ n k, PathTo grid rows cols n goal k → h n goal ≤ k

/-- A heuristic pointwise below the Manhattan distance is admissible. -/
theorem admissibleOn_of_le_manhattan {grid : Cells} {rows cols : Nat}
    {goal : Coord} {h : Coord → Coord → Nat}
    (hle : ∀ n, ValidCell grid rows cols n →
      h n goal ≤ manhattan_distance n goal) :
    AdmissibleOn grid rows cols goal h :=
  fun n _ hp => le_trans (hle n hp.valid_start) hp.manhattan_le

/-- The inconsistent-but-admissible heuristic of the optimality
counterexample. -/
def hcex : Coord → Coord → Nat :=
  fun a _ => if a = (0, 1) then 5 else 0

/-- The 3-by-7 grid of the relational counterexample: a single obstacle
at `(1, 5)`. -/
def c6grid : Cells :=
  [[0, 0, 0, 0, 0, 0, 0], [0, 0, 0, 0, 0, 1, 0], [0, 0, 0, 0, 0, 0, 0]]

/-- Value table of the admissible heuristic of the relational
counterexample (goal `(2, 0)`). -/
def c6tbl : List (Coord × Nat) :=
  [((0, 0), 0), ((0, 1), 2), ((0, 2), 4), ((0, 3), 1), ((0, 4), 3),
   ((0, 5), 2), ((0, 6), 6), ((1, 0), 0), ((1, 1), 1), ((1, 2), 3),
   ((1, 3), 1), ((1, 4), 4), ((1, 5), 3), ((1, 6), 1), ((2, 0), 0),
   ((2, 1), 0), ((2, 2), 2), ((2, 3), 0), ((2, 4), 1), ((2, 5), 5),
   ((2, 6), 3)]

/-- The table heuristic of the relational counterexample. -/
def hc6 : Coord → Coord → Nat :=
  fun a _ => (c6tbl.lookup a).getD 0

theorem hcex_admissible : AdmissibleOn (emptyGrid 2 7) 2 7 (0, 6) hcex := by
  apply admissibleOn_of_le_manhattan
  intro n _
  by_cases hn : n = ((0 : Int), (1 : Int))
  · subst hn
    decide
  · simp only [hcex, if_neg hn]
    exact Nat.zero_le _

theorem hc6_admissible : AdmissibleOn c6grid 3 7 (2, 0) hc6 := by
  apply admissibleOn_of_le_manhattan
  intro n hv
  obtain ⟨h1, h2, h3, h4, -⟩ := hv
  obtain ⟨a, b⟩ := n
  obtain ⟨an, rfl⟩ : ∃ an : Nat, a = (an : Int) :=
    ⟨a.toNat, by simp at h1 ⊢; omega⟩
  obtain ⟨bn, rfl⟩ : ∃ bn : Nat, b = (bn : Int) :=
    ⟨b.toNat, by simp at h3 ⊢; omega⟩
  have ha : an < 3 := by simpa using h2
  have hb : bn < 7 := by simpa using h4
  interval_cases an <;> interval_cases bn <;> decide

-- ──────────────────────────────────────────────────────────
-- Claim theorems for the search algorithms
-- ──────────────────────────────────────────────────────────

/-- C5: For every successful search (`astar` or `greedy_bfs` returning
a non-`None` path), the reconstructed path starts at `start`, ends at
`goal`, contains no repeated coordinates, every consecutive pair of
coordinates is 4-adjacent (a valid neighbour step), and every cell on
it is in bounds and not an obstacle. -/
theorem search_path_valid (grid : Cells) (rows cols : Nat)
    (start goal : Coord) (h : Coord → Coord → Nat) (fuel : Nat)
    (hstart : ValidCell grid rows cols start)
    (p vis : List Coord) (snaps : List (Finset Coord))
    (hres : astar grid start goal rows cols h fuel
        = some (some p, vis, snaps) ∨
      greedy_bfs grid start goal rows cols h fuel
        = some (some p, vis, snaps)) :
    p.head? = some start ∧ p.getLast? = some goal ∧ p.Nodup ∧
      List.Chain' (EdgeStep grid rows cols) p ∧
      ∀ x ∈ p, ValidCell grid rows cols x := by
  rcases hres with hres | hres
  · obtain ⟨-, -, hsucc⟩ := astarLoop_spec fuel _ _ _ _ _ _
      (AInv.initial_astar hstart) rfl _ hres
    obtain ⟨-, h1, h2, h3, h4, h5, -⟩ := hsucc p rfl
    exact ⟨h1, h2, h3, h4, h5⟩
  · obtain ⟨-, -, hsucc⟩ := greedyLoop_spec fuel _ _ _ _
      (GInv.initial hstart) rfl _ hres
    obtain ⟨-, h1, h2, h3, h4, h5⟩ := hsucc p rfl
    exact ⟨h1, h2, h3, h4, h5⟩

/-- C10: For every grid, start, goal and heuristic, the visitation
order returned by `astar` and by `greedy_bfs` contains pairwise
distinct coordinates: no coordinate is expanded twice. -/
theorem visited_order_distinct (grid : Cells) (rows cols : Nat)
    (start goal : Coord) (h : Coord → Coord → Nat) (fuel : Nat)
    (hstart : ValidCell grid rows cols start) (res : SearchResult)
    (hres : astar grid start goal rows cols h fuel = some res ∨
      greedy_bfs grid start goal rows cols h fuel = some res) :
    res.2.1.Nodup := by
  rcases hres with hres | hres
  · exact (astarLoop_spec fuel _ _ _ _ _ _ (AInv.initial_astar hstart) rfl
      res hres).1
  · exact (greedyLoop_spec fuel _ _ _ _ (GInv.initial hstart) rfl
      res hres).1

/-- C7 is refuted: on a successful run both searches return with the
final goal pop recorded in the visitation order but take no frontier
snapshot for it, so the frontier log holds one set fewer than the
number of expansions in `visited_order`. -/
theorem frontier_snapshot_cex :
    (astar (emptyGrid 1 2) (0, 0) (0, 1) 1 2 manhattan_distance 10).map
        (fun r => (r.1.isSome, r.2.1.length, r.2.2.length))
      = some (true, 2, 1) ∧
    (greedy_bfs (emptyGrid 1 2) (0, 0) (0, 1) 1 2
        manhattan_distance 10).map
        (fun r => (r.1.isSome, r.2.1.length, r.2.2.length))
      = some (true, 2, 1) :=
  ⟨rfl, rfl⟩

/-- C7 (amended): each expansion except the final goal pop of a
successful run appends exactly one frontier snapshot, so on a failed
search the log and the visitation order have equal length, and on a
successful one the visitation order is exactly one longer. -/
theorem frontier_snapshot_count (grid : Cells) (rows cols : Nat)
    (start goal : Coord) (h : Coord → Coord → Nat) (fuel : Nat)
    (hstart : ValidCell grid rows cols start) (res : SearchResult)
    (hres : astar grid start goal rows cols h fuel = some res ∨
      greedy_bfs grid start goal rows cols h fuel = some res) :
    (res.1 = none → res.2.1.length = res.2.2.length) ∧
      (∀ p, res.1 = some p → res.2.1.length = res.2.2.length + 1) := by
  rcases hres with hres | hres
  · obtain ⟨-, hn, hs⟩ := astarLoop_spec fuel _ _ _ _ _ _
      (AInv.initial_astar hstart) rfl res hres
    exact ⟨hn, fun p hp => (hs p hp).1⟩
  · obtain ⟨-, hn, hs⟩ := greedyLoop_spec fuel _ _ _ _
      (GInv.initial hstart) rfl res hres
    exact ⟨hn, fun p hp => (hs p hp).1⟩

/-- C6 is refuted: on `c6grid` with the admissible table heuristic
`hc6`, both searches succeed but `astar` returns a 10-node path (9
steps) while `greedy_bfs` returns an 8-node path (7 steps). -/
theorem astar_longer_than_greedy_cex :
    AdmissibleOn c6grid 3 7 (2, 0) hc6 ∧
    (astar c6grid (1, 6) (2, 0) 3 7 hc6 200).map
        (fun r => r.1.map List.length) = some (some 10) ∧
    (greedy_bfs c6grid (1, 6) (2, 0) 3 7 hc6 200).map
        (fun r => r.1.map List.length) = some (some 8) :=
  ⟨hc6_admissible, rfl, rfl⟩

/-- C6 (amended): when the heuristic is edge-consistent (not merely
admissible), any path returned by `astar` takes at most as many steps
as any path returned by `greedy_bfs` on the same search problem. -/
theorem astar_le_greedy (grid : Cells) (rows cols : Nat)
    (start goal : Coord) (h : Coord → Coord → Nat) (f1 f2 : Nat)
    (hcons : ConsistentOn grid rows cols goal h)
    (hstart : ValidCell grid rows cols start)
    (p1 vis1 : List Coord) (snaps1 : List (Finset Coord))
    (p2 vis2 : List Coord) (snaps2 : List (Finset Coord))
    (h1 : astar grid start goal rows cols h f1
      = some (some p1, vis1, snaps1))
    (h2 : greedy_bfs grid start goal rows cols h f2
      = some (some p2, vis2, snaps2)) :
    p1.length - 1 ≤ p2.length - 1 := by
  obtain ⟨-, -, hs1⟩ := astarLoop_spec f1 _ _ _ _ _ _
    (AInv.initial_astar hstart) rfl _ h1
  obtain ⟨-, -, -, -, -, -, hopt⟩ := hs1 p1 rfl
  obtain ⟨-, -, hs2⟩ := greedyLoop_spec f2 _ _ _ _
    (GInv.initial hstart) rfl _ h2
  obtain ⟨-, hh2, hl2, -, hch2, hv2⟩ := hs2 p2 rfl
  have hpath2 : PathTo grid rows cols start goal (p2.length - 1) :=
    chain'_to_pathTo hch2 hh2 hl2 hv2
  have hub := hopt hcons _ hpath2
  have hne2 : 0 < p2.length := by
    cases p2 with
    | nil => simp at hh2
    | cons y ys => simp
  omega

/-- C1 is refuted for merely admissible heuristics: on the obstacle-free
2-by-7 grid with the admissible (but inconsistent) heuristic `hcex`,
`astar` returns a 9-node path (8 steps) although a 6-step path from
`(0,0)` to `(0,6)` exists. -/
theorem astar_admissible_not_shortest_cex :
    AdmissibleOn (emptyGrid 2 7) 2 7 (0, 6) hcex ∧
    (astar (emptyGrid 2 7) (0, 0) (0, 6) 2 7 hcex 100).map
        (fun r => r.1.map List.length) = some (some 9) ∧
    PathTo (emptyGrid 2 7) 2 7 (0, 0) (0, 6) 6 := by
  refine ⟨hcex_admissible, rfl, ?_⟩
  refine pathTo_manhattan_of_free ?_ 6 (0, 0) (0, 6)
    (by unfold ValidCell; decide) (by unfold ValidCell; decide) (by decide)
  intro r c hr hc
  interval_cases r <;> interval_cases c <;> decide

/-- C1 (amended): when `astar` returns a path under an edge-consistent
heuristic it is a shortest valid 4-connected path (first goal pop is
optimal); and on an obstacle-free grid, for in-bounds start and goal
and enough fuel, `astar` with the Manhattan heuristic returns a path
whose node count is the Manhattan distance plus one. -/
theorem astar_optimality (grid : Cells) (rows cols : Nat)
    (start goal : Coord) :
    (∀ (h : Coord → Coord → Nat) (fuel : Nat)
      (p vis : List Coord) (snaps : List (Finset Coord)),
      ConsistentOn grid rows cols goal h →
      ValidCell grid rows cols start →
      astar grid start goal rows cols h fuel = some (some p, vis, snaps) →
      ∀ k, PathTo grid rows cols start goal k → p.length ≤ k + 1) ∧
    ((∀ r c : Nat, r < rows → c < cols → getCell grid r c ≠ OBSTACLE) →
      ValidCell grid rows cols start → ValidCell grid rows cols goal →
      ∀ fuel, 1 + 4 * (rows * cols) < fuel →
      ∃ p vis snaps,
        astar grid start goal rows cols manhattan_distance fuel
          = some (some p, vis, snaps) ∧
        p.length = manhattan_distance start goal + 1) := by
  constructor
  · intro h fuel p vis snaps hcons hstart hres k hk
    obtain ⟨-, -, hs⟩ := astarLoop_spec fuel _ _ _ _ _ _
      (AInv.initial_astar hstart) rfl _ hres
    obtain ⟨-, -, -, -, -, -, hopt⟩ := hs p rfl
    exact hopt hcons k hk
  · intro hfree hstart hgoal fuel hfuel
    have hcons := manhattan_consistent grid rows cols goal
    have hreach : PathTo grid rows cols start goal
        (manhattan_distance start goal) :=
      pathTo_manhattan_of_free hfree _ start goal hstart hgoal rfl
    obtain ⟨p, vis, snaps2, heq⟩ := astarLoop_complete hcons hreach fuel
      [(manhattan_distance start goal, 0, start)] [(start, none)]
      [(start, 0)] [] [] [] (AInv.initial_astar hstart) (by simpa using hfuel)
    refine ⟨p, vis, snaps2, heq, ?_⟩
    obtain ⟨-, -, hs⟩ := astarLoop_spec fuel _ _ _ _ _ _
      (AInv.initial_astar hstart) rfl _ heq
    obtain ⟨-, hh, hl, -, hch, hv, hopt⟩ := hs p rfl
    have hub := hopt hcons _ hreach
    have hpath : PathTo grid rows cols start goal (p.length - 1) :=
      chain'_to_pathTo hch hh hl hv
    have hlb := hpath.manhattan_le
    have hne : 0 < p.length := by
      cases p with
      | nil => simp at hh
      | cons y ys => simp
    omega

theorem search_path_valid_witness :
    ValidCell (emptyGrid 1 2) 1 2 (0, 0) ∧
    (([(0, 0), (0, 1)] : List Coord).head? = some (0, 0) ∧
      ([(0, 0), (0, 1)] : List Coord).getLast? = some (0, 1) ∧
      ([(0, 0), (0, 1)] : List Coord).Nodup ∧
      List.Chain' (EdgeStep (emptyGrid 1 2) 1 2) [(0, 0), (0, 1)] ∧
      ∀ x ∈ ([(0, 0), (0, 1)] : List Coord),
        ValidCell (emptyGrid 1 2) 1 2 x) :=
  ⟨by unfold ValidCell; decide,
   search_path_valid (emptyGrid 1 2) 1 2 (0, 0) (0, 1) manhattan_distance
     10 (by unfold ValidCell; decide) _ _ _ (Or.inl rfl)⟩

theorem visited_order_distinct_witness :
    ValidCell (emptyGrid 1 2) 1 2 (0, 0) ∧
    ([(0, 0), (0, 1)] : List Coord).Nodup :=
  ⟨by unfold ValidCell; decide,
   visited_order_distinct (emptyGrid 1 2) 1 2 (0, 0) (0, 1)
     manhattan_distance 10 (by unfold ValidCell; decide)
     (some [(0, 0), (0, 1)], [(0, 0), (0, 1)],
       [([((0 : Int), (1 : Int))] : List Coord).toFinset])
     (Or.inr rfl)⟩

theorem frontier_snapshot_count_witness :
    ValidCell (emptyGrid 1 2) 1 2 (0, 0) ∧
    ([(0, 0), (0, 1)] : List Coord).length =
      [(([((0 : Int), (1 : Int))] : List Coord).toFinset)].length + 1 :=
  ⟨by unfold ValidCell; decide,
   (frontier_snapshot_count (emptyGrid 1 2) 1 2 (0, 0) (0, 1)
      manhattan_distance 10 (by unfold ValidCell; decide)
      (some [(0, 0), (0, 1)], [(0, 0), (0, 1)],
        [([((0 : Int), (1 : Int))] : List Coord).toFinset])
      (Or.inl rfl)).2 [(0, 0), (0, 1)] rfl⟩

theorem astar_le_greedy_witness :
    ConsistentOn (emptyGrid 1 2) 1 2 (0, 1) manhattan_distance ∧
    ([(0, 0), (0, 1)] : List Coord).length - 1 ≤
      ([(0, 0), (0, 1)] : List Coord).length - 1 :=
  ⟨manhattan_consistent (emptyGrid 1 2) 1 2 (0, 1),
   astar_le_greedy (emptyGrid 1 2) 1 2 (0, 0) (0, 1) manhattan_distance
     10 10 (manhattan_consistent (emptyGrid 1 2) 1 2 (0, 1))
     (by unfold ValidCell; decide) _ _ _ _ _ _ rfl rfl⟩

theorem astar_optimality_witness :
    (astar (emptyGrid 1 2) (0, 0) (0, 1) 1 2 manhattan_distance 10).map
      (fun r => r.1.map List.length) = some (some 2) := by
  obtain ⟨p, vis, snaps, heq, hlen⟩ :=
    (astar_optimality (emptyGrid 1 2) 1 2 (0, 0) (0, 1)).2
      (fun r c hr hc => by interval_cases r <;> interval_cases c <;> decide)
      (by unfold ValidCell; decide) (by unfold ValidCell; decide)
      10 (by decide)
  rw [heq]
  simp [hlen, manhattan_distance]
